import Mathlib

/-!
# UITween: the tween instance state machine and the batched update scheduler

A shallow embedding of `Source/UITween/Private/BUITween.cpp`.

Conventions of the embedding

* `float` values are rationals (`ℚ`).  `FBUITweenInstance.Update` and the scheduler built on
  it compute exactly.  `FBUITweenInstance.UpdateRounded` and the definitions over a `Client`
  round the two `float` results of a call (`Delay -= DeltaTime`, `Alpha += DeltaTime`) by a
  rounding function; `Single.Round` is IEEE 754 single precision.  Infinities and NaN are not
  modelled.
* A widget pointer (`UWidget*`, `TWeakObjectPtr<UWidget>`) is a handle: an index into the
  list of widget objects of the host.  A handle is valid when it names an object whose
  `bValid` flag is set; every other handle (null, destroyed object) is invalid.  Pointer
  comparison is comparison of handles.
* Delegates are callback identifiers.  What a callback does is looked up in an environment:
  a finite program of scheduler calls (`Create` followed by the builder chain, or `Clear`).
  An `Env` holds the completion callbacks; over an `Env` a start callback is an observable
  event that makes no scheduler call, and `FBUITweenInstance::Update` is a function of the
  instance.  A `Client` holds the start callbacks too; over a `Client` the call runs through
  the reference `ActiveInstances[ i ]`, as in the source, and a start callback that calls
  `Clear` moves the array under it.  For a client whose start callbacks make no scheduler
  call, in exact arithmetic, the two agree (`Plain_Update`).
* `TArray` is `List`; `operator[]` outside the bounds raises `Fault`, after which nothing
  else runs; so do a write through a reference to a slot past the end of the array and the
  dereference of a null widget pointer in `Apply`.
* Two fields exist for specification only and are read by no operation: `Serial`
  (the creation number of an instance, its identity across copies) and `Log` (the trace of
  calls and widget writes).
-/

namespace UITween

/-! ## Host object model -/

/-- A widget handle. -/
abbrev WidgetPtr := Nat

structure FVector2D where
  X : ℚ
  Y : ℚ
deriving DecidableEq, Repr

structure FLinearColor where
  R : ℚ
  G : ℚ
  B : ℚ
  A : ℚ
deriving DecidableEq, Repr

structure FWidgetTransform where
  Translation : FVector2D
  Scale : FVector2D
  Shear : FVector2D
  Angle : ℚ
deriving DecidableEq, Repr

/-- The concrete widget classes `Apply` and `Begin` probe with `Cast<>`. -/
inductive EWidgetClass where
  | UserWidget
  | Image
  | Border
  | Other
deriving DecidableEq, Repr

inductive ESlateVisibility where
  | Visible
  | Collapsed
  | Hidden
  | HitTestInvisible
  | SelfHitTestInvisible
deriving DecidableEq, Repr

/-- The part of a widget object the tween code reads or writes.  `CanvasSlotPosition` is
`some p` exactly when the widget's `Slot` is a `UCanvasPanelSlot` (at position `p`). -/
structure UWidget where
  bValid : Bool
  Class : EWidgetClass
  RenderTransform : FWidgetTransform
  RenderOpacity : ℚ
  ColorAndOpacity : FLinearColor
  ContentColorAndOpacity : FLinearColor
  Visibility : ESlateVisibility
  CanvasSlotPosition : Option FVector2D
deriving DecidableEq, Repr

/-- The trace of observable calls. -/
inductive Event where
  /-- `UBUITween::Create` constructed the instance with this serial -/
  | Created (Serial : Nat)
  /-- `FBUITweenInstance::Update` was called on the instance -/
  | InstUpdate (Serial : Nat)
  /-- `OnStartedDelegate.ExecuteIfBound` was called by the instance -/
  | Started (Serial : Nat)
  /-- `FBUITweenInstance::Apply` was called on the instance -/
  | Applied (Serial : Nat) (EasedAlpha : ℚ)
  /-- `DoCompleteCleanup` was called on the detached copy of the instance -/
  | Cleanup (Serial : Nat)
  /-- the completion delegate of the instance was executed -/
  | Completed (Serial : Nat)
  /-- the warning of `Begin` on an invalid widget -/
  | Warning (Serial : Nat)
  | SetColorAndOpacity (Target : WidgetPtr) (Value : FLinearColor)
  | SetContentColorAndOpacity (Target : WidgetPtr) (Value : FLinearColor)
  | SetRenderOpacity (Target : WidgetPtr) (Value : ℚ)
  | SetVisibility (Target : WidgetPtr) (Value : ESlateVisibility)
  | SetRenderTransform (Target : WidgetPtr) (Value : FWidgetTransform)
  | SetPosition (Target : WidgetPtr) (Value : FVector2D)
deriving DecidableEq, Repr

/-- The host: its widget objects and the trace. -/
structure Host where
  Widgets : List UWidget
  Log : List Event
deriving DecidableEq, Repr

/-- `TWeakObjectPtr::IsValid`. -/
def Host.IsValid (H : Host) (p : WidgetPtr) : Bool :=
  match H.Widgets[p]? with
  | some w => w.bValid
  | none => false

/-- A write through a widget pointer, with the call recorded in the trace. -/
def Host.Write (H : Host) (p : WidgetPtr) (f : UWidget → UWidget) (e : Event) : Host :=
  match H.Widgets[p]? with
  | some w => { Widgets := H.Widgets.set p (f w), Log := H.Log ++ [e] }
  | none => { H with Log := H.Log ++ [e] }

def Host.Emit (H : Host) (e : Event) : Host :=
  { H with Log := H.Log ++ [e] }

/-! ## Property channels -/

/-- Modelled from the spec: the property channel template of `BUITween.h`, which is not
part of the sources (spec 3, PropertyChannel: `enabled`, `beginValue`, `endValue`,
`currentValue`). -/
structure TBUITweenProp (T : Type) where
  Enabled : Bool
  BeginValue : T
  EndValue : T
  CurrentValue : T
deriving DecidableEq, Repr

/-- Modelled from the spec: `IsSet()` of a channel, "whether this channel participates in
Apply". -/
def TBUITweenProp.IsSet {T : Type} (P : TBUITweenProp T) : Bool := P.Enabled

/-- Modelled from the spec: `OnBegin(liveValue)`, "marks enabled, sets
`beginValue = liveValue`" (spec 4.1). -/
def TBUITweenProp.OnBegin {T : Type} (P : TBUITweenProp T) (Live : T) : TBUITweenProp T :=
  { P with Enabled := true, BeginValue := Live }

/-- Modelled from the spec: a builder setter, which "marks the corresponding channel
enabled and records its end value" (spec 4.2). -/
def TBUITweenProp.SetTarget {T : Type} (P : TBUITweenProp T) (End : T) : TBUITweenProp T :=
  { P with Enabled := true, EndValue := End }

def lerp (a b t : ℚ) : ℚ := a + (b - a) * t

def FVector2D.lerp (a b : FVector2D) (t : ℚ) : FVector2D :=
  ⟨UITween.lerp a.X b.X t, UITween.lerp a.Y b.Y t⟩

def FLinearColor.lerp (a b : FLinearColor) (t : ℚ) : FLinearColor :=
  ⟨UITween.lerp a.R b.R t, UITween.lerp a.G b.G t, UITween.lerp a.B b.B t,
   UITween.lerp a.A b.A t⟩

/-- Modelled from the spec: `Update(easedAlpha)` of a continuous channel,
`currentValue = lerp(beginValue, endValue, easedAlpha)`; the flag reports that the
current value changed (spec 4.1). -/
def TBUITweenProp.Update {T : Type} [DecidableEq T] (Lerp : T → T → ℚ → T)
    (P : TBUITweenProp T) (EasedAlpha : ℚ) : TBUITweenProp T × Bool :=
  let New := Lerp P.BeginValue P.EndValue EasedAlpha
  ({ P with CurrentValue := New }, decide (New ≠ P.CurrentValue))

/-- Modelled from the spec: `Update(easedAlpha)` of the visibility channel: "the value snaps
to `endValue` only at `easedAlpha >= 1.0` and to `beginValue` at `easedAlpha <= 0.0`;
intermediate alphas report `changed = false`" (spec 4.1). -/
def TBUITweenProp.UpdateVisibility (P : TBUITweenProp ESlateVisibility) (EasedAlpha : ℚ) :
    TBUITweenProp ESlateVisibility × Bool :=
  if 1 ≤ EasedAlpha then
    ({ P with CurrentValue := P.EndValue }, decide (P.EndValue ≠ P.CurrentValue))
  else if EasedAlpha ≤ 0 then
    ({ P with CurrentValue := P.BeginValue }, decide (P.BeginValue ≠ P.CurrentValue))
  else (P, false)

/-! ## The tween instance -/

structure FBUITweenInstance where
  /-- specification only: creation number -/
  Serial : Nat
  pWidget : WidgetPtr
  Duration : ℚ
  Delay : ℚ
  Alpha : ℚ
  bShouldUpdate : Bool
  bIsComplete : Bool
  bHasPlayedStartEvent : Bool
  bHasPlayedCompleteEvent : Bool
  EasingType : Nat
  EasingParam : Option ℚ
  OnStartedDelegate : Option Nat
  OnCompleteDelegate : Option Nat
  ColorProp : TBUITweenProp FLinearColor
  OpacityProp : TBUITweenProp ℚ
  VisibilityProp : TBUITweenProp ESlateVisibility
  TranslationProp : TBUITweenProp FVector2D
  ScaleProp : TBUITweenProp FVector2D
  RotationProp : TBUITweenProp ℚ
  CanvasPositionProp : TBUITweenProp FVector2D
deriving DecidableEq, Repr

/-- A channel nobody has touched yet. -/
def TBUITweenProp.Unset {T : Type} (Zero : T) : TBUITweenProp T :=
  { Enabled := false, BeginValue := Zero, EndValue := Zero, CurrentValue := Zero }

/-- Modelled from the spec: the constructor `FBUITweenInstance( pInWidget, InDuration,
InDelay )` of `BUITween.h`, which is not part of the sources: "constructs a new instance in
pending-delay or ramping state (not yet activated)" with `elapsed` at 0, no channel enabled
and no callback bound (spec 3, 4.3). -/
def FBUITweenInstance.Construct (Serial : Nat) (pInWidget : WidgetPtr)
    (InDuration InDelay : ℚ) : FBUITweenInstance :=
  { Serial := Serial
    pWidget := pInWidget
    Duration := InDuration
    Delay := InDelay
    Alpha := 0
    bShouldUpdate := false
    bIsComplete := false
    bHasPlayedStartEvent := false
    bHasPlayedCompleteEvent := false
    EasingType := 0
    EasingParam := none
    OnStartedDelegate := none
    OnCompleteDelegate := none
    ColorProp := TBUITweenProp.Unset ⟨0, 0, 0, 0⟩
    OpacityProp := TBUITweenProp.Unset 0
    VisibilityProp := TBUITweenProp.Unset ESlateVisibility.Visible
    TranslationProp := TBUITweenProp.Unset ⟨0, 0⟩
    ScaleProp := TBUITweenProp.Unset ⟨0, 0⟩
    RotationProp := TBUITweenProp.Unset 0
    CanvasPositionProp := TBUITweenProp.Unset ⟨0, 0⟩ }

def FBUITweenInstance.GetWidget (I : FBUITweenInstance) : WidgetPtr := I.pWidget

def FBUITweenInstance.IsComplete (I : FBUITweenInstance) : Bool := I.bIsComplete

/-- What a dereference of an invalid handle reads.  `Begin` and `Update` check `IsValid`
before they reach a dereference. -/
def UWidget.Null : UWidget :=
  { bValid := false
    Class := EWidgetClass.Other
    RenderTransform := ⟨⟨0, 0⟩, ⟨0, 0⟩, ⟨0, 0⟩, 0⟩
    RenderOpacity := 0
    ColorAndOpacity := ⟨0, 0, 0, 0⟩
    ContentColorAndOpacity := ⟨0, 0, 0, 0⟩
    Visibility := ESlateVisibility.Visible
    CanvasSlotPosition := none }

def Host.Get (H : Host) (p : WidgetPtr) : UWidget := H.Widgets.getD p UWidget.Null

/-- Lines 182-200 of `Apply`: the colour channel, written through whichever of the three
colour-bearing classes the target has. -/
def FBUITweenInstance.ApplyColor (I : FBUITweenInstance) (EasedAlpha : ℚ) (H : Host) :
    FBUITweenInstance × Host :=
  if I.ColorProp.IsSet then
    let P := (I.ColorProp.Update FLinearColor.lerp EasedAlpha).1
    let I1 := { I with ColorProp := P }
    match (H.Get I.pWidget).Class with
    | EWidgetClass.UserWidget =>
      (I1, H.Write I.pWidget (fun w => { w with ColorAndOpacity := P.CurrentValue })
        (Event.SetColorAndOpacity I.pWidget P.CurrentValue))
    | EWidgetClass.Image =>
      (I1, H.Write I.pWidget (fun w => { w with ColorAndOpacity := P.CurrentValue })
        (Event.SetColorAndOpacity I.pWidget P.CurrentValue))
    | EWidgetClass.Border =>
      (I1, H.Write I.pWidget (fun w => { w with ContentColorAndOpacity := P.CurrentValue })
        (Event.SetContentColorAndOpacity I.pWidget P.CurrentValue))
    | EWidgetClass.Other => (I1, H)
  else (I, H)

/-- Lines 202-206 of `Apply`. -/
def FBUITweenInstance.ApplyOpacity (I : FBUITweenInstance) (EasedAlpha : ℚ) (H : Host) :
    FBUITweenInstance × Host :=
  if I.OpacityProp.IsSet then
    let P := (I.OpacityProp.Update UITween.lerp EasedAlpha).1
    ({ I with OpacityProp := P },
      H.Write I.pWidget (fun w => { w with RenderOpacity := P.CurrentValue })
        (Event.SetRenderOpacity I.pWidget P.CurrentValue))
  else (I, H)

/-- Lines 208-215 of `Apply`. -/
def FBUITweenInstance.ApplyVisibility (I : FBUITweenInstance) (EasedAlpha : ℚ) (H : Host) :
    FBUITweenInstance × Host :=
  if I.VisibilityProp.IsSet then
    let R := I.VisibilityProp.UpdateVisibility EasedAlpha
    let I1 := { I with VisibilityProp := R.1 }
    if R.2 then
      (I1, H.Write I.pWidget (fun w => { w with Visibility := R.1.CurrentValue })
        (Event.SetVisibility I.pWidget R.1.CurrentValue))
    else (I1, H)
  else (I, H)

/-- Lines 240-248 of `Apply`. -/
def FBUITweenInstance.ApplyCanvasPosition (I : FBUITweenInstance) (EasedAlpha : ℚ)
    (H : Host) : FBUITweenInstance × Host :=
  if I.CanvasPositionProp.IsSet then
    let R := I.CanvasPositionProp.Update FVector2D.lerp EasedAlpha
    let I1 := { I with CanvasPositionProp := R.1 }
    if R.2 then
      match (H.Get I.pWidget).CanvasSlotPosition with
      | some _ =>
        (I1, H.Write I.pWidget (fun w => { w with CanvasSlotPosition := some R.1.CurrentValue })
          (Event.SetPosition I.pWidget R.1.CurrentValue))
      | none => (I1, H)
    else (I1, H)
  else (I, H)

/-- The local state of the transform group of `Apply` (lines 217-218): the instance, the
transform read once from the target, and `bChangedRenderTransform`. -/
structure TransformGroup where
  Inst : FBUITweenInstance
  CurrentTransform : FWidgetTransform
  bChangedRenderTransform : Bool
deriving DecidableEq, Repr

/-- Lines 220-225 of `Apply`. -/
def TransformGroup.Translation (G : TransformGroup) (EasedAlpha : ℚ) : TransformGroup :=
  if G.Inst.TranslationProp.IsSet then
    let P := (G.Inst.TranslationProp.Update FVector2D.lerp EasedAlpha).1
    { Inst := { G.Inst with TranslationProp := P }
      CurrentTransform := { G.CurrentTransform with Translation := P.CurrentValue }
      bChangedRenderTransform := true }
  else G

/-- Lines 226-231 of `Apply`. -/
def TransformGroup.Scale (G : TransformGroup) (EasedAlpha : ℚ) : TransformGroup :=
  if G.Inst.ScaleProp.IsSet then
    let P := (G.Inst.ScaleProp.Update FVector2D.lerp EasedAlpha).1
    { Inst := { G.Inst with ScaleProp := P }
      CurrentTransform := { G.CurrentTransform with Scale := P.CurrentValue }
      bChangedRenderTransform := true }
  else G

/-- Lines 232-239 of `Apply`. -/
def TransformGroup.Rotation (G : TransformGroup) (EasedAlpha : ℚ) : TransformGroup :=
  if G.Inst.RotationProp.IsSet then
    let R := G.Inst.RotationProp.Update UITween.lerp EasedAlpha
    if R.2 then
      { Inst := { G.Inst with RotationProp := R.1 }
        CurrentTransform := { G.CurrentTransform with Angle := R.1.CurrentValue }
        bChangedRenderTransform := true }
    else { G with Inst := { G.Inst with RotationProp := R.1 } }
  else G

/-- `FBUITweenInstance::Apply` (lines 178-254). -/
def FBUITweenInstance.Apply (I : FBUITweenInstance) (EasedAlpha : ℚ) (H : Host) :
    FBUITweenInstance × Host :=
  let H0 := H.Emit (Event.Applied I.Serial EasedAlpha)
  let C := I.ApplyColor EasedAlpha H0
  let O := C.1.ApplyOpacity EasedAlpha C.2
  let V := O.1.ApplyVisibility EasedAlpha O.2
  let G0 : TransformGroup :=
    { Inst := V.1
      CurrentTransform := (V.2.Get I.pWidget).RenderTransform
      bChangedRenderTransform := false }
  let G := ((G0.Translation EasedAlpha).Scale EasedAlpha).Rotation EasedAlpha
  let P := G.Inst.ApplyCanvasPosition EasedAlpha V.2
  if G.bChangedRenderTransform then
    (P.1, P.2.Write I.pWidget (fun w => { w with RenderTransform := G.CurrentTransform })
      (Event.SetRenderTransform I.pWidget G.CurrentTransform))
  else P

/-- `FBUITweenInstance::Begin` (lines 99-136). -/
def FBUITweenInstance.Begin (I : FBUITweenInstance) (H : Host) : FBUITweenInstance × Host :=
  let I1 := { I with
    bShouldUpdate := true
    bHasPlayedStartEvent := false
    bHasPlayedCompleteEvent := false }
  if !H.IsValid I.pWidget then (I1, H.Emit (Event.Warning I.Serial))
  else
    let W := H.Get I.pWidget
    let I2 := { I1 with
      TranslationProp := I1.TranslationProp.OnBegin W.RenderTransform.Translation
      ScaleProp := I1.ScaleProp.OnBegin W.RenderTransform.Scale
      OpacityProp := I1.OpacityProp.OnBegin W.RenderOpacity }
    let I3 :=
      match W.Class with
      | EWidgetClass.UserWidget => { I2 with ColorProp := I2.ColorProp.OnBegin W.ColorAndOpacity }
      | EWidgetClass.Image => { I2 with ColorProp := I2.ColorProp.OnBegin W.ColorAndOpacity }
      | EWidgetClass.Border =>
        { I2 with ColorProp := I2.ColorProp.OnBegin W.ContentColorAndOpacity }
      | EWidgetClass.Other => I2
    I3.Apply 0 H

/-- Modelled from the spec: the easing library `FBUIEasing::Ease` is not part of the
sources; "consumed as a pure function `Ease(kind, t, duration, param?) -> alpha`"
(spec 1, 6).  The parameter is `none` for the overload without one. -/
abbrev EaseFn := Nat → ℚ → ℚ → Option ℚ → ℚ

/-- Lines 138-176: `FBUITweenInstance::Update`, as a function of the instance: arithmetic is
exact and the start delegate is an observable event that makes no scheduler call.
`FBUITweenInstance.UpdateRounded` rounds; `Client.InstanceUpdate` is the call through the
array reference, with start callbacks that call the scheduler. -/
def FBUITweenInstance.Update (Ease : EaseFn) (I : FBUITweenInstance) (DeltaTime : ℚ)
    (H : Host) : FBUITweenInstance × Host :=
  let H0 := H.Emit (Event.InstUpdate I.Serial)
  if !I.bShouldUpdate && !I.bIsComplete then (I, H0)
  else if !H0.IsValid I.pWidget then ({ I with bIsComplete := true }, H0)
  else if I.Delay > 0 then ({ I with Delay := I.Delay - DeltaTime }, H0)
  else
    let S : FBUITweenInstance × Host :=
      if !I.bHasPlayedStartEvent then
        ({ I with bHasPlayedStartEvent := true },
          match I.OnStartedDelegate with
          | some _ => H0.Emit (Event.Started I.Serial)
          | none => H0)
      else (I, H0)
    let I1 : FBUITweenInstance := { S.1 with Alpha := S.1.Alpha + DeltaTime }
    let I2 : FBUITweenInstance :=
      if I1.Alpha ≥ I1.Duration then { I1 with Alpha := I1.Duration, bIsComplete := true }
      else I1
    let EasedAlpha :=
      match I2.EasingParam with
      | some Param => Ease I2.EasingType I2.Alpha I2.Duration (some Param)
      | none => Ease I2.EasingType I2.Alpha I2.Duration none
    I2.Apply EasedAlpha S.2

/-! ## The scheduler -/

/-- The static members of `UBUITween` (lines 10-12) together with the host the scheduler
runs in.  `NextSerial` is the specification-only counter behind `Serial`; `Fault` records
a failed range check of `operator[]`, a write through a dangling reference or a null
dereference. -/
structure UBUITween where
  ActiveInstances : List FBUITweenInstance
  InstancesToAdd : List FBUITweenInstance
  bIsInitialized : Bool
  World : Host
  NextSerial : Nat
  Fault : Bool
deriving DecidableEq, Repr

/-- The process before `Startup`: both arrays empty, nothing traced yet. -/
def UBUITween.Initial (Widgets : List UWidget) : UBUITween :=
  { ActiveInstances := []
    InstancesToAdd := []
    bIsInitialized := false
    World := { Widgets := Widgets, Log := [] }
    NextSerial := 0
    Fault := false }

/-- Lines 14-19. -/
def UBUITween.Startup (S : UBUITween) : UBUITween :=
  { S with bIsInitialized := true, ActiveInstances := [], InstancesToAdd := [] }

/-- Lines 22-27. -/
def UBUITween.Shutdown (S : UBUITween) : UBUITween :=
  { S with ActiveInstances := [], InstancesToAdd := [], bIsInitialized := false }

/-- The loop of `Clear` (lines 49-56); the first argument is `i + 1`. -/
def UBUITween.ClearLoop (W : Host) (pInWidget : WidgetPtr) :
    Nat → List FBUITweenInstance → Nat → List FBUITweenInstance × Nat
  | 0, Active, NumRemoved => (Active, NumRemoved)
  | i + 1, Active, NumRemoved =>
    match Active[i]? with
    | none => (Active, NumRemoved)
    | some Inst =>
      if W.IsValid Inst.GetWidget && Inst.GetWidget == pInWidget then
        UBUITween.ClearLoop W pInWidget i (Active.eraseIdx i) (NumRemoved + 1)
      else UBUITween.ClearLoop W pInWidget i Active NumRemoved

/-- Lines 46-58: `UBUITween::Clear`; the second component is the returned `NumRemoved`. -/
def UBUITween.Clear (S : UBUITween) (pInWidget : WidgetPtr) : UBUITween × Nat :=
  let R := UBUITween.ClearLoop S.World pInWidget S.ActiveInstances.length S.ActiveInstances 0
  ({ S with ActiveInstances := R.1 }, R.2)

/-- Lines 30-43: `UBUITween::Create`.  The returned reference is `InstancesToAdd.Last()`,
see `UBUITween.Last`. -/
def UBUITween.Create (S : UBUITween) (pInWidget : WidgetPtr) (InDuration InDelay : ℚ)
    (bIsAdditive : Bool) : UBUITween :=
  let S1 := if !bIsAdditive then (S.Clear pInWidget).1 else S
  let Instance := FBUITweenInstance.Construct S1.NextSerial pInWidget InDuration InDelay
  { S1 with
    InstancesToAdd := S1.InstancesToAdd ++ [Instance]
    NextSerial := S1.NextSerial + 1
    World := S1.World.Emit (Event.Created S1.NextSerial) }

/-- `InstancesToAdd.Last()` (line 42). -/
def UBUITween.Last (S : UBUITween) : Option FBUITweenInstance := S.InstancesToAdd.getLast?

/-- Modelled from the spec: the chainable setters of `BUITween.h`, which is not part of the
sources (spec 4.2); `Begin` is the call of `FBUITweenInstance::Begin` that ends a chain. -/
inductive Setter where
  | SetTranslation (End : FVector2D)
  | SetScale (End : FVector2D)
  | SetOpacity (End : ℚ)
  | SetColor (End : FLinearColor)
  | SetRotation (End : ℚ)
  | SetVisibility (End : ESlateVisibility)
  | SetCanvasPosition (End : FVector2D)
  | SetEasing (Kind : Nat) (Param : Option ℚ)
  | SetOnStart (Callback : Nat)
  | SetOnComplete (Callback : Nat)
  | Begin
deriving DecidableEq, Repr

/-- Modelled from the spec: one call of a builder chain on an instance (spec 4.2: "each
setter marks the corresponding channel enabled and records its end value"). -/
def FBUITweenInstance.Set (I : FBUITweenInstance) (H : Host) :
    Setter → FBUITweenInstance × Host
  | Setter.SetTranslation v => ({ I with TranslationProp := I.TranslationProp.SetTarget v }, H)
  | Setter.SetScale v => ({ I with ScaleProp := I.ScaleProp.SetTarget v }, H)
  | Setter.SetOpacity v => ({ I with OpacityProp := I.OpacityProp.SetTarget v }, H)
  | Setter.SetColor v => ({ I with ColorProp := I.ColorProp.SetTarget v }, H)
  | Setter.SetRotation v => ({ I with RotationProp := I.RotationProp.SetTarget v }, H)
  | Setter.SetVisibility v => ({ I with VisibilityProp := I.VisibilityProp.SetTarget v }, H)
  | Setter.SetCanvasPosition v =>
    ({ I with CanvasPositionProp := I.CanvasPositionProp.SetTarget v }, H)
  | Setter.SetEasing k p => ({ I with EasingType := k, EasingParam := p }, H)
  | Setter.SetOnStart cb => ({ I with OnStartedDelegate := some cb }, H)
  | Setter.SetOnComplete cb => ({ I with OnCompleteDelegate := some cb }, H)
  | Setter.Begin => I.Begin H

/-- A builder chain, left to right. -/
def FBUITweenInstance.Configure (I : FBUITweenInstance) (H : Host) :
    List Setter → FBUITweenInstance × Host
  | [] => (I, H)
  | s :: Rest =>
    let R := I.Set H s
    R.1.Configure R.2 Rest

/-- The caller's builder chain on the reference `Create` returned. -/
def UBUITween.Chain (S : UBUITween) (Setters : List Setter) : UBUITween :=
  match S.InstancesToAdd.getLast? with
  | none => S
  | some I =>
    let R := I.Configure S.World Setters
    { S with InstancesToAdd := S.InstancesToAdd.dropLast ++ [R.1], World := R.2 }

/-- A scheduler call a client or a completion callback makes. -/
inductive Action where
  | Create (pInWidget : WidgetPtr) (InDuration InDelay : ℚ) (bIsAdditive : Bool)
      (Setters : List Setter)
  | Clear (pInWidget : WidgetPtr)
deriving DecidableEq, Repr

/-- What the code around the scheduler is: the body of every completion callback, and the
easing library. -/
structure Env where
  Callbacks : Nat → List Action
  Ease : EaseFn

def UBUITween.Perform (S : UBUITween) : Action → UBUITween
  | Action.Create w d dl add Setters => (S.Create w d dl add).Chain Setters
  | Action.Clear w => (S.Clear w).1

def UBUITween.Run (S : UBUITween) (Actions : List Action) : UBUITween :=
  Actions.foldl UBUITween.Perform S

def UBUITween.Emit (S : UBUITween) (e : Event) : UBUITween :=
  { S with World := S.World.Emit e }

/-- Modelled from the spec: `DoCompleteCleanup` of `BUITween.h`, which is not part of the
sources: it fires the completion callback, guarded by `hasFiredComplete` (spec 3:
"`hasFiredStart`, `hasFiredComplete` guard one-shot callback firing"; 4.2).  It runs on
the detached copy, so the flag it sets is dropped with the copy. -/
def FBUITweenInstance.DoCompleteCleanup (E : Env) (I : FBUITweenInstance) (S : UBUITween) :
    UBUITween :=
  if I.bHasPlayedCompleteEvent then S
  else
    match I.OnCompleteDelegate with
    | some cb => (S.Emit (Event.Completed I.Serial)).Run (E.Callbacks cb)
    | none => S

/-- The body of the reverse loop of `Update` (lines 66-76) at index `i`, where `Inst` is
`ActiveInstances[ i ]`, for start callbacks that make no scheduler call: the entry is read,
updated and written back.  `Client.Visit` follows the reference. -/
def UBUITween.Visit (E : Env) (DeltaTime : ℚ) (S : UBUITween) (i : Nat)
    (Inst : FBUITweenInstance) : UBUITween :=
  let R := Inst.Update E.Ease DeltaTime S.World
  let S1 := { S with ActiveInstances := S.ActiveInstances.set i R.1, World := R.2 }
  if R.1.IsComplete then
    let CompleteInst := R.1
    let S2 := { S1 with ActiveInstances := S1.ActiveInstances.eraseIdx i }
    CompleteInst.DoCompleteCleanup E (S2.Emit (Event.Cleanup CompleteInst.Serial))
  else S1

/-- The reverse loop of `Update` (lines 64-77); the first argument is `i + 1`. -/
def UBUITween.UpdateLoop (E : Env) (DeltaTime : ℚ) : Nat → UBUITween → UBUITween
  | 0, S => S
  | i + 1, S =>
    match S.ActiveInstances[i]? with
    | none => { S with Fault := true }
    | some Inst => UBUITween.UpdateLoop E DeltaTime i (S.Visit E DeltaTime i Inst)

/-- The second loop of `Update` (lines 79-82). -/
def UBUITween.AddLoop (Active : List FBUITweenInstance) :
    List FBUITweenInstance → List FBUITweenInstance
  | [] => Active
  | Inst :: Rest => UBUITween.AddLoop (Active ++ [Inst]) Rest

/-- Lines 61-84: `UBUITween::Update`. -/
def UBUITween.Update (E : Env) (S : UBUITween) (DeltaTime : ℚ) : UBUITween :=
  let S1 := UBUITween.UpdateLoop E DeltaTime S.ActiveInstances.length S
  if S1.Fault then S1
  else
    { S1 with
      ActiveInstances := UBUITween.AddLoop S1.ActiveInstances S1.InstancesToAdd
      InstancesToAdd := [] }

/-- The loop of `GetIsTweening` (lines 89-95). -/
def UBUITween.GetIsTweeningLoop (pInWidget : WidgetPtr) : List FBUITweenInstance → Bool
  | [] => false
  | Inst :: Rest =>
    if Inst.GetWidget == pInWidget then true
    else UBUITween.GetIsTweeningLoop pInWidget Rest

/-- Lines 87-97: `UBUITween::GetIsTweening`. -/
def UBUITween.GetIsTweening (S : UBUITween) (pInWidget : WidgetPtr) : Bool :=
  UBUITween.GetIsTweeningLoop pInWidget S.ActiveInstances

/-! ## Clients -/

/-- The host destroys a widget object: weak pointers to it become invalid. -/
def Host.Destroy (H : Host) (p : WidgetPtr) : Host :=
  match H.Widgets[p]? with
  | some w => { H with Widgets := H.Widgets.set p { w with bValid := false } }
  | none => H

/-- What happens to the process from outside, one step at a time. -/
inductive Op where
  | Startup
  | Shutdown
  | Call (a : Action)
  | Update (DeltaTime : ℚ)
  | Destroy (p : WidgetPtr)
deriving DecidableEq, Repr

def UBUITween.Step (E : Env) (S : UBUITween) (o : Op) : UBUITween :=
  if S.Fault then S
  else
    match o with
    | Op.Startup => S.Startup
    | Op.Shutdown => S.Shutdown
    | Op.Call a => S.Perform a
    | Op.Update DeltaTime => S.Update E DeltaTime
    | Op.Destroy p => { S with World := S.World.Destroy p }

def UBUITween.Exec (E : Env) (S : UBUITween) (Ops : List Op) : UBUITween :=
  Ops.foldl (UBUITween.Step E) S

/-! ## The update through the array reference

`FBUITweenInstance.Update` and `UBUITween.Visit` above take the instance out of the array,
run the call on it and put the result back; that is what the source does as long as a start
callback makes no scheduler call, and in exact arithmetic.  In the source `Inst` is a
reference into `ActiveInstances` (line 66) and `this` inside `FBUITweenInstance::Update` is
that reference: after a start callback that calls `Clear`, every later read and write of the
call (lines 160-175) and the test of line 68 land on whatever entry slot `i` holds by then.
The definitions of this section follow the reference, and round every `float` result. -/

/-- The code around the scheduler in full: next to what `Env` holds, the body of every start
callback (a program of scheduler calls, like the body of a completion callback) and the
rounding of `float` arithmetic: `Round q` is the `float` the exact result `q` is rounded
to. -/
structure Client extends Env where
  Starts : Nat → List Action
  Round : ℚ → ℚ

/-- A write through the reference `ActiveInstances[ i ]` taken before the array changed: it
lands on the entry slot `i` holds now; with slot `i` past the end of the array the reference
dangles, and the write is a fault. -/
def UBUITween.Through (S : UBUITween) (i : Nat) (f : FBUITweenInstance → FBUITweenInstance) :
    UBUITween :=
  match S.ActiveInstances[i]? with
  | some J => { S with ActiveInstances := S.ActiveInstances.set i (f J) }
  | none => { S with Fault := true }

/-- Lines 157-161: the start delegate of the instance `I` that slot `i` held when the call
began is executed if bound, and then `bHasPlayedStartEvent` is set through `this`. -/
def Client.Start (C : Client) (S : UBUITween) (i : Nat) (I : FBUITweenInstance) : UBUITween :=
  let S1 :=
    match I.OnStartedDelegate with
    | some cb => (S.Emit (Event.Started I.Serial)).Run (C.Starts cb)
    | none => S
  S1.Through i (fun J => { J with bHasPlayedStartEvent := true })

/-- Lines 163-168: `Alpha += DeltaTime`, rounded, and the clamp. -/
def FBUITweenInstance.Advanced (Round : ℚ → ℚ) (J : FBUITweenInstance) (DeltaTime : ℚ) :
    FBUITweenInstance :=
  let J1 : FBUITweenInstance := { J with Alpha := Round (J.Alpha + DeltaTime) }
  if J1.Alpha ≥ J1.Duration then { J1 with Alpha := J1.Duration, bIsComplete := true }
  else J1

/-- Lines 170-172: the eased alpha of the instance. -/
def FBUITweenInstance.EasedAlpha (Ease : EaseFn) (J : FBUITweenInstance) : ℚ :=
  match J.EasingParam with
  | some Param => Ease J.EasingType J.Alpha J.Duration (some Param)
  | none => Ease J.EasingType J.Alpha J.Duration none

/-- Lines 163-175 through `this`: the entry slot `i` holds now is advanced, clamped, eased and
applied.  `Apply` dereferences `pWidget.Get()` (line 218), which is null for an invalid
widget. -/
def Client.Ramp (C : Client) (DeltaTime : ℚ) (S : UBUITween) (i : Nat) : UBUITween :=
  if S.Fault then S
  else
    match S.ActiveInstances[i]? with
    | none => { S with Fault := true }
    | some J =>
      let J2 := J.Advanced C.Round DeltaTime
      if !S.World.IsValid J2.pWidget then
        { S with ActiveInstances := S.ActiveInstances.set i J2, Fault := true }
      else
        let R := J2.Apply (J2.EasedAlpha C.Ease) S.World
        { S with ActiveInstances := S.ActiveInstances.set i R.1, World := R.2 }

/-- Lines 138-176: `FBUITweenInstance::Update` called on the reference
`ActiveInstances[ i ]`. -/
def Client.InstanceUpdate (C : Client) (DeltaTime : ℚ) (S : UBUITween) (i : Nat) : UBUITween :=
  match S.ActiveInstances[i]? with
  | none => { S with Fault := true }
  | some I =>
    let S0 := S.Emit (Event.InstUpdate I.Serial)
    if !I.bShouldUpdate && !I.bIsComplete then S0
    else if !S0.World.IsValid I.pWidget then
      { S0 with ActiveInstances := S0.ActiveInstances.set i { I with bIsComplete := true } }
    else if I.Delay > 0 then
      { S0 with
        ActiveInstances :=
          S0.ActiveInstances.set i { I with Delay := C.Round (I.Delay - DeltaTime) } }
    else
      let S1 := if !I.bHasPlayedStartEvent then C.Start S0 i I else S0
      C.Ramp DeltaTime S1 i

/-- The body of the reverse loop of `Update` (lines 66-76) at index `i`, with `Inst` the
reference `ActiveInstances[ i ]`: the test of line 68 and the copy of line 70 read the entry
slot `i` holds after the call. -/
def Client.Visit (C : Client) (DeltaTime : ℚ) (S : UBUITween) (i : Nat) : UBUITween :=
  let S1 := C.InstanceUpdate DeltaTime S i
  if S1.Fault then S1
  else
    match S1.ActiveInstances[i]? with
    | none => { S1 with Fault := true }
    | some Inst =>
      if Inst.IsComplete then
        let CompleteInst := Inst
        let S2 := { S1 with ActiveInstances := S1.ActiveInstances.eraseIdx i }
        CompleteInst.DoCompleteCleanup C.toEnv (S2.Emit (Event.Cleanup CompleteInst.Serial))
      else S1

/-- The reverse loop of `Update` (lines 64-77); the first argument is `i + 1`.  A fault ends
the process. -/
def Client.UpdateLoop (C : Client) (DeltaTime : ℚ) : Nat → UBUITween → UBUITween
  | 0, S => S
  | i + 1, S =>
    match S.ActiveInstances[i]? with
    | none => { S with Fault := true }
    | some _ =>
      let S1 := C.Visit DeltaTime S i
      if S1.Fault then S1 else Client.UpdateLoop C DeltaTime i S1

/-- Lines 61-84: `UBUITween::Update`. -/
def Client.Update (C : Client) (S : UBUITween) (DeltaTime : ℚ) : UBUITween :=
  let S1 := C.UpdateLoop DeltaTime S.ActiveInstances.length S
  if S1.Fault then S1
  else
    { S1 with
      ActiveInstances := UBUITween.AddLoop S1.ActiveInstances S1.InstancesToAdd
      InstancesToAdd := [] }

def Client.Step (C : Client) (S : UBUITween) (o : Op) : UBUITween :=
  if S.Fault then S
  else
    match o with
    | Op.Startup => S.Startup
    | Op.Shutdown => S.Shutdown
    | Op.Call a => S.Perform a
    | Op.Update DeltaTime => C.Update S DeltaTime
    | Op.Destroy p => { S with World := S.World.Destroy p }

def Client.Exec (C : Client) (S : UBUITween) (Ops : List Op) : UBUITween :=
  Ops.foldl C.Step S

/-- The client whose start callbacks make no scheduler call, in exact arithmetic. -/
def Env.Plain (E : Env) : Client :=
  { E with Starts := fun _ => [], Round := fun q => q }

/-! ## Specification vocabulary -/

/-- The serials `FBUITweenInstance::Update` was called on, in call order. -/
def UpdatesOf : List Event → List Nat
  | [] => []
  | Event.InstUpdate n :: Rest => n :: UpdatesOf Rest
  | _ :: Rest => UpdatesOf Rest

/-- The serials `Create` constructed, in call order. -/
def CreatedOf : List Event → List Nat
  | [] => []
  | Event.Created n :: Rest => n :: CreatedOf Rest
  | _ :: Rest => CreatedOf Rest

/-- Modelled from the spec: the linear easing curve, the one kind the scenarios of spec 8
name; progress is the elapsed share of the duration. -/
def LinearEase : EaseFn := fun _ t Duration _ => t / Duration

/-- The test of line 51, negated: the instances `Clear` keeps. -/
def UBUITween.Keeps (W : Host) (pInWidget : WidgetPtr) (Inst : FBUITweenInstance) : Bool :=
  !(W.IsValid Inst.GetWidget && Inst.GetWidget == pInWidget)

/-- How many instances, active or pending, target a widget. -/
def UBUITween.CountFor (S : UBUITween) (pInWidget : WidgetPtr) : Nat :=
  (S.ActiveInstances ++ S.InstancesToAdd).countP (fun I => I.GetWidget == pInWidget)

/-- Everything of an instance except its channels. -/
def FBUITweenInstance.Core (I : FBUITweenInstance) :
    Nat × WidgetPtr × ℚ × ℚ × ℚ × Bool × Bool × Bool × Bool × Nat × Option ℚ × Option Nat ×
      Option Nat :=
  (I.Serial, I.pWidget, I.Duration, I.Delay, I.Alpha, I.bShouldUpdate, I.bIsComplete,
    I.bHasPlayedStartEvent, I.bHasPlayedCompleteEvent, I.EasingType, I.EasingParam,
    I.OnStartedDelegate, I.OnCompleteDelegate)

/-- The entries of the trace that are calls of the tween code, not widget writes. -/
def Event.IsLifecycle : Event → Bool
  | Event.Created _ => true
  | Event.InstUpdate _ => true
  | Event.Started _ => true
  | Event.Cleanup _ => true
  | Event.Completed _ => true
  | _ => false

def Lifecycle (L : List Event) : List Event := L.filter Event.IsLifecycle

/-- The second host differs from the first by widget writes only: the same calls of the tween
code are traced, and the same handles are valid. -/
def Host.Same (H H2 : Host) : Prop :=
  Lifecycle H2.Log = Lifecycle H.Log ∧ ∀ q, H2.IsValid q = H.IsValid q

/-- `Update` gets past the three early returns (lines 140-155) and reaches line 157. -/
def FBUITweenInstance.Ramps (I : FBUITweenInstance) (H : Host) : Bool :=
  (I.bShouldUpdate || I.bIsComplete) && H.IsValid I.pWidget && decide (I.Delay ≤ 0)

/-- The instance `Update` hands to `Apply` on the ramping path (lines 157-169). -/
def FBUITweenInstance.Ramped (I : FBUITweenInstance) (DeltaTime : ℚ) : FBUITweenInstance :=
  if I.Alpha + DeltaTime ≥ I.Duration then
    { I with bHasPlayedStartEvent := true, Alpha := I.Duration, bIsComplete := true }
  else { I with bHasPlayedStartEvent := true, Alpha := I.Alpha + DeltaTime }

/-- Successive calls of `FBUITweenInstance::Update` on one instance, each with its own
`DeltaTime`; between two calls the host may have changed in any way.  The result lists
the instance after each call. -/
def FBUITweenInstance.UpdateSeq (Ease : EaseFn) (I : FBUITweenInstance) :
    List (ℚ × Host) → List FBUITweenInstance
  | [] => []
  | c :: Rest => (I.Update Ease c.1 c.2).1 :: (I.Update Ease c.1 c.2).1.UpdateSeq Ease Rest

/-- The serials of a list of instances. -/
def Serials (A : List FBUITweenInstance) : List Nat := A.map (fun I => I.Serial)

/-- What scheduler calls made by a client or a callback can do to the scheduler: they filter
`ActiveInstances`, append `k` freshly numbered instances to `InstancesToAdd`, and add to the
trace the entries `Pre` followed by the `k` constructions. -/
def UBUITween.Spawned (S S2 : UBUITween) (Pre : List Event) (k : Nat) : Prop :=
  (∃ p : FBUITweenInstance → Bool, S2.ActiveInstances = S.ActiveInstances.filter p) ∧
  Serials S2.InstancesToAdd = Serials S.InstancesToAdd ++ List.range' S.NextSerial k ∧
  S2.NextSerial = S.NextSerial + k ∧
  Lifecycle S2.World.Log =
    Lifecycle S.World.Log ++ Pre ++ (List.range' S.NextSerial k).map Event.Created ∧
  S2.Fault = S.Fault ∧
  ∀ q, S2.World.IsValid q = S.World.IsValid q

/-- The widget an action clears, if it clears. -/
def Action.Clears : Action → Option WidgetPtr
  | Action.Create w _ _ bIsAdditive _ => if bIsAdditive then none else some w
  | Action.Clear w => some w

/-- How many instances a list of actions constructs. -/
def Action.Creations : List Action → Nat
  | [] => 0
  | Action.Create _ _ _ _ _ :: Rest => Action.Creations Rest + 1
  | Action.Clear _ :: Rest => Action.Creations Rest

/-- The state a completing instance leaves behind at index `i`, before its cleanup runs:
the instance is gone from `ActiveInstances` and the cleanup call is traced. -/
def UBUITween.Retired (S : UBUITween) (i : Nat) (R : FBUITweenInstance × Host) : UBUITween :=
  { S with
    ActiveInstances := S.ActiveInstances.eraseIdx i
    World := R.2.Emit (Event.Cleanup R.1.Serial) }

/-- The start callbacks and the cleanups of instance `n` in a trace, in trace order. -/
def LifeOf (n : Nat) (L : List Event) : List Event :=
  L.filter (fun e => e == Event.Started n || e == Event.Cleanup n)

/-- The four lives an instance can have had: nothing yet, started, cleaned up without a start
callback, started and then cleaned up. -/
def Lives (n : Nat) : List (List Event) :=
  [[], [Event.Started n], [Event.Cleanup n], [Event.Started n, Event.Cleanup n]]

/-- The bookkeeping of every scheduler state reached while no start delegate calls the
scheduler (`UBUITween.Exec`): serials are unique and below `NextSerial`; unissued serials and
pending instances have no start callback and no cleanup in the trace; an active instance has
no cleanup, and a start callback only if its `bHasPlayedStartEvent` is set; every instance
has had one of the four lives. -/
def UBUITween.Accounted (S : UBUITween) : Prop :=
  (Serials (S.ActiveInstances ++ S.InstancesToAdd)).Nodup ∧
  (∀ I ∈ S.ActiveInstances ++ S.InstancesToAdd, I.Serial < S.NextSerial) ∧
  (∀ n, S.NextSerial ≤ n → LifeOf n S.World.Log = []) ∧
  (∀ I ∈ S.InstancesToAdd, LifeOf I.Serial S.World.Log = []) ∧
  (∀ I ∈ S.ActiveInstances, LifeOf I.Serial S.World.Log = [] ∨
    (LifeOf I.Serial S.World.Log = [Event.Started I.Serial] ∧
      I.bHasPlayedStartEvent = true)) ∧
  (∀ n, LifeOf n S.World.Log ∈ Lives n)

/-! ## Scenarios -/

/-- A live widget of no particular class, fully opaque. -/
def Scenario.Widget : UWidget := { UWidget.Null with bValid := true, RenderOpacity := 1 }

/-- No completion callback does anything; easing is linear. -/
def Scenario.Quiet : Env := { Callbacks := fun _ => [], Ease := LinearEase }

/-- An empty, started scheduler next to one live widget, handle 0. -/
def Scenario.Started : UBUITween := (UBUITween.Initial [Scenario.Widget]).Startup

/-- Two fresh tweens on widget 0 in the same frame, then one tick. -/
def Scenario.CreateTwice : UBUITween :=
  ((Scenario.Started.Create 0 1 0 false).Create 0 1 0 false).Update Scenario.Quiet 0

/-- Two begun tweens on widget 0, promoted by a tick, and then the widget is destroyed. -/
def Scenario.Stale : UBUITween :=
  UBUITween.Exec Scenario.Quiet Scenario.Started
    [Op.Call (Action.Create 0 1 0 true [Setter.Begin]),
     Op.Call (Action.Create 0 1 0 true [Setter.Begin]),
     Op.Update 0,
     Op.Destroy 0]

/-- Two begun tweens on the live widget 0, promoted by a tick. -/
def Scenario.Live : UBUITween :=
  UBUITween.Exec Scenario.Quiet Scenario.Started
    [Op.Call (Action.Create 0 1 0 true [Setter.Begin]),
     Op.Call (Action.Create 0 1 0 true [Setter.Begin]),
     Op.Update 0]

/-- A begun instance on widget 0, one second long, no delay. -/
def Scenario.Ramping : FBUITweenInstance :=
  ((FBUITweenInstance.Construct 0 0 1 0).Begin Scenario.Started.World).1

/-- Two calls, half a second and three quarters of a second, the widget alive at both. -/
def Scenario.TwoCalls : List (ℚ × Host) :=
  [(1 / 2, Scenario.Started.World), (3 / 4, Scenario.Started.World)]

/-- The opacity scenario of spec 8: `Create(A, duration = 1, delay = 0)` on the empty started
scheduler, the chain `SetOpacity(0)`, linear easing, a completion callback, `Begin`. -/
def Scenario.Opacity : UBUITween :=
  (Scenario.Started.Create 0 1 0 false).Chain
    [Setter.SetOpacity 0, Setter.SetEasing 0 none, Setter.SetOnComplete 7, Setter.Begin]

/-- The delay scenario of spec 8: `Create(A, duration = 1, delay = 0.3)` on the empty started
scheduler, with a start callback, `Begin`. -/
def Scenario.Delayed : UBUITween :=
  (Scenario.Started.Create 0 1 (3 / 10) false).Chain [Setter.SetOnStart 3, Setter.Begin]

/-- Three begun tweens on three widgets, promoted; the one in the middle lasts one second and
binds the completion callback 1, the others last ten seconds. -/
def Scenario.Three : UBUITween :=
  UBUITween.Exec Scenario.Quiet (UBUITween.Initial [Scenario.Widget, Scenario.Widget,
      Scenario.Widget]).Startup
    [Op.Call (Action.Create 0 10 0 false [Setter.Begin]),
     Op.Call (Action.Create 1 1 0 false [Setter.SetOnComplete 1, Setter.Begin]),
     Op.Call (Action.Create 2 10 0 false [Setter.Begin]),
     Op.Update 0]

/-- The completion callback 1 is `Clear(0)`; easing is linear. -/
def Scenario.Clearing : Env :=
  { Callbacks := fun n => if n = 1 then [Action.Clear 0] else []
    Ease := LinearEase }

/-- The completion callback 1 starts the next tween on widget 1, the widget of the instance
that binds it (the default, non-additive `Create`); easing is linear. -/
def Scenario.Chaining : Env :=
  { Callbacks := fun n => if n = 1 then [Action.Create 1 1 0 false [Setter.Begin]] else []
    Ease := LinearEase }

/-- The instance a trace entry is about; `none` for a widget write. -/
def Event.SerialOf : Event → Option Nat
  | Event.Created n => some n
  | Event.InstUpdate n => some n
  | Event.Started n => some n
  | Event.Applied n _ => some n
  | Event.Cleanup n => some n
  | Event.Completed n => some n
  | Event.Warning n => some n
  | _ => none

/-- The trace entries about instance `n`, in trace order. -/
def EventsOf (n : Nat) (L : List Event) : List Event :=
  L.filter (fun e => e.SerialOf == some n)

/-- The widget writes other than `SetRenderTransform`. -/
def Event.IsMinorWrite : Event → Bool
  | Event.SetColorAndOpacity _ _ => true
  | Event.SetContentColorAndOpacity _ _ => true
  | Event.SetRenderOpacity _ _ => true
  | Event.SetVisibility _ _ => true
  | Event.SetPosition _ _ => true
  | _ => false

/-- The second host differs from the first by widget writes other than `SetRenderTransform`:
the trace gained such writes only, and no render transform changed. -/
def Host.Touched (H H2 : Host) : Prop :=
  (∃ W, H2.Log = H.Log ++ W ∧ ∀ e ∈ W, e.IsMinorWrite = true) ∧
  H2.Widgets.length = H.Widgets.length ∧
  ∀ q, (H2.Get q).RenderTransform = (H.Get q).RenderTransform

/-- The three channels of the transform group. -/
def FBUITweenInstance.TransformProps (I : FBUITweenInstance) :
    TBUITweenProp FVector2D × TBUITweenProp FVector2D × TBUITweenProp ℚ :=
  (I.TranslationProp, I.ScaleProp, I.RotationProp)

/-- The condition of the transform write in words: the translation or the scale channel is
enabled, or the rotation channel is enabled and reports a change. -/
def FBUITweenInstance.WritesTransform (I : FBUITweenInstance) (EasedAlpha : ℚ) : Bool :=
  I.TranslationProp.IsSet || I.ScaleProp.IsSet ||
    (I.RotationProp.IsSet && (I.RotationProp.Update UITween.lerp EasedAlpha).2)

/-- The transform of the transform write in words: the transform `T` read from the widget,
with the translation and the scale replaced by the current value of their channel when that
channel is enabled, the angle replaced by the current value of the rotation channel when
that channel is enabled and reports a change, and the shear as it was. -/
def FBUITweenInstance.Written (I : FBUITweenInstance) (EasedAlpha : ℚ)
    (T : FWidgetTransform) : FWidgetTransform :=
  { Translation :=
      if I.TranslationProp.IsSet then
        (I.TranslationProp.Update FVector2D.lerp EasedAlpha).1.CurrentValue
      else T.Translation
    Scale :=
      if I.ScaleProp.IsSet then (I.ScaleProp.Update FVector2D.lerp EasedAlpha).1.CurrentValue
      else T.Scale
    Shear := T.Shear
    Angle :=
      if I.RotationProp.IsSet && (I.RotationProp.Update UITween.lerp EasedAlpha).2 then
        (I.RotationProp.Update UITween.lerp EasedAlpha).1.CurrentValue
      else T.Angle }

/-- Lines 180-215 of `Apply`: the trace entry of the call, then the colour, the opacity and
the visibility channel. -/
def FBUITweenInstance.ApplyHead (I : FBUITweenInstance) (EasedAlpha : ℚ) (H : Host) :
    FBUITweenInstance × Host :=
  let C := I.ApplyColor EasedAlpha (H.Emit (Event.Applied I.Serial EasedAlpha))
  let O := C.1.ApplyOpacity EasedAlpha C.2
  O.1.ApplyVisibility EasedAlpha O.2

/-- Lines 217-253 of `Apply`, from the transform `T` read at line 218 on: the transform
group, the canvas position, the write of the transform. -/
def FBUITweenInstance.ApplyTail (J : FBUITweenInstance) (T : FWidgetTransform) (EasedAlpha : ℚ)
    (H : Host) (Target : WidgetPtr) : FBUITweenInstance × Host :=
  let G0 : TransformGroup :=
    { Inst := J, CurrentTransform := T, bChangedRenderTransform := false }
  let G := ((G0.Translation EasedAlpha).Scale EasedAlpha).Rotation EasedAlpha
  let P := G.Inst.ApplyCanvasPosition EasedAlpha H
  if G.bChangedRenderTransform then
    (P.1, P.2.Write Target (fun w => { w with RenderTransform := G.CurrentTransform })
      (Event.SetRenderTransform Target G.CurrentTransform))
  else P

/-- The host `Update` hands to `Apply` on the ramping path: the call is traced, and the start
callback when it fires (lines 157-161). -/
def FBUITweenInstance.Announce (I : FBUITweenInstance) (H : Host) : Host :=
  if !I.bHasPlayedStartEvent && I.OnStartedDelegate.isSome then
    (H.Emit (Event.InstUpdate I.Serial)).Emit (Event.Started I.Serial)
  else H.Emit (Event.InstUpdate I.Serial)

/-- The eased alpha `Update` hands to `Apply` on the ramping path (lines 171-173). -/
def FBUITweenInstance.Eased (Ease : EaseFn) (I : FBUITweenInstance) (DeltaTime : ℚ) : ℚ :=
  Ease I.EasingType (I.Ramped DeltaTime).Alpha I.Duration I.EasingParam

/-- Two begun tweens on widget 0 (the second additive) and a one-second tween on widget 2 that
binds the completion callback 1, all promoted. -/
def Scenario.Crowded : UBUITween :=
  UBUITween.Exec Scenario.Quiet (UBUITween.Initial [Scenario.Widget, Scenario.Widget,
      Scenario.Widget]).Startup
    [Op.Call (Action.Create 0 10 0 false [Setter.Begin]),
     Op.Call (Action.Create 0 10 0 true [Setter.Begin]),
     Op.Call (Action.Create 2 1 0 false [Setter.SetOnComplete 1, Setter.Begin]),
     Op.Update 0]

/-- `Scenario.Three` with one more tween created on widget 2 (additive, begun) and not yet
promoted. -/
def Scenario.Backlog : UBUITween :=
  Scenario.Three.Perform (Action.Create 2 5 0 true [Setter.Begin])

/-- `FBUITweenInstance::Update` (lines 138-176) on the instance alone, as
`FBUITweenInstance.Update`, with the two `float` results of the call rounded: `Round q` is
the `float` the exact result `q` is rounded to (`Delay -= DeltaTime` at line 153,
`Alpha += DeltaTime` at line 163).  The comparisons of lines 150 and 164 are exact in
`float`. -/
def FBUITweenInstance.UpdateRounded (Round : ℚ → ℚ) (Ease : EaseFn) (I : FBUITweenInstance)
    (DeltaTime : ℚ) (H : Host) : FBUITweenInstance × Host :=
  let H0 := H.Emit (Event.InstUpdate I.Serial)
  if !I.bShouldUpdate && !I.bIsComplete then (I, H0)
  else if !H0.IsValid I.pWidget then ({ I with bIsComplete := true }, H0)
  else if I.Delay > 0 then ({ I with Delay := Round (I.Delay - DeltaTime) }, H0)
  else
    let S : FBUITweenInstance × Host :=
      if !I.bHasPlayedStartEvent then
        ({ I with bHasPlayedStartEvent := true },
          match I.OnStartedDelegate with
          | some _ => H0.Emit (Event.Started I.Serial)
          | none => H0)
      else (I, H0)
    let I1 : FBUITweenInstance := { S.1 with Alpha := Round (S.1.Alpha + DeltaTime) }
    let I2 : FBUITweenInstance :=
      if I1.Alpha ≥ I1.Duration then { I1 with Alpha := I1.Duration, bIsComplete := true }
      else I1
    let EasedAlpha :=
      match I2.EasingParam with
      | some Param => Ease I2.EasingType I2.Alpha I2.Duration (some Param)
      | none => Ease I2.EasingType I2.Alpha I2.Duration none
    I2.Apply EasedAlpha S.2

/-- The binary scaling of IEEE 754 single precision: a positive rational is halved or doubled
until it lies in `[2^23, 2^24)`, the range of a 24-bit significand, or the exponent reaches
that of the subnormal numbers, `-149`.  The first argument bounds the number of steps. -/
def Single.Scale : Nat → ℚ → ℤ → ℚ × ℤ
  | 0, m, e => (m, e)
  | Fuel + 1, m, e =>
    if 16777216 ≤ m then Single.Scale Fuel (m / 2) (e + 1)
    else if m < 8388608 ∧ -149 < e then Single.Scale Fuel (m * 2) (e - 1)
    else (m, e)

/-- Rounding of a non-negative rational to the nearest integer, ties to even. -/
def Single.Nearest (m : ℚ) : ℤ :=
  let f := Rat.floor m
  if m - f < 1 / 2 then f
  else if 1 / 2 < m - f then f + 1
  else if f % 2 = 0 then f
  else f + 1

/-- The power of two with an integer exponent. -/
def Single.Pow2 (e : ℤ) : ℚ :=
  if 0 ≤ e then ((2 ^ e.toNat : Nat) : ℚ) else 1 / ((2 ^ (-e).toNat : Nat) : ℚ)

/-- Rounding to IEEE 754 single precision, the `float` of the source: round to nearest, ties
to even, for results that do not overflow. -/
def Single.Round (q : ℚ) : ℚ :=
  if q = 0 then 0
  else
    let R := Single.Scale 400 (if q < 0 then -q else q) 0
    (if q < 0 then -1 else 1) * (Single.Nearest R.1 : ℚ) * Single.Pow2 R.2

/-- The same instance, possibly updated: creation number, target and delegates agree. -/
def FBUITweenInstance.Kin (J K : FBUITweenInstance) : Prop :=
  J.Serial = K.Serial ∧ J.pWidget = K.pWidget ∧
    J.OnStartedDelegate = K.OnStartedDelegate ∧ J.OnCompleteDelegate = K.OnCompleteDelegate

/-- A callback of instance `Y` that the trace `W` shows fired (its start callback, or its
completion callback) clears the widget `w`: its body holds a `Clear(w)`, or a `Create` on `w`
with `additive = false`. -/
def Client.ClearedBy (C : Client) (Y : FBUITweenInstance) (W : List Event) (w : WidgetPtr) :
    Prop :=
  (Event.Started Y.Serial ∈ W ∧
    ∃ cb, Y.OnStartedDelegate = some cb ∧ ∃ a ∈ C.Starts cb, a.Clears = some w) ∨
  (Event.Completed Y.Serial ∈ W ∧
    ∃ cb, Y.OnCompleteDelegate = some cb ∧ ∃ a ∈ C.Callbacks cb, a.Clears = some w)

/-- What a stretch of `Update` can do to the scheduler: `InstancesToAdd` gains freshly
numbered instances `Cr` at its end and the trace gains `W`, in which the constructions are
those of `Cr` and the calls of `FBUITweenInstance::Update` are `us`; no widget becomes valid
or invalid; the entries of `ActiveInstances` keep their relative order and stay the instances
they were; and an instance leaves `ActiveInstances` only when its cleanup runs or when a
callback that fired cleared its widget, valid at the time. -/
def Client.Evolved (C : Client) (us : List Nat) (S T : UBUITween) : Prop :=
  ∃ Cr W,
    T.InstancesToAdd = S.InstancesToAdd ++ Cr ∧
    Serials Cr = List.range' S.NextSerial Cr.length ∧
    T.NextSerial = S.NextSerial + Cr.length ∧
    T.World.Log = S.World.Log ++ W ∧
    CreatedOf W = Serials Cr ∧
    UpdatesOf W = us ∧
    (∀ q, T.World.IsValid q = S.World.IsValid q) ∧
    (Serials T.ActiveInstances).Sublist (Serials S.ActiveInstances) ∧
    (∀ J ∈ T.ActiveInstances, ∃ K ∈ S.ActiveInstances, J.Kin K) ∧
    (∀ K ∈ S.ActiveInstances,
      (∃ J ∈ T.ActiveInstances, J.Kin K) ∨ Event.Cleanup K.Serial ∈ W ∨
      (S.World.IsValid K.pWidget = true ∧ ∃ Y ∈ S.ActiveInstances, C.ClearedBy Y W K.pWidget))

/-- The entries above slot `k` are entries that were above slot `k`. -/
def UBUITween.Above (k : Nat) (S T : UBUITween) : Prop :=
  ∀ J ∈ T.ActiveInstances.drop (k + 1), J ∈ S.ActiveInstances.drop (k + 1)

/-- The start callback 5 is `Clear(0)`; no completion callback does anything; easing is
linear and arithmetic exact. -/
def Scenario.Meddling : Client :=
  { Callbacks := fun _ => []
    Ease := LinearEase
    Starts := fun n => if n = 5 then [Action.Clear 0] else []
    Round := fun q => q }

/-- Three tweens on three widgets, promoted: a begun ten-second tween on widget 0, a begun
one-second tween on widget 1 that binds the start callback 5, and a one-second tween on
widget 2 that was never begun. -/
def Scenario.Shifting : UBUITween :=
  Client.Exec Scenario.Meddling (UBUITween.Initial [Scenario.Widget, Scenario.Widget,
      Scenario.Widget]).Startup
    [Op.Call (Action.Create 0 10 0 false [Setter.Begin]),
     Op.Call (Action.Create 1 1 0 false [Setter.SetOnStart 5, Setter.Begin]),
     Op.Call (Action.Create 2 1 0 false [Setter.SetOpacity 0]),
     Op.Update 0]

/-- The trace entries that tell of a callback or a cleanup. -/
def Event.IsSignal : Event → Bool
  | Event.Started _ => true
  | Event.Cleanup _ => true
  | Event.Completed _ => true
  | _ => false

/-- What the trace `W` of a stretch of `Update` settles about `ActiveInstances` at its end:
an instance whose cleanup ran is gone; a callback fires only for an instance that was
active; and an instance whose widget, valid at the time, was cleared by a callback that
fired is gone. -/
def Client.Settled (C : Client) (S T : UBUITween) : Prop :=
  ∀ W, T.World.Log = S.World.Log ++ W →
    (∀ n, Event.Cleanup n ∈ W → n ∉ Serials T.ActiveInstances) ∧
    (∀ n, Event.Started n ∈ W ∨ Event.Completed n ∈ W → n ∈ Serials S.ActiveInstances) ∧
    (∀ K ∈ S.ActiveInstances, S.World.IsValid K.pWidget = true →
      (∃ Y ∈ S.ActiveInstances, C.ClearedBy Y W K.pWidget) →
      K.Serial ∉ Serials T.ActiveInstances)

/-! ## Theorems -/

/-! ### `Clear` -/

theorem ClearLoop_eq (W : Host) (p : WidgetPtr) :
    ∀ (i : Nat) (A : List FBUITweenInstance) (n : Nat), i ≤ A.length →
      UBUITween.ClearLoop W p i A n =
        ((A.take i).filter (UBUITween.Keeps W p) ++ A.drop i,
          n + ((A.take i).filter (fun I => !UBUITween.Keeps W p I)).length) := by
  intro i
  induction i with
  | zero => intro A n _; simp [UBUITween.ClearLoop]
  | succ i ih =>
    intro A n h
    have hi : i < A.length := h
    have hget : A[i]? = some A[i] := List.getElem?_eq_getElem hi
    have htake : A.take (i + 1) = A.take i ++ [A[i]] := by
      rw [List.take_succ, hget]; rfl
    rw [UBUITween.ClearLoop, hget]
    simp only []
    by_cases hc : (W.IsValid A[i].GetWidget && A[i].GetWidget == p) = true
    · rw [if_pos hc]
      have hlen : i ≤ (A.eraseIdx i).length := by
        have := List.length_eraseIdx_of_lt hi; omega
      rw [ih _ _ hlen]
      have e1 : (A.eraseIdx i).take i = A.take i := by
        rw [List.eraseIdx_eq_take_drop_succ]
        rw [List.take_append_of_le_length (by simp; omega)]
        simp [List.take_take]
      have e2 : (A.eraseIdx i).drop i = A.drop (i + 1) := by
        rw [List.eraseIdx_eq_take_drop_succ]
        rw [List.drop_append_of_le_length (by simp; omega)]
        simp [List.drop_take]
      have hk : UBUITween.Keeps W p A[i] = false := by
        simp [UBUITween.Keeps] at hc ⊢; exact hc
      rw [e1, e2, htake]
      simp only [List.filter_append, List.filter_cons, List.filter_nil, hk, List.length_append,
        Bool.not_false, if_true, List.length_cons, List.length_nil, List.append_nil,
        Bool.false_eq_true, if_false]
      congr 1
      omega
    · rw [if_neg hc]
      rw [ih _ _ (by omega)]
      have hk : UBUITween.Keeps W p A[i] = true := by
        simp only [UBUITween.Keeps]
        cases hv : (W.IsValid A[i].GetWidget && A[i].GetWidget == p)
        · rfl
        · exact absurd hv hc
      have hdrop : A.drop i = A[i] :: A.drop (i + 1) := List.drop_eq_getElem_cons hi
      rw [htake, hdrop]
      simp only [List.filter_append, List.filter_cons, List.filter_nil, hk, List.length_append,
        Bool.not_true, if_true, List.length_cons, List.length_nil, List.append_nil,
        Bool.false_eq_true, if_false, List.append_assoc, List.singleton_append, Nat.add_zero]

theorem Clear_eq (S : UBUITween) (p : WidgetPtr) :
    S.Clear p =
      ({ S with ActiveInstances := S.ActiveInstances.filter (UBUITween.Keeps S.World p) },
        (S.ActiveInstances.filter (fun I => !UBUITween.Keeps S.World p I)).length) := by
  simp [UBUITween.Clear, ClearLoop_eq S.World p _ _ 0 (le_refl _)]

theorem Keeps_of_ne (W : Host) (p : WidgetPtr) (I : FBUITweenInstance)
    (h : I.GetWidget ≠ p) : UBUITween.Keeps W p I = true := by
  simp [UBUITween.Keeps, h]

theorem Keeps_valid (W : Host) (p : WidgetPtr) (hp : W.IsValid p = true)
    (I : FBUITweenInstance) : UBUITween.Keeps W p I = decide (I.GetWidget ≠ p) := by
  by_cases h : I.GetWidget = p
  · simp [UBUITween.Keeps, h, hp]
  · simp [UBUITween.Keeps, h]

theorem GetIsTweeningLoop_eq_any (p : WidgetPtr) (A : List FBUITweenInstance) :
    UBUITween.GetIsTweeningLoop p A = A.any (fun I => I.GetWidget == p) := by
  induction A with
  | nil => rfl
  | cons I Rest ih =>
    by_cases h : I.GetWidget = p <;> simp [UBUITween.GetIsTweeningLoop, h, ih]

/-- C5. `Clear(w)` is a hard cancel with a bounded effect: it leaves `InstancesToAdd`
unchanged; the active instances whose target is not `w` are the same before and after, in
the same order and with the same contents, and what remains is a sublist of what was there;
the returned count is the length before minus the length after; the host is untouched (no
trace entry, so no start, update or completion callback, and no widget write); the other
members stay as they were. -/
theorem Clear_hard_cancel (S : UBUITween) (w : WidgetPtr) :
    (S.Clear w).1.InstancesToAdd = S.InstancesToAdd ∧
    (S.Clear w).1.ActiveInstances.filter (fun I => decide (I.GetWidget ≠ w)) =
      S.ActiveInstances.filter (fun I => decide (I.GetWidget ≠ w)) ∧
    (S.Clear w).1.ActiveInstances.Sublist S.ActiveInstances ∧
    (S.Clear w).2 = S.ActiveInstances.length - (S.Clear w).1.ActiveInstances.length ∧
    (S.Clear w).1.World = S.World ∧
    (S.Clear w).1.NextSerial = S.NextSerial ∧
    (S.Clear w).1.bIsInitialized = S.bIsInitialized ∧
    (S.Clear w).1.Fault = S.Fault := by
  rw [Clear_eq]
  refine ⟨rfl, ?_, List.filter_sublist _, ?_, rfl, rfl, rfl, rfl⟩
  · simp only [List.filter_filter]
    apply List.filter_congr
    intro I _
    by_cases h : I.GetWidget = w
    · simp [h]
    · simp [h, Keeps_of_ne S.World w I h]
  · have := List.length_eq_length_filter_add (l := S.ActiveInstances) (UBUITween.Keeps S.World w)
    simp only [] at this ⊢
    omega

/-- C4, as amended: for every scheduler state and every VALID target `w`, `Clear(w)`
leaves in `ActiveInstances` exactly the instances whose target is not `w`, returns the
number of active instances that targeted `w`, and `GetIsTweening(w)` is false right
afterwards. -/
theorem Clear_valid_target (S : UBUITween) (w : WidgetPtr) (hw : S.World.IsValid w = true) :
    (S.Clear w).1.ActiveInstances =
      S.ActiveInstances.filter (fun I => decide (I.GetWidget ≠ w)) ∧
    (∀ I ∈ (S.Clear w).1.ActiveInstances, I.GetWidget ≠ w) ∧
    (S.Clear w).2 = S.ActiveInstances.countP (fun I => I.GetWidget == w) ∧
    (S.Clear w).1.GetIsTweening w = false := by
  have hk : UBUITween.Keeps S.World w = fun I => decide (I.GetWidget ≠ w) :=
    funext (Keeps_valid S.World w hw)
  rw [Clear_eq, hk]
  refine ⟨rfl, ?_, ?_, ?_⟩
  · intro I hI
    simpa using (List.mem_filter.mp hI).2
  · simp only [List.countP_eq_length_filter]
    congr 1
    apply List.filter_congr
    intro I _
    by_cases h : I.GetWidget = w <;> simp [h]
  · simp only [UBUITween.GetIsTweening, GetIsTweeningLoop_eq_any]
    simp [List.any_eq_false]

/-- Witness of C4 as amended: two active tweens on the live widget 0, cleared. -/
theorem Clear_valid_target_witness :
    Scenario.Live.World.IsValid 0 = true ∧
    Scenario.Live.ActiveInstances.countP (fun I => I.GetWidget == 0) = 2 ∧
    (Scenario.Live.Clear 0).2 = 2 ∧
    (Scenario.Live.Clear 0).1.GetIsTweening 0 = false :=
  ⟨by with_unfolding_all decide, by with_unfolding_all decide,
    ((Clear_valid_target Scenario.Live 0 (by with_unfolding_all decide)).2.2.1).trans
      (by with_unfolding_all decide),
    (Clear_valid_target Scenario.Live 0 (by with_unfolding_all decide)).2.2.2⟩

/-- C4 as stated fails: two active instances target widget 0, which has been destroyed;
`Clear(0)` returns 0 and `GetIsTweening(0)` is still true. -/
theorem Clear_stale_target_keeps :
    Scenario.Stale.ActiveInstances.countP (fun I => I.GetWidget == 0) = 2 ∧
    (Scenario.Stale.Clear 0).2 = 0 ∧
    (Scenario.Stale.Clear 0).1.GetIsTweening 0 = true := by
  with_unfolding_all decide

/-- C6. Additive stacking: `Create(w, duration, delay, additive = true)` leaves
`ActiveInstances` unchanged, keeps the previous `InstancesToAdd` as a prefix and appends
exactly one instance, which is the one returned and has target `w`, the given duration
and the given delay. -/
theorem Create_additive (S : UBUITween) (w : WidgetPtr) (InDuration InDelay : ℚ) :
    (S.Create w InDuration InDelay true).ActiveInstances = S.ActiveInstances ∧
    (S.Create w InDuration InDelay true).InstancesToAdd =
      S.InstancesToAdd ++ [FBUITweenInstance.Construct S.NextSerial w InDuration InDelay] ∧
    (S.Create w InDuration InDelay true).Last =
      some (FBUITweenInstance.Construct S.NextSerial w InDuration InDelay) ∧
    (FBUITweenInstance.Construct S.NextSerial w InDuration InDelay).GetWidget = w ∧
    (FBUITweenInstance.Construct S.NextSerial w InDuration InDelay).Duration = InDuration ∧
    (FBUITweenInstance.Construct S.NextSerial w InDuration InDelay).Delay = InDelay := by
  refine ⟨rfl, rfl, ?_, rfl, rfl, rfl⟩
  simp [UBUITween.Last, UBUITween.Create]

/-- C1 on the code: from the empty started scheduler, `Create(0, additive = false)` twice
and one `Update` leave two instances targeting widget 0, not one. -/
theorem Create_twice_leaves_two :
    Scenario.CreateTwice.CountFor 0 = 2 ∧ Scenario.CreateTwice.Fault = false := by
  with_unfolding_all decide

/-! ### The instance: `Apply` and `Update` -/

theorem Lifecycle_append (L M : List Event) : Lifecycle (L ++ M) = Lifecycle L ++ Lifecycle M := by
  simp [Lifecycle]

theorem Write_Lifecycle (H : Host) (p : WidgetPtr) (f : UWidget → UWidget) (e : Event)
    (he : e.IsLifecycle = false) : Lifecycle (H.Write p f e).Log = Lifecycle H.Log := by
  unfold Host.Write
  split <;> simp [Lifecycle, List.filter_append, he]

theorem Emit_Lifecycle (H : Host) (e : Event) :
    Lifecycle (H.Emit e).Log = Lifecycle H.Log ++ (if e.IsLifecycle then [e] else []) := by
  by_cases he : e.IsLifecycle = true <;> simp [Host.Emit, Lifecycle, List.filter_append, he]

theorem Write_IsValid (H : Host) (p : WidgetPtr) (f : UWidget → UWidget) (e : Event)
    (hf : ∀ w, (f w).bValid = w.bValid) (q : WidgetPtr) :
    (H.Write p f e).IsValid q = H.IsValid q := by
  unfold Host.Write
  split
  · rename_i w hw
    simp only [Host.IsValid]
    by_cases hq : p = q
    · subst hq
      have hlt : p < H.Widgets.length := by
        rcases List.getElem?_eq_some_iff.mp hw with ⟨h, _⟩; exact h
      simp [List.getElem?_set_self, hw, hf, hlt]
    · simp [List.getElem?_set_ne hq]
  · rfl


theorem Same_refl (H : Host) : H.Same H := ⟨rfl, fun _ => rfl⟩

theorem Same_trans {H H2 H3 : Host} (h : H.Same H2) (h2 : H2.Same H3) : H.Same H3 :=
  ⟨h2.1.trans h.1, fun q => (h2.2 q).trans (h.2 q)⟩

theorem Write_Same (H : Host) (p : WidgetPtr) (f : UWidget → UWidget) (e : Event)
    (he : e.IsLifecycle = false) (hf : ∀ w, (f w).bValid = w.bValid) :
    H.Same (H.Write p f e) :=
  ⟨Write_Lifecycle H p f e he, Write_IsValid H p f e hf⟩

theorem Emit_Same (H : Host) (e : Event) (he : e.IsLifecycle = false) : H.Same (H.Emit e) :=
  ⟨by simp [Emit_Lifecycle, he], fun _ => rfl⟩

theorem ApplyColor_spec (I : FBUITweenInstance) (a : ℚ) (H : Host) :
    (I.ApplyColor a H).1.Core = I.Core ∧ H.Same (I.ApplyColor a H).2 := by
  unfold FBUITweenInstance.ApplyColor
  split
  · simp only []
    split <;> refine ⟨rfl, ?_⟩ <;>
      first
      | exact Same_refl _
      | (apply Write_Same; rfl; intro w; rfl)
  · exact ⟨rfl, Same_refl _⟩

theorem ApplyOpacity_spec (I : FBUITweenInstance) (a : ℚ) (H : Host) :
    (I.ApplyOpacity a H).1.Core = I.Core ∧ H.Same (I.ApplyOpacity a H).2 := by
  unfold FBUITweenInstance.ApplyOpacity
  split
  · refine ⟨rfl, ?_⟩
    apply Write_Same
    · rfl
    · intro w; rfl
  · exact ⟨rfl, Same_refl _⟩

theorem ApplyVisibility_spec (I : FBUITweenInstance) (a : ℚ) (H : Host) :
    (I.ApplyVisibility a H).1.Core = I.Core ∧ H.Same (I.ApplyVisibility a H).2 := by
  unfold FBUITweenInstance.ApplyVisibility
  split
  · simp only []
    split
    · refine ⟨rfl, ?_⟩
      apply Write_Same
      · rfl
      · intro w; rfl
    · exact ⟨rfl, Same_refl _⟩
  · exact ⟨rfl, Same_refl _⟩

theorem ApplyCanvasPosition_spec (I : FBUITweenInstance) (a : ℚ) (H : Host) :
    (I.ApplyCanvasPosition a H).1.Core = I.Core ∧ H.Same (I.ApplyCanvasPosition a H).2 := by
  unfold FBUITweenInstance.ApplyCanvasPosition
  split
  · simp only []
    split
    · split
      · refine ⟨rfl, ?_⟩
        apply Write_Same
        · rfl
        · intro w; rfl
      · exact ⟨rfl, Same_refl _⟩
    · exact ⟨rfl, Same_refl _⟩
  · exact ⟨rfl, Same_refl _⟩

theorem Translation_Core (G : TransformGroup) (a : ℚ) :
    (G.Translation a).Inst.Core = G.Inst.Core := by
  unfold TransformGroup.Translation
  split <;> rfl

theorem Scale_Core (G : TransformGroup) (a : ℚ) : (G.Scale a).Inst.Core = G.Inst.Core := by
  unfold TransformGroup.Scale
  split <;> rfl

theorem Rotation_Core (G : TransformGroup) (a : ℚ) :
    (G.Rotation a).Inst.Core = G.Inst.Core := by
  unfold TransformGroup.Rotation
  split
  · simp only []
    split <;> rfl
  · rfl


theorem ApplyTransform_spec (J : FBUITweenInstance) (T : FWidgetTransform) (a : ℚ) (H : Host)
    (p : WidgetPtr) (G : TransformGroup)
    (hG : G = ((({ Inst := J, CurrentTransform := T, bChangedRenderTransform := false } :
      TransformGroup).Translation a).Scale a).Rotation a) :
    (if G.bChangedRenderTransform then
        ((G.Inst.ApplyCanvasPosition a H).1,
          (G.Inst.ApplyCanvasPosition a H).2.Write p
            (fun w => { w with RenderTransform := G.CurrentTransform })
            (Event.SetRenderTransform p G.CurrentTransform))
      else G.Inst.ApplyCanvasPosition a H).1.Core = J.Core ∧
    H.Same (if G.bChangedRenderTransform then
        ((G.Inst.ApplyCanvasPosition a H).1,
          (G.Inst.ApplyCanvasPosition a H).2.Write p
            (fun w => { w with RenderTransform := G.CurrentTransform })
            (Event.SetRenderTransform p G.CurrentTransform))
      else G.Inst.ApplyCanvasPosition a H).2 := by
  have hGc : G.Inst.Core = J.Core := by
    rw [hG, Rotation_Core, Scale_Core, Translation_Core]
  have hP := ApplyCanvasPosition_spec G.Inst a H
  split
  · refine ⟨hP.1.trans hGc, Same_trans hP.2 ?_⟩
    apply Write_Same
    · rfl
    · intro w; rfl
  · exact ⟨hP.1.trans hGc, hP.2⟩


theorem Apply_spec (I : FBUITweenInstance) (a : ℚ) (H : Host) :
    (I.Apply a H).1.Core = I.Core ∧ H.Same (I.Apply a H).2 := by
  have h0 : H.Same (H.Emit (Event.Applied I.Serial a)) := Emit_Same _ _ rfl
  have hC := ApplyColor_spec I a (H.Emit (Event.Applied I.Serial a))
  have hO := ApplyOpacity_spec (I.ApplyColor a (H.Emit (Event.Applied I.Serial a))).1 a
    (I.ApplyColor a (H.Emit (Event.Applied I.Serial a))).2
  have hV := ApplyVisibility_spec
    ((I.ApplyColor a (H.Emit (Event.Applied I.Serial a))).1.ApplyOpacity a
      (I.ApplyColor a (H.Emit (Event.Applied I.Serial a))).2).1 a
    ((I.ApplyColor a (H.Emit (Event.Applied I.Serial a))).1.ApplyOpacity a
      (I.ApplyColor a (H.Emit (Event.Applied I.Serial a))).2).2
  unfold FBUITweenInstance.Apply
  simp only []
  refine ⟨(ApplyTransform_spec _ _ a _ I.pWidget _ rfl).1.trans
      (hV.1.trans (hO.1.trans hC.1)), ?_⟩
  exact Same_trans (Same_trans (Same_trans (Same_trans h0 hC.2) hO.2) hV.2)
    (ApplyTransform_spec _ _ a _ I.pWidget _ rfl).2


theorem Update_Core (Ease : EaseFn) (I : FBUITweenInstance) (dt : ℚ) (H : Host) :
    (I.Update Ease dt H).1.Core =
      if !I.bShouldUpdate && !I.bIsComplete then I.Core
      else if !H.IsValid I.pWidget then { I with bIsComplete := true }.Core
      else if I.Delay > 0 then { I with Delay := I.Delay - dt }.Core
      else (I.Ramped dt).Core := by
  unfold FBUITweenInstance.Update
  simp only []
  have hv : (H.Emit (Event.InstUpdate I.Serial)).IsValid I.pWidget = H.IsValid I.pWidget := rfl
  rw [hv]
  split
  · rfl
  · split
    · rfl
    · split
      · rfl
      · rw [(Apply_spec _ _ _).1]
        unfold FBUITweenInstance.Ramped
        by_cases hs : I.bHasPlayedStartEvent = true <;>
          by_cases ha : I.Alpha + dt ≥ I.Duration <;>
          simp [hs, ha, FBUITweenInstance.Core]

theorem Update_Host (Ease : EaseFn) (I : FBUITweenInstance) (dt : ℚ) (H : Host) :
    Lifecycle (I.Update Ease dt H).2.Log =
      Lifecycle H.Log ++ Event.InstUpdate I.Serial ::
        (if I.Ramps H && !I.bHasPlayedStartEvent && I.OnStartedDelegate.isSome then
          [Event.Started I.Serial] else []) ∧
    ∀ q, (I.Update Ease dt H).2.IsValid q = H.IsValid q := by
  unfold FBUITweenInstance.Update
  simp only []
  have hv : (H.Emit (Event.InstUpdate I.Serial)).IsValid I.pWidget = H.IsValid I.pWidget := rfl
  have hl : Lifecycle (H.Emit (Event.InstUpdate I.Serial)).Log =
      Lifecycle H.Log ++ [Event.InstUpdate I.Serial] := by
    rw [Emit_Lifecycle]; rfl
  rw [hv]
  unfold FBUITweenInstance.Ramps
  split
  · rename_i h
    have : (I.bShouldUpdate || I.bIsComplete) = false := by
      cases h1 : I.bShouldUpdate <;> cases h2 : I.bIsComplete <;> simp [h1, h2] at h ⊢
    simp [this, hl]
    intro q; rfl
  · split
    · rename_i h
      have : H.IsValid I.pWidget = false := by simpa using h
      simp [this, hl]
      intro q; rfl
    · split
      · rename_i h
        have : ¬ (I.Delay ≤ 0) := not_le.mpr h
        simp [this, hl]
        intro q; rfl
      · rename_i h1 h2 h3
        have e1 : (I.bShouldUpdate || I.bIsComplete) = true := by
          cases h1' : I.bShouldUpdate <;> cases h2' : I.bIsComplete <;> simp [h1', h2'] at h1 ⊢
        have e2 : H.IsValid I.pWidget = true := by simpa using h2
        have e3 : I.Delay ≤ 0 := not_lt.mp h3
        have hA := fun J a H1 => (Apply_spec J a H1).2
        refine ⟨?_, ?_⟩
        · rw [(hA _ _ _).1]
          cases hs : I.bHasPlayedStartEvent <;> cases hd : I.OnStartedDelegate <;>
            simp [e1, e2, e3, hl, Emit_Lifecycle, Event.IsLifecycle, Lifecycle_append]
        · intro q
          rw [(hA _ _ _).2]
          cases hs : I.bHasPlayedStartEvent <;> cases hd : I.OnStartedDelegate <;> rfl

/-! ### Monotonic alpha -/

theorem Core_fields {I J : FBUITweenInstance} (h : I.Core = J.Core) :
    I.Serial = J.Serial ∧ I.pWidget = J.pWidget ∧ I.Duration = J.Duration ∧
    I.Delay = J.Delay ∧ I.Alpha = J.Alpha ∧ I.bShouldUpdate = J.bShouldUpdate ∧
    I.bIsComplete = J.bIsComplete ∧ I.bHasPlayedStartEvent = J.bHasPlayedStartEvent ∧
    I.bHasPlayedCompleteEvent = J.bHasPlayedCompleteEvent ∧ I.EasingType = J.EasingType ∧
    I.EasingParam = J.EasingParam ∧ I.OnStartedDelegate = J.OnStartedDelegate ∧
    I.OnCompleteDelegate = J.OnCompleteDelegate := by
  simpa [FBUITweenInstance.Core] using h

theorem Update_Alpha_step (Ease : EaseFn) (I : FBUITweenInstance) (dt : ℚ) (H : Host)
    (hdt : 0 ≤ dt) (hI : I.Alpha ≤ I.Duration) :
    I.Alpha ≤ (I.Update Ease dt H).1.Alpha ∧
    (I.Update Ease dt H).1.Alpha ≤ (I.Update Ease dt H).1.Duration ∧
    (I.Update Ease dt H).1.Duration = I.Duration := by
  have hc := Update_Core Ease I dt H
  split at hc
  · obtain ⟨-, -, hD, -, hA, -⟩ := Core_fields hc
    rw [hD, hA]; exact ⟨le_refl _, hI, rfl⟩
  · split at hc
    · obtain ⟨-, -, hD, -, hA, -⟩ := Core_fields hc
      rw [hD, hA]; exact ⟨le_refl _, hI, rfl⟩
    · split at hc
      · obtain ⟨-, -, hD, -, hA, -⟩ := Core_fields hc
        rw [hD, hA]; exact ⟨le_refl _, hI, rfl⟩
      · obtain ⟨-, -, hD, -, hA, -⟩ := Core_fields hc
        rw [hD, hA]
        unfold FBUITweenInstance.Ramped
        split
        · exact ⟨hI, le_refl _, rfl⟩
        · rename_i hlt
          exact ⟨by simpa using hdt, le_of_lt (not_le.mp hlt), rfl⟩

theorem UpdateSeq_Alpha (Ease : EaseFn) (Calls : List (ℚ × Host)) :
    ∀ I : FBUITweenInstance, I.Alpha ≤ I.Duration → (∀ c ∈ Calls, 0 ≤ c.1) →
      List.Chain (fun a b : FBUITweenInstance => a.Alpha ≤ b.Alpha) I (I.UpdateSeq Ease Calls) ∧
      ∀ J ∈ I.UpdateSeq Ease Calls, J.Alpha ≤ J.Duration ∧ J.Duration = I.Duration := by
  induction Calls with
  | nil => intro I _ _; exact ⟨List.Chain.nil, by simp [FBUITweenInstance.UpdateSeq]⟩
  | cons c Rest ih =>
    intro I hI hdt
    have hstep := Update_Alpha_step Ease I c.1 c.2 (hdt c (List.mem_cons_self _ _)) hI
    have hrest := ih (I.Update Ease c.1 c.2).1 hstep.2.1
      (fun d hd => hdt d (List.mem_cons_of_mem _ hd))
    refine ⟨List.Chain.cons hstep.1 hrest.1, ?_⟩
    intro J hJ
    rcases List.mem_cons.mp hJ with rfl | hJ
    · exact ⟨hstep.2.1, hstep.2.2⟩
    · exact ⟨(hrest.2 J hJ).1, (hrest.2 J hJ).2.trans hstep.2.2⟩

/-- C8. Monotonic alpha: for an instance with `Duration >= 0` and `Alpha = 0`, along any
sequence of `FBUITweenInstance::Update` calls with non-negative `DeltaTime` (the host being
arbitrary at each call), `Alpha` after each call is at least `Alpha` before it, and after
every call `Alpha` is at most `Duration`, which never changes. -/
theorem Alpha_monotone (Ease : EaseFn) (I : FBUITweenInstance) (Calls : List (ℚ × Host))
    (hD : 0 ≤ I.Duration) (h0 : I.Alpha = 0) (hdt : ∀ c ∈ Calls, 0 ≤ c.1) :
    List.Chain (fun a b : FBUITweenInstance => a.Alpha ≤ b.Alpha) I (I.UpdateSeq Ease Calls) ∧
    ∀ J ∈ I.UpdateSeq Ease Calls, J.Alpha ≤ J.Duration ∧ J.Duration = I.Duration :=
  UpdateSeq_Alpha Ease Calls I (by rw [h0]; exact hD) hdt


/-- Witness of C8: a begun one-second instance, updated by 1/2 and then by 3/4, has `Alpha`
1/2 and then 1. -/
theorem Alpha_monotone_witness :
    (0 : ℚ) ≤ Scenario.Ramping.Duration ∧ Scenario.Ramping.Alpha = 0 ∧
    (∀ c ∈ Scenario.TwoCalls, (0 : ℚ) ≤ c.1) ∧
    (Scenario.Ramping.UpdateSeq LinearEase Scenario.TwoCalls).map (fun J => J.Alpha) = [1 / 2, 1] ∧
    List.Chain (fun a b : FBUITweenInstance => a.Alpha ≤ b.Alpha) Scenario.Ramping
      (Scenario.Ramping.UpdateSeq LinearEase Scenario.TwoCalls) :=
  ⟨by with_unfolding_all decide, by with_unfolding_all decide, by with_unfolding_all decide,
    by with_unfolding_all decide,
    (Alpha_monotone LinearEase Scenario.Ramping Scenario.TwoCalls (by with_unfolding_all decide)
      (by with_unfolding_all decide) (by with_unfolding_all decide)).1⟩

theorem Update_of_no_active (E : Env) (S : UBUITween) (dt : ℚ) (h : S.ActiveInstances = [])
    (hf : S.Fault = false) :
    S.Update E dt = { S with ActiveInstances := UBUITween.AddLoop [] S.InstancesToAdd,
                             InstancesToAdd := [] } := by
  simp [UBUITween.Update, h, UBUITween.UpdateLoop, hf]

/-- C9 as stated fails: the first `Update(0.5)` after `Create` only promotes the instance,
the opacity of A is still 1; after the second `Update(0.5)` the opacity is 0.5, the instance
is still active and no completion callback has fired. -/
theorem Opacity_first_tick_only_promotes :
    ((Scenario.Opacity.Update Scenario.Quiet (1 / 2)).World.Get 0).RenderOpacity = 1 ∧
    (((Scenario.Opacity.Update Scenario.Quiet (1 / 2)).Update Scenario.Quiet (1 / 2)).World.Get
      0).RenderOpacity = 1 / 2 ∧
    ((Scenario.Opacity.Update Scenario.Quiet (1 / 2)).Update Scenario.Quiet
      (1 / 2)).ActiveInstances.length = 1 ∧
    ((Scenario.Opacity.Update Scenario.Quiet (1 / 2)).Update Scenario.Quiet
      (1 / 2)).World.Log.count (Event.Completed 0) = 0 := by
  with_unfolding_all decide

/-- C9, as amended: in the opacity scenario (chain ended by `Begin`), a first `Update` of any
`DeltaTime` only promotes the instance and leaves the opacity of A at 1; the next
`Update(0.5)` leaves the opacity at 0.5 with the instance still in `ActiveInstances`; the
next `Update(0.5)` leaves the opacity at 0, removes the instance and runs the completion
cleanup and the completion callback exactly once. -/
theorem Opacity_scenario (dt0 : ℚ) :
    ((Scenario.Opacity.Update Scenario.Quiet dt0).World.Get 0).RenderOpacity = 1 ∧
    (Scenario.Opacity.Update Scenario.Quiet dt0).ActiveInstances.map (fun I => I.Serial) = [0] ∧
    (((Scenario.Opacity.Update Scenario.Quiet dt0).Update Scenario.Quiet (1 / 2)).World.Get
      0).RenderOpacity = 1 / 2 ∧
    ((Scenario.Opacity.Update Scenario.Quiet dt0).Update Scenario.Quiet
      (1 / 2)).ActiveInstances.map (fun I => I.Serial) = [0] ∧
    ((((Scenario.Opacity.Update Scenario.Quiet dt0).Update Scenario.Quiet (1 / 2)).Update
      Scenario.Quiet (1 / 2)).World.Get 0).RenderOpacity = 0 ∧
    (((Scenario.Opacity.Update Scenario.Quiet dt0).Update Scenario.Quiet (1 / 2)).Update
      Scenario.Quiet (1 / 2)).ActiveInstances = [] ∧
    (((Scenario.Opacity.Update Scenario.Quiet dt0).Update Scenario.Quiet (1 / 2)).Update
      Scenario.Quiet (1 / 2)).InstancesToAdd = [] ∧
    (((Scenario.Opacity.Update Scenario.Quiet dt0).Update Scenario.Quiet (1 / 2)).Update
      Scenario.Quiet (1 / 2)).World.Log.count (Event.Cleanup 0) = 1 ∧
    (((Scenario.Opacity.Update Scenario.Quiet dt0).Update Scenario.Quiet (1 / 2)).Update
      Scenario.Quiet (1 / 2)).World.Log.count (Event.Completed 0) = 1 := by
  have h : Scenario.Opacity.Update Scenario.Quiet dt0 = Scenario.Opacity.Update Scenario.Quiet 0 := by
    rw [Update_of_no_active _ _ _ rfl rfl, Update_of_no_active _ _ _ rfl rfl]
  rw [h]
  with_unfolding_all decide


/-- C10 as stated fails: after `Create(A, 1.0, 0.3)`, `Update(0.3)` and `Update(0.05)`
the instance has `Delay = 0.25` and `Alpha = 0`, and the start callback has not fired: the
first `Update` only promoted it. -/
theorem Delay_first_tick_only_promotes :
    ((Scenario.Delayed.Update Scenario.Quiet (3 / 10)).Update Scenario.Quiet
      (1 / 20)).ActiveInstances.map (fun I => (I.Delay, I.Alpha)) = [(1 / 4, 0)] ∧
    Event.Started 0 ∉ ((Scenario.Delayed.Update Scenario.Quiet (3 / 10)).Update Scenario.Quiet
      (1 / 20)).World.Log := by
  with_unfolding_all decide

/-- C10, as amended: in the delay scenario (chain ended by `Begin`), a first `Update` of any
`DeltaTime` only promotes the instance; the next `Update(0.3)` brings `Delay` to 0, writes
no widget property and fires no start callback (the trace gains the `Update` call alone);
the next `Update(0.05)` fires the start callback once and leaves `Alpha = 0.05`. -/
theorem Delay_scenario (dt0 : ℚ) :
    (Scenario.Delayed.Update Scenario.Quiet dt0).ActiveInstances.map
      (fun I => (I.Delay, I.Alpha)) = [(3 / 10, 0)] ∧
    ((Scenario.Delayed.Update Scenario.Quiet dt0).Update Scenario.Quiet
      (3 / 10)).ActiveInstances.map (fun I => (I.Delay, I.Alpha)) = [(0, 0)] ∧
    ((Scenario.Delayed.Update Scenario.Quiet dt0).Update Scenario.Quiet
      (3 / 10)).World.Widgets = (Scenario.Delayed.Update Scenario.Quiet dt0).World.Widgets ∧
    ((Scenario.Delayed.Update Scenario.Quiet dt0).Update Scenario.Quiet
      (3 / 10)).World.Log =
      (Scenario.Delayed.Update Scenario.Quiet dt0).World.Log ++ [Event.InstUpdate 0] ∧
    (((Scenario.Delayed.Update Scenario.Quiet dt0).Update Scenario.Quiet (3 / 10)).Update
      Scenario.Quiet (1 / 20)).ActiveInstances.map (fun I => (I.Delay, I.Alpha)) =
      [(0, 1 / 20)] ∧
    (((Scenario.Delayed.Update Scenario.Quiet dt0).Update Scenario.Quiet (3 / 10)).Update
      Scenario.Quiet (1 / 20)).World.Log.count (Event.Started 0) = 1 := by
  have h : Scenario.Delayed.Update Scenario.Quiet dt0 = Scenario.Delayed.Update Scenario.Quiet 0 := by
    rw [Update_of_no_active _ _ _ rfl rfl, Update_of_no_active _ _ _ rfl rfl]
  rw [h]
  with_unfolding_all decide

/-! ### Scheduler calls -/

theorem Begin_spec (I : FBUITweenInstance) (H : Host) :
    (I.Begin H).1.Serial = I.Serial ∧ H.Same (I.Begin H).2 := by
  unfold FBUITweenInstance.Begin
  simp only []
  split
  · exact ⟨rfl, Emit_Same _ _ rfl⟩
  · constructor
    · rw [(Core_fields (Apply_spec _ _ _).1).1]
      split <;> rfl
    · exact (Apply_spec _ _ _).2

theorem Set_spec (I : FBUITweenInstance) (H : Host) (s : Setter) :
    (I.Set H s).1.Serial = I.Serial ∧ H.Same (I.Set H s).2 := by
  cases s <;> first | exact ⟨rfl, Same_refl _⟩ | exact Begin_spec I H

theorem Configure_spec (Setters : List Setter) :
    ∀ (I : FBUITweenInstance) (H : Host),
      (I.Configure H Setters).1.Serial = I.Serial ∧ H.Same (I.Configure H Setters).2 := by
  induction Setters with
  | nil => intro I H; exact ⟨rfl, Same_refl _⟩
  | cons s Rest ih =>
    intro I H
    have h1 := Set_spec I H s
    have h2 := ih (I.Set H s).1 (I.Set H s).2
    exact ⟨h2.1.trans h1.1, Same_trans h1.2 h2.2⟩

theorem Spawned_refl (S : UBUITween) : S.Spawned S [] 0 :=
  ⟨⟨fun _ => true, by simp⟩, by simp [Serials], rfl, by simp, rfl, fun _ => rfl⟩

theorem Spawned_trans {S S2 S3 : UBUITween} {Pre : List Event} {k m : Nat}
    (h : S.Spawned S2 Pre k) (h2 : S2.Spawned S3 [] m) : S.Spawned S3 Pre (k + m) := by
  obtain ⟨⟨p, hA⟩, hP, hN, hL, hF, hV⟩ := h
  obtain ⟨⟨p2, hA2⟩, hP2, hN2, hL2, hF2, hV2⟩ := h2
  have hr : List.range' S.NextSerial (k + m) =
      List.range' S.NextSerial k ++ List.range' (S.NextSerial + k) m := by
    rw [List.range'_append_1, Nat.add_comm m k]
  refine ⟨⟨fun I => p2 I && p I, ?_⟩, ?_, ?_, ?_, hF2.trans hF, fun q => (hV2 q).trans (hV q)⟩
  · rw [hA2, hA, List.filter_filter]
  · rw [hP2, hP, hN, hr, List.append_assoc]
  · rw [hN2, hN]; omega
  · rw [hL2, hL, hN, hr]; simp only [List.append_assoc, List.map_append, List.append_nil]

theorem Clear_Spawned (S : UBUITween) (w : WidgetPtr) : S.Spawned (S.Clear w).1 [] 0 := by
  rw [Clear_eq]
  exact ⟨⟨_, rfl⟩, by simp [Serials], rfl, by simp, rfl, fun _ => rfl⟩

theorem Create_Spawned (S : UBUITween) (w : WidgetPtr) (d dl : ℚ) (add : Bool) :
    S.Spawned (S.Create w d dl add) [] 1 := by
  unfold UBUITween.Create
  cases add
  · simp only [Bool.not_false, if_true]
    rw [Clear_eq]
    refine ⟨⟨_, rfl⟩, ?_, rfl, ?_, rfl, fun _ => rfl⟩
    · simp [Serials, FBUITweenInstance.Construct]
    · simp [Emit_Lifecycle, Event.IsLifecycle]
  · simp only [Bool.not_true, if_false]
    refine ⟨⟨fun _ => true, by simp⟩, ?_, rfl, ?_, rfl, fun _ => rfl⟩
    · simp [Serials, FBUITweenInstance.Construct]
    · simp [Emit_Lifecycle, Event.IsLifecycle]

theorem Chain_Spawned (S : UBUITween) (Setters : List Setter) :
    S.Spawned (S.Chain Setters) [] 0 := by
  unfold UBUITween.Chain
  split
  · exact Spawned_refl S
  · rename_i I hI
    have hc := Configure_spec Setters I S.World
    have hne : S.InstancesToAdd ≠ [] := by
      intro h; rw [h] at hI; simp at hI
    have hlast : S.InstancesToAdd.getLast hne = I := by
      rw [List.getLast?_eq_getLast _ hne] at hI
      exact Option.some.inj hI
    have hsplit : S.InstancesToAdd = S.InstancesToAdd.dropLast ++ [I] := by
      rw [← hlast]; exact (List.dropLast_append_getLast hne).symm
    refine ⟨⟨fun _ => true, by simp⟩, ?_, rfl, ?_, rfl, hc.2.2⟩
    · simp only [Serials, List.map_append, List.map_cons, List.map_nil, List.range'_zero,
        List.append_nil, hc.1]
      conv_rhs => rw [hsplit]
      simp
    · simp [hc.2.1]

theorem Perform_Spawned (S : UBUITween) (a : Action) :
    S.Spawned (S.Perform a) [] (Action.Creations [a]) := by
  cases a with
  | Create w d dl add Setters =>
    exact Spawned_trans (k := 1) (m := 0) (Create_Spawned S w d dl add) (Chain_Spawned _ Setters)
  | Clear w => exact Clear_Spawned S w

theorem Run_Spawned (Actions : List Action) :
    ∀ S : UBUITween, S.Spawned (S.Run Actions) [] (Action.Creations Actions) := by
  induction Actions with
  | nil => intro S; exact Spawned_refl S
  | cons a Rest ih =>
    intro S
    have h1 := Perform_Spawned S a
    have h2 := ih (S.Perform a)
    have := Spawned_trans h1 h2
    have hk : Action.Creations [a] + Action.Creations Rest = Action.Creations (a :: Rest) := by
      cases a <;> simp [Action.Creations]; omega
    rw [hk] at this
    exact this

/-! ### The update loop -/

theorem UpdatesOf_append (L M : List Event) : UpdatesOf (L ++ M) = UpdatesOf L ++ UpdatesOf M := by
  induction L with
  | nil => rfl
  | cons e L ih => cases e <;> simp [UpdatesOf, ih]

theorem CreatedOf_append (L M : List Event) : CreatedOf (L ++ M) = CreatedOf L ++ CreatedOf M := by
  induction L with
  | nil => rfl
  | cons e L ih => cases e <;> simp [CreatedOf, ih]

theorem UpdatesOf_Lifecycle (L : List Event) : UpdatesOf (Lifecycle L) = UpdatesOf L := by
  induction L with
  | nil => rfl
  | cons e L ih =>
    cases e <;> simp [Lifecycle, List.filter_cons, Event.IsLifecycle, UpdatesOf] <;>
      simpa [Lifecycle] using ih

theorem CreatedOf_Lifecycle (L : List Event) : CreatedOf (Lifecycle L) = CreatedOf L := by
  induction L with
  | nil => rfl
  | cons e L ih =>
    cases e <;> simp [Lifecycle, List.filter_cons, Event.IsLifecycle, CreatedOf] <;>
      simpa [Lifecycle] using ih

theorem UpdatesOf_Created (r : List Nat) : UpdatesOf (r.map Event.Created) = [] := by
  induction r with
  | nil => rfl
  | cons n r ih => simpa [UpdatesOf] using ih

theorem CreatedOf_Created (r : List Nat) : CreatedOf (r.map Event.Created) = r := by
  induction r with
  | nil => rfl
  | cons n r ih => simpa [CreatedOf] using ih

theorem Emit_Spawned (S : UBUITween) (e : Event) (he : e.IsLifecycle = true) :
    S.Spawned (S.Emit e) [e] 0 :=
  ⟨⟨fun _ => true, by simp [UBUITween.Emit]⟩, by simp [UBUITween.Emit, Serials], rfl,
    by simp [UBUITween.Emit, Emit_Lifecycle, he], rfl, fun _ => rfl⟩

theorem Spawned_after {S S2 S3 : UBUITween} {Pre : List Event} {m : Nat}
    (h : S.Spawned S2 Pre 0) (h2 : S2.Spawned S3 [] m) : S.Spawned S3 Pre m := by
  have := Spawned_trans h h2
  rwa [Nat.zero_add] at this

theorem DoCompleteCleanup_Spawned (E : Env) (I : FBUITweenInstance) (S : UBUITween) :
    ∃ Pre k, (Pre = [] ∨ Pre = [Event.Completed I.Serial]) ∧
      S.Spawned (I.DoCompleteCleanup E S) Pre k := by
  unfold FBUITweenInstance.DoCompleteCleanup
  split
  · exact ⟨[], 0, Or.inl rfl, Spawned_refl S⟩
  · split
    · rename_i cb _
      exact ⟨[Event.Completed I.Serial], _, Or.inr rfl,
        Spawned_after (Emit_Spawned S _ rfl) (Run_Spawned (E.Callbacks cb) _)⟩
    · exact ⟨[], 0, Or.inl rfl, Spawned_refl S⟩

theorem eraseIdx_set {α : Type} (A : List α) (i : Nat) (x : α) :
    (A.set i x).eraseIdx i = A.eraseIdx i := by
  induction A generalizing i with
  | nil => rfl
  | cons a A ih =>
    cases i with
    | zero => rfl
    | succ i => simp [List.set, List.eraseIdx, ih]

theorem Visit_cases (E : Env) (dt : ℚ) (S : UBUITween) (i : Nat) (Inst : FBUITweenInstance) :
    ((Inst.Update E.Ease dt S.World).1.bIsComplete = false ∧
      S.Visit E dt i Inst =
        { S with ActiveInstances := S.ActiveInstances.set i (Inst.Update E.Ease dt S.World).1,
                 World := (Inst.Update E.Ease dt S.World).2 }) ∨
    ((Inst.Update E.Ease dt S.World).1.bIsComplete = true ∧
      ∃ Pre k, (Pre = [] ∨ Pre = [Event.Completed Inst.Serial]) ∧
        (S.Retired i (Inst.Update E.Ease dt S.World)).Spawned (S.Visit E dt i Inst) Pre k) := by
  unfold UBUITween.Visit
  simp only [FBUITweenInstance.IsComplete]
  cases hc : (Inst.Update E.Ease dt S.World).1.bIsComplete
  · left; simp
  · right
    refine ⟨rfl, ?_⟩
    simp only [if_true, eraseIdx_set]
    have hs : (Inst.Update E.Ease dt S.World).1.Serial = Inst.Serial := by
      have := Update_Core E.Ease Inst dt S.World
      split at this
      · exact (Core_fields this).1
      · split at this
        · exact (Core_fields this).1
        · split at this
          · exact (Core_fields this).1
          · rw [(Core_fields this).1]; unfold FBUITweenInstance.Ramped; split <;> rfl
    have := DoCompleteCleanup_Spawned E (Inst.Update E.Ease dt S.World).1
      (S.Retired i (Inst.Update E.Ease dt S.World))
    rw [hs] at this
    exact this

theorem UpdateLoop_invariant (E : Env) (dt : ℚ) (P : UBUITween → Prop)
    (hFault : ∀ S, P S → P { S with Fault := true })
    (hVisit : ∀ S i Inst, P S → S.ActiveInstances[i]? = some Inst → P (S.Visit E dt i Inst)) :
    ∀ (k : Nat) (S : UBUITween), P S → P (UBUITween.UpdateLoop E dt k S) := by
  intro k
  induction k with
  | zero => intro S h; exact h
  | succ k ih =>
    intro S h
    unfold UBUITween.UpdateLoop
    split
    · exact hFault S h
    · rename_i Inst hI
      exact ih _ (hVisit S k Inst h hI)

theorem Update_Serial (Ease : EaseFn) (I : FBUITweenInstance) (dt : ℚ) (H : Host) :
    (I.Update Ease dt H).1.Serial = I.Serial ∧ (I.Update Ease dt H).1.pWidget = I.pWidget ∧
    (I.Update Ease dt H).1.OnCompleteDelegate = I.OnCompleteDelegate := by
  have := Update_Core Ease I dt H
  split at this
  · exact ⟨(Core_fields this).1, (Core_fields this).2.1, (Core_fields this).2.2.2.2.2.2.2.2.2.2.2.2⟩
  · split at this
    · exact ⟨(Core_fields this).1, (Core_fields this).2.1,
        (Core_fields this).2.2.2.2.2.2.2.2.2.2.2.2⟩
    · split at this
      · exact ⟨(Core_fields this).1, (Core_fields this).2.1,
          (Core_fields this).2.2.2.2.2.2.2.2.2.2.2.2⟩
      · rw [(Core_fields this).1, (Core_fields this).2.1,
          (Core_fields this).2.2.2.2.2.2.2.2.2.2.2.2]
        unfold FBUITweenInstance.Ramped
        split <;> exact ⟨rfl, rfl, rfl⟩

theorem AddLoop_eq (Pending : List FBUITweenInstance) :
    ∀ Active, UBUITween.AddLoop Active Pending = Active ++ Pending := by
  induction Pending with
  | nil => intro A; simp [UBUITween.AddLoop]
  | cons I Rest ih => intro A; simp [UBUITween.AddLoop, ih]

theorem mem_Serials {A : List FBUITweenInstance} {I : FBUITweenInstance} (h : I ∈ A) :
    I.Serial ∈ Serials A := List.mem_map_of_mem _ h

/-- What one visit of the loop does to the trace and to the numbering. -/
theorem Visit_summary (E : Env) (dt : ℚ) (S : UBUITween) (i : Nat) (Inst : FBUITweenInstance)
    (hI : S.ActiveInstances[i]? = some Inst) :
    ∃ k, UpdatesOf (S.Visit E dt i Inst).World.Log = UpdatesOf S.World.Log ++ [Inst.Serial] ∧
      CreatedOf (S.Visit E dt i Inst).World.Log =
        CreatedOf S.World.Log ++ List.range' S.NextSerial k ∧
      (S.Visit E dt i Inst).NextSerial = S.NextSerial + k ∧
      Serials (S.Visit E dt i Inst).InstancesToAdd =
        Serials S.InstancesToAdd ++ List.range' S.NextSerial k ∧
      (∀ J ∈ (S.Visit E dt i Inst).ActiveInstances, J.Serial ∈ Serials S.ActiveInstances) ∧
      (S.Visit E dt i Inst).Fault = S.Fault := by
  have hmem : Inst ∈ S.ActiveInstances := List.getElem?_mem hI
  have hser := (Update_Serial E.Ease Inst dt S.World).1
  have hlog := (Update_Host E.Ease Inst dt S.World).1
  have hU : UpdatesOf (Inst.Update E.Ease dt S.World).2.Log =
      UpdatesOf S.World.Log ++ [Inst.Serial] := by
    rw [← UpdatesOf_Lifecycle, hlog, UpdatesOf_append, UpdatesOf_Lifecycle]
    split <;> rfl
  have hC : CreatedOf (Inst.Update E.Ease dt S.World).2.Log = CreatedOf S.World.Log := by
    rw [← CreatedOf_Lifecycle, hlog, CreatedOf_append, CreatedOf_Lifecycle]
    split <;> simp [CreatedOf]
  rcases Visit_cases E dt S i Inst with ⟨_, hv⟩ | ⟨_, Pre, k, hPre, hsp⟩
  · rw [hv]
    refine ⟨0, hU, by simpa using hC, rfl, by simp, ?_, rfl⟩
    intro J hJ
    rcases List.mem_or_eq_of_mem_set hJ with h | h
    · exact mem_Serials h
    · rw [h, hser]; exact mem_Serials hmem
  · obtain ⟨⟨p, hA⟩, hP, hN, hL, hF, -⟩ := hsp
    have hR : Lifecycle (S.Retired i (Inst.Update E.Ease dt S.World)).World.Log =
        Lifecycle (Inst.Update E.Ease dt S.World).2.Log ++
          [Event.Cleanup (Inst.Update E.Ease dt S.World).1.Serial] := by
      simp [UBUITween.Retired, Emit_Lifecycle, Event.IsLifecycle]
    have hPreU : UpdatesOf Pre = [] := by rcases hPre with h | h <;> rw [h] <;> rfl
    have hPreC : CreatedOf Pre = [] := by rcases hPre with h | h <;> rw [h] <;> rfl
    refine ⟨k, ?_, ?_, hN, hP, ?_, hF⟩
    · rw [← UpdatesOf_Lifecycle, hL, hR]
      simp only [UpdatesOf_append, UpdatesOf_Lifecycle, hU, hPreU, UpdatesOf_Created]
      simp [UpdatesOf]
    · rw [← CreatedOf_Lifecycle, hL, hR]
      simp only [CreatedOf_append, CreatedOf_Lifecycle, hC, hPreC, CreatedOf_Created]
      simp [CreatedOf, UBUITween.Retired]
    · intro J hJ
      rw [hA] at hJ
      have hJ2 := (List.mem_filter.mp hJ).1
      exact mem_Serials ((List.eraseIdx_sublist _ _).subset hJ2)

theorem Chain_Active (S : UBUITween) (Setters : List Setter) :
    (S.Chain Setters).ActiveInstances = S.ActiveInstances := by
  unfold UBUITween.Chain
  split <;> rfl

theorem eraseIdx_index {α : Type} (A : List α) (i a : Nat) :
    (A.eraseIdx i)[a]? = A[if a < i then a else a + 1]? := by
  rw [List.getElem?_eraseIdx]
  split <;> rfl

/-! ### The bookkeeping of reachable states -/

theorem LifeOf_append (n : Nat) (L M : List Event) :
    LifeOf n (L ++ M) = LifeOf n L ++ LifeOf n M := by
  simp [LifeOf]

theorem LifeOf_Lifecycle (n : Nat) (L : List Event) : LifeOf n (Lifecycle L) = LifeOf n L := by
  simp only [LifeOf, Lifecycle, List.filter_filter]
  apply List.filter_congr
  intro e _
  cases e <;> simp [Event.IsLifecycle]

theorem LifeOf_Created (n : Nat) (r : List Nat) : LifeOf n (r.map Event.Created) = [] := by
  induction r with
  | nil => rfl
  | cons m r ih => simp [LifeOf]

theorem LifeOf_of_Lifecycle_eq {L M : List Event} (X : List Event)
    (h : Lifecycle M = Lifecycle L ++ X) (n : Nat) :
    LifeOf n M = LifeOf n L ++ LifeOf n X := by
  rw [← LifeOf_Lifecycle n M, h, LifeOf_append, LifeOf_Lifecycle]

theorem Spawned_LifeOf {S S2 : UBUITween} {Pre : List Event} {k : Nat} {s : Nat}
    (h : S.Spawned S2 Pre k) (hPre : Pre = [] ∨ Pre = [Event.Completed s]) (n : Nat) :
    LifeOf n S2.World.Log = LifeOf n S.World.Log := by
  obtain ⟨-, -, -, hL, -, -⟩ := h
  rw [List.append_assoc] at hL
  rw [LifeOf_of_Lifecycle_eq _ hL n, LifeOf_append, LifeOf_Created]
  rcases hPre with h | h <;> rw [h] <;> simp [LifeOf]

theorem Accounted_of_Spawned {S S2 : UBUITween} {Pre : List Event} {k : Nat} {s : Nat}
    (h : S.Spawned S2 Pre k) (hPre : Pre = [] ∨ Pre = [Event.Completed s])
    (hS : S.Accounted) : S2.Accounted := by
  have hLife := Spawned_LifeOf h hPre
  obtain ⟨⟨p, hA⟩, hP, hN, -, -, -⟩ := h
  obtain ⟨hnd, hlt, hnew, hpend, hact, hlives⟩ := hS
  have hsubA : ∀ I ∈ S2.ActiveInstances, I ∈ S.ActiveInstances := by
    intro I hI; rw [hA] at hI; exact (List.mem_filter.mp hI).1
  have hserP : ∀ I ∈ S2.InstancesToAdd,
      (∃ I0 ∈ S.InstancesToAdd, I0.Serial = I.Serial) ∨ S.NextSerial ≤ I.Serial := by
    intro I hI
    have : I.Serial ∈ Serials S2.InstancesToAdd := mem_Serials hI
    rw [hP] at this
    rcases List.mem_append.mp this with h | h
    · left; exact List.mem_map.mp h
    · right; exact (List.mem_range'_1.mp h).1
  refine ⟨?_, ?_, ?_, ?_, ?_, ?_⟩
  · simp only [Serials, List.map_append] at hnd ⊢
    have hP2 : List.map (fun I => I.Serial) S2.InstancesToAdd =
        List.map (fun I => I.Serial) S.InstancesToAdd ++ List.range' S.NextSerial k := hP
    rw [hP2, hA, ← List.append_assoc]
    apply List.Nodup.append
    · exact hnd.sublist
        (List.Sublist.append ((List.filter_sublist _).map _) (List.Sublist.refl _))
    · exact List.nodup_range' _ _
    · intro n hn1 hn2
      have h1 : n < S.NextSerial := by
        rcases List.mem_append.mp hn1 with h | h
        · obtain ⟨I, hI, hIs⟩ := List.mem_map.mp h
          rw [← hIs]
          exact hlt I (List.mem_append_left _ (List.mem_filter.mp hI).1)
        · obtain ⟨I, hI, hIs⟩ := List.mem_map.mp h
          rw [← hIs]
          exact hlt I (List.mem_append_right _ hI)
      have h2 := (List.mem_range'_1.mp hn2).1
      omega
  · intro I hI
    rw [hN]
    rcases List.mem_append.mp hI with h | h
    · have := hlt I (List.mem_append_left _ (hsubA I h)); omega
    · have : I.Serial ∈ Serials S2.InstancesToAdd := mem_Serials h
      rw [hP] at this
      rcases List.mem_append.mp this with h | h
      · obtain ⟨I0, hI0, hs⟩ := List.mem_map.mp h
        have := hlt I0 (List.mem_append_right _ hI0)
        rw [hs] at this; omega
      · have := (List.mem_range'_1.mp h).2; omega
  · intro n hn
    rw [hLife]; exact hnew n (by omega)
  · intro I hI
    rw [hLife]
    rcases hserP I hI with ⟨I0, hI0, hs⟩ | h
    · rw [← hs]; exact hpend I0 hI0
    · exact hnew _ h
  · intro I hI
    rw [hLife]; exact hact I (hsubA I hI)
  · intro n; rw [hLife]; exact hlives n

/-- What one call of `Update` does to the start flag and to the lives in the trace. -/
theorem Update_Start (Ease : EaseFn) (I : FBUITweenInstance) (dt : ℚ) (H : Host) :
    (I.bHasPlayedStartEvent = true → (I.Update Ease dt H).1.bHasPlayedStartEvent = true) ∧
    ((∀ n, LifeOf n (I.Update Ease dt H).2.Log = LifeOf n H.Log) ∨
      (I.bHasPlayedStartEvent = false ∧ (I.Update Ease dt H).1.bHasPlayedStartEvent = true ∧
        ∀ n, LifeOf n (I.Update Ease dt H).2.Log =
          LifeOf n H.Log ++ (if n = I.Serial then [Event.Started I.Serial] else []))) := by
  have hc := Update_Core Ease I dt H
  have hl := (Update_Host Ease I dt H).1
  have hquiet : (I.Ramps H && !I.bHasPlayedStartEvent && I.OnStartedDelegate.isSome) = false →
      ∀ n, LifeOf n (I.Update Ease dt H).2.Log = LifeOf n H.Log := by
    intro hf n
    rw [hf] at hl
    rw [LifeOf_of_Lifecycle_eq _ hl n]
    simp [LifeOf]
  unfold FBUITweenInstance.Ramps at hquiet hl
  split at hc
  · rename_i h1
    have hr : (I.bShouldUpdate || I.bIsComplete) = false := by
      cases h1' : I.bShouldUpdate <;> cases h2' : I.bIsComplete <;> simp [h1', h2'] at h1 ⊢
    refine ⟨fun h => by rw [(Core_fields hc).2.2.2.2.2.2.2.1]; exact h, Or.inl (hquiet ?_)⟩
    simp [hr]
  · split at hc
    · rename_i h1 h2
      have hr : H.IsValid I.pWidget = false := by simpa using h2
      refine ⟨fun h => by rw [(Core_fields hc).2.2.2.2.2.2.2.1]; exact h, Or.inl (hquiet ?_)⟩
      simp [hr]
    · split at hc
      · rename_i h1 h2 h3
        have hr : ¬ (I.Delay ≤ 0) := not_le.mpr h3
        refine ⟨fun h => by rw [(Core_fields hc).2.2.2.2.2.2.2.1]; exact h, Or.inl (hquiet ?_)⟩
        simp [hr]
      · have hflag : (I.Update Ease dt H).1.bHasPlayedStartEvent = true := by
          rw [(Core_fields hc).2.2.2.2.2.2.2.1]
          unfold FBUITweenInstance.Ramped
          split <;> rfl
        refine ⟨fun _ => hflag, ?_⟩
        cases hfire : ((I.bShouldUpdate || I.bIsComplete) && H.IsValid I.pWidget &&
            decide (I.Delay ≤ 0) && !I.bHasPlayedStartEvent && I.OnStartedDelegate.isSome)
        · exact Or.inl (hquiet hfire)
        · right
          have hf : I.bHasPlayedStartEvent = false := by
            cases h : I.bHasPlayedStartEvent
            · rfl
            · rw [h] at hfire; simp at hfire
          refine ⟨hf, hflag, ?_⟩
          intro n
          rw [hfire] at hl
          rw [LifeOf_of_Lifecycle_eq _ hl n]
          by_cases hn : n = I.Serial
          · subst hn; simp [LifeOf]
          · have : ¬ (I.Serial = n) := fun h => hn h.symm
            simp [LifeOf, hn, this]

theorem Serials_set (A : List FBUITweenInstance) (i : Nat) (X Inst : FBUITweenInstance)
    (hI : A[i]? = some Inst) (hX : X.Serial = Inst.Serial) : Serials (A.set i X) = Serials A := by
  unfold Serials
  rw [List.map_set]
  apply List.ext_getElem?
  intro c
  rw [List.getElem?_set]
  split
  · rename_i h
    subst h
    split
    · rw [List.getElem?_map, hI, hX]; rfl
    · rename_i hlen
      simp only [List.length_map] at hlen
      rw [List.getElem?_eq_none (by simp; omega)]
  · rfl

theorem Serial_ne_of_index (A : List FBUITweenInstance) (hnd : (Serials A).Nodup) (i c : Nat)
    (Inst J : FBUITweenInstance) (hI : A[i]? = some Inst) (hJ : A[c]? = some J) (hne : c ≠ i) :
    J.Serial ≠ Inst.Serial := by
  intro h
  have hi : (Serials A)[i]? = some Inst.Serial := by
    unfold Serials; rw [List.getElem?_map, hI]; rfl
  have hc : (Serials A)[c]? = some Inst.Serial := by
    unfold Serials; rw [List.getElem?_map, hJ, ← h]; rfl
  obtain ⟨hi1, hi2⟩ := List.getElem?_eq_some_iff.mp hi
  obtain ⟨hc1, hc2⟩ := List.getElem?_eq_some_iff.mp hc
  have := (List.Nodup.getElem_inj_iff hnd).mp (hi2.trans hc2.symm)
  exact hne this.symm

theorem Accounted_pending_ne {S : UBUITween} (hS : S.Accounted) {Inst I : FBUITweenInstance}
    (hInst : Inst ∈ S.ActiveInstances) (hI : I ∈ S.InstancesToAdd) : I.Serial ≠ Inst.Serial := by
  have hnd := hS.1
  simp only [Serials, List.map_append] at hnd
  have := (List.nodup_append.mp hnd).2.2
  intro h
  exact this (List.mem_map_of_mem _ hInst) (h ▸ List.mem_map_of_mem _ hI)

theorem Accounted_active_nodup {S : UBUITween} (hS : S.Accounted) :
    (Serials S.ActiveInstances).Nodup := by
  have hnd := hS.1
  simp only [Serials, List.map_append] at hnd
  exact (List.nodup_append.mp hnd).1

/-- The bookkeeping survives the update of entry `i` in place. -/
theorem Accounted_set (Ease : EaseFn) (dt : ℚ) (S : UBUITween) (i : Nat)
    (Inst : FBUITweenInstance) (hI : S.ActiveInstances[i]? = some Inst) (hS : S.Accounted) :
    UBUITween.Accounted { S with
      ActiveInstances := S.ActiveInstances.set i (Inst.Update Ease dt S.World).1
      World := (Inst.Update Ease dt S.World).2 } := by
  have hmem : Inst ∈ S.ActiveInstances := List.getElem?_mem hI
  have hser := (Update_Serial Ease Inst dt S.World).1
  obtain ⟨hkeep, hcase⟩ := Update_Start Ease Inst dt S.World
  have hndA := Accounted_active_nodup hS
  have hpne := fun I hI => Accounted_pending_ne hS hmem (I := I) hI
  obtain ⟨hnd, hlt, hnew, hpend, hact, hlives⟩ := hS
  have hsN : Inst.Serial < S.NextSerial := hlt Inst (List.mem_append_left _ hmem)
  -- away from the serial of `Inst` nothing changes in the trace
  have hother : ∀ n, n ≠ Inst.Serial →
      LifeOf n (Inst.Update Ease dt S.World).2.Log = LifeOf n S.World.Log := by
    intro n hn
    rcases hcase with h | ⟨-, -, h⟩
    · exact h n
    · rw [h n, if_neg hn, List.append_nil]
  -- at the serial of `Inst`
  have hself : (LifeOf Inst.Serial (Inst.Update Ease dt S.World).2.Log = [] ∨
      (LifeOf Inst.Serial (Inst.Update Ease dt S.World).2.Log = [Event.Started Inst.Serial] ∧
        (Inst.Update Ease dt S.World).1.bHasPlayedStartEvent = true)) := by
    rcases hcase with h | ⟨hf, ht, h⟩
    · rw [h]
      rcases hact Inst hmem with h0 | ⟨h1, h2⟩
      · exact Or.inl h0
      · exact Or.inr ⟨h1, hkeep h2⟩
    · rw [h, if_pos rfl]
      rcases hact Inst hmem with h0 | ⟨-, h2⟩
      · right; rw [h0]; exact ⟨rfl, ht⟩
      · rw [hf] at h2; cases h2
  refine ⟨?_, ?_, ?_, ?_, ?_, ?_⟩
  · simp only [Serials, List.map_append] at hnd ⊢
    have := Serials_set S.ActiveInstances i _ Inst hI hser
    simp only [Serials] at this
    rw [this]; exact hnd
  · intro J hJ
    rcases List.mem_append.mp hJ with h | h
    · rcases List.mem_or_eq_of_mem_set h with h | h
      · exact hlt J (List.mem_append_left _ h)
      · rw [h, hser]; exact hsN
    · exact hlt J (List.mem_append_right _ h)
  · intro n hn
    have hn2 : S.NextSerial ≤ n := hn
    rw [hother n (by omega)]; exact hnew n hn2
  · intro I hI2
    rw [hother _ (hpne I hI2)]; exact hpend I hI2
  · intro J hJ
    obtain ⟨c, hc⟩ := List.mem_iff_getElem?.mp hJ
    simp only [] at hc
    rw [List.getElem?_set] at hc
    split at hc
    · split at hc
      · have := Option.some.inj hc
        rw [← this, hser]; exact hself
      · cases hc
    · rename_i hne
      have hJs := Serial_ne_of_index _ hndA i c Inst J hI hc (fun h => hne h.symm)
      rw [hother _ hJs]
      exact hact J (List.getElem?_mem hc)
  · intro n
    by_cases hn : n = Inst.Serial
    · subst hn
      rcases hself with h | ⟨h, -⟩ <;> rw [h] <;> simp [Lives]
    · rw [hother n hn]; exact hlives n

/-- The bookkeeping survives the retirement of entry `i`. -/
theorem Accounted_retire (S : UBUITween) (i : Nat) (X : FBUITweenInstance)
    (hI : S.ActiveInstances[i]? = some X) (hS : S.Accounted) :
    UBUITween.Accounted { S with
      ActiveInstances := S.ActiveInstances.eraseIdx i
      World := S.World.Emit (Event.Cleanup X.Serial) } := by
  have hmem : X ∈ S.ActiveInstances := List.getElem?_mem hI
  have hndA := Accounted_active_nodup hS
  have hpne := fun I hI => Accounted_pending_ne hS hmem (I := I) hI
  obtain ⟨hnd, hlt, hnew, hpend, hact, hlives⟩ := hS
  have hsN : X.Serial < S.NextSerial := hlt X (List.mem_append_left _ hmem)
  have hlog : ∀ n, LifeOf n (S.World.Emit (Event.Cleanup X.Serial)).Log =
      LifeOf n S.World.Log ++ (if n = X.Serial then [Event.Cleanup X.Serial] else []) := by
    intro n
    by_cases hn : n = X.Serial
    · subst hn; simp [Host.Emit, LifeOf]
    · have : ¬ (X.Serial = n) := fun h => hn h.symm
      simp [Host.Emit, LifeOf, hn, this]
  have hother : ∀ n, n ≠ X.Serial →
      LifeOf n (S.World.Emit (Event.Cleanup X.Serial)).Log = LifeOf n S.World.Log := by
    intro n hn; rw [hlog n, if_neg hn, List.append_nil]
  have hsub : ∀ J ∈ S.ActiveInstances.eraseIdx i, J ∈ S.ActiveInstances ∧ J.Serial ≠ X.Serial := by
    intro J hJ
    obtain ⟨c, hc⟩ := List.mem_iff_getElem?.mp hJ
    rw [eraseIdx_index] at hc
    refine ⟨List.getElem?_mem hc, Serial_ne_of_index _ hndA i _ X J hI hc ?_⟩
    split <;> omega
  refine ⟨?_, ?_, ?_, ?_, ?_, ?_⟩
  · simp only [Serials, List.map_append] at hnd ⊢
    exact hnd.sublist (List.Sublist.append ((List.eraseIdx_sublist _ _).map _)
      (List.Sublist.refl _))
  · intro J hJ
    rcases List.mem_append.mp hJ with h | h
    · exact hlt J (List.mem_append_left _ (hsub J h).1)
    · exact hlt J (List.mem_append_right _ h)
  · intro n hn
    have hn2 : S.NextSerial ≤ n := hn
    rw [hother n (by omega)]; exact hnew n hn2
  · intro I hI2
    rw [hother _ (hpne I hI2)]; exact hpend I hI2
  · intro J hJ
    rw [hother _ (hsub J hJ).2]; exact hact J (hsub J hJ).1
  · intro n
    by_cases hn : n = X.Serial
    · subst hn
      rw [hlog, if_pos rfl]
      rcases hact X hmem with h | ⟨h, -⟩ <;> rw [h] <;> simp [Lives]
    · rw [hother n hn]; exact hlives n

theorem Visit_Accounted (E : Env) (dt : ℚ) (S : UBUITween) (i : Nat) (Inst : FBUITweenInstance)
    (hS : S.Accounted) (hI : S.ActiveInstances[i]? = some Inst) :
    (S.Visit E dt i Inst).Accounted := by
  have hset := Accounted_set E.Ease dt S i Inst hI hS
  rcases Visit_cases E dt S i Inst with ⟨-, hv⟩ | ⟨-, Pre, k, hPre, hsp⟩
  · rw [hv]; exact hset
  · have hlen : i < S.ActiveInstances.length := (List.getElem?_eq_some_iff.mp hI).1
    have hget : (S.ActiveInstances.set i (Inst.Update E.Ease dt S.World).1)[i]? =
        some (Inst.Update E.Ease dt S.World).1 := by
      rw [List.getElem?_set]; simp [hlen]
    have hret := Accounted_retire _ i _ hget hset
    simp only [eraseIdx_set] at hret
    exact Accounted_of_Spawned hsp hPre hret

theorem Update_Accounted (E : Env) (dt : ℚ) (S : UBUITween) (hS : S.Accounted) :
    (S.Update E dt).Accounted := by
  have h1 : (UBUITween.UpdateLoop E dt S.ActiveInstances.length S).Accounted :=
    UpdateLoop_invariant E dt UBUITween.Accounted (fun _ h => h)
      (fun S i Inst h hI => Visit_Accounted E dt S i Inst h hI) _ S hS
  unfold UBUITween.Update
  simp only []
  split
  · exact h1
  · obtain ⟨hnd, hlt, hnew, hpend, hact, hlives⟩ := h1
    refine ⟨?_, ?_, hnew, ?_, ?_, hlives⟩
    · simpa [AddLoop_eq] using hnd
    · simpa [AddLoop_eq] using hlt
    · intro I hI; cases hI
    · intro I hI
      simp only [AddLoop_eq] at hI
      rcases List.mem_append.mp hI with h | h
      · exact hact I h
      · exact Or.inl (hpend I h)

theorem Initial_Accounted (Widgets : List UWidget) : (UBUITween.Initial Widgets).Accounted := by
  refine ⟨by simp [UBUITween.Initial, Serials], ?_, ?_, ?_, ?_, ?_⟩
  · intro I hI; simp [UBUITween.Initial] at hI
  · intro n _; rfl
  · intro I hI; simp [UBUITween.Initial] at hI
  · intro I hI; simp [UBUITween.Initial] at hI
  · intro n; simp [UBUITween.Initial, LifeOf, Lives]

theorem Step_Accounted (E : Env) (S : UBUITween) (o : Op) (hS : S.Accounted) :
    (S.Step E o).Accounted := by
  unfold UBUITween.Step
  split
  · exact hS
  · obtain ⟨hnd, hlt, hnew, hpend, hact, hlives⟩ := hS
    cases o with
    | Startup =>
      exact ⟨by simp [UBUITween.Startup, Serials], by simp [UBUITween.Startup], hnew,
        by simp [UBUITween.Startup], by simp [UBUITween.Startup], hlives⟩
    | Shutdown =>
      exact ⟨by simp [UBUITween.Shutdown, Serials], by simp [UBUITween.Shutdown], hnew,
        by simp [UBUITween.Shutdown], by simp [UBUITween.Shutdown], hlives⟩
    | Call a =>
      exact Accounted_of_Spawned (s := 0) (Perform_Spawned S a) (Or.inl rfl)
        ⟨hnd, hlt, hnew, hpend, hact, hlives⟩
    | Update dt => exact Update_Accounted E dt S ⟨hnd, hlt, hnew, hpend, hact, hlives⟩
    | Destroy p =>
      have hlog : (S.World.Destroy p).Log = S.World.Log := by
        unfold Host.Destroy; split <;> rfl
      refine ⟨hnd, hlt, ?_, ?_, ?_, ?_⟩
      · intro n hn; simp only [hlog]; exact hnew n hn
      · intro I hI; simp only [hlog]; exact hpend I hI
      · intro I hI; simp only [hlog]; exact hact I hI
      · intro n; simp only [hlog]; exact hlives n

theorem Exec_Accounted (E : Env) (Ops : List Op) :
    ∀ S : UBUITween, S.Accounted → (UBUITween.Exec E S Ops).Accounted := by
  induction Ops with
  | nil => intro S h; exact h
  | cons o Rest ih => intro S h; exact ih _ (Step_Accounted E S o h)

/-! ### The writes of `Apply` -/

theorem Touched_refl (H : Host) : H.Touched H :=
  ⟨⟨[], by simp, by simp⟩, rfl, fun _ => rfl⟩

theorem Touched_trans {H H2 H3 : Host} (h : H.Touched H2) (h2 : H2.Touched H3) :
    H.Touched H3 := by
  obtain ⟨⟨W, hW, hWm⟩, hl, hT⟩ := h
  obtain ⟨⟨W2, hW2, hWm2⟩, hl2, hT2⟩ := h2
  refine ⟨⟨W ++ W2, by rw [hW2, hW, List.append_assoc], ?_⟩, hl2.trans hl,
    fun q => (hT2 q).trans (hT q)⟩
  intro e he
  rcases List.mem_append.mp he with h | h
  · exact hWm e h
  · exact hWm2 e h

theorem Write_Get (H : Host) (p : WidgetPtr) (f : UWidget → UWidget) (e : Event)
    (q : WidgetPtr) :
    (H.Write p f e).Get q = if q = p ∧ p < H.Widgets.length then f (H.Get p) else H.Get q := by
  unfold Host.Write Host.Get
  split
  · rename_i w hw
    obtain ⟨hlt, hw2⟩ := List.getElem?_eq_some_iff.mp hw
    by_cases hq : q = p
    · subst hq
      simp [List.getD_eq_getElem?_getD, hlt, hw2]
    · have hq2 : ¬ (p = q) := fun h => hq h.symm
      simp [List.getD_eq_getElem?_getD, hq, List.getElem?_set_ne hq2]
  · rename_i hnone
    have hge : H.Widgets.length ≤ p := by
      by_contra hlt
      rw [List.getElem?_eq_getElem (by omega)] at hnone
      cases hnone
    have : ¬ (p < H.Widgets.length) := Nat.not_lt.mpr hge
    simp [this]

theorem Write_length (H : Host) (p : WidgetPtr) (f : UWidget → UWidget) (e : Event) :
    (H.Write p f e).Widgets.length = H.Widgets.length := by
  unfold Host.Write
  split <;> simp

theorem Write_Touched (H : Host) (p : WidgetPtr) (f : UWidget → UWidget) (e : Event)
    (he : e.IsMinorWrite = true) (hf : ∀ w, (f w).RenderTransform = w.RenderTransform) :
    H.Touched (H.Write p f e) := by
  refine ⟨⟨[e], ?_, ?_⟩, Write_length H p f e, ?_⟩
  · unfold Host.Write; split <;> rfl
  · intro e2 h2; rw [List.mem_singleton.mp h2]; exact he
  · intro q
    rw [Write_Get]
    split
    · rename_i h; rw [hf, h.1]
    · rfl

theorem ApplyColor_Touched (I : FBUITweenInstance) (a : ℚ) (H : Host) :
    (I.ApplyColor a H).1.TransformProps = I.TransformProps ∧
    (I.ApplyColor a H).1.CanvasPositionProp = I.CanvasPositionProp ∧
    H.Touched (I.ApplyColor a H).2 := by
  unfold FBUITweenInstance.ApplyColor
  split
  · simp only []
    split <;> refine ⟨rfl, rfl, ?_⟩ <;>
      first
      | exact Touched_refl _
      | (apply Write_Touched; rfl; intro w; rfl)
  · exact ⟨rfl, rfl, Touched_refl _⟩

theorem ApplyOpacity_Touched (I : FBUITweenInstance) (a : ℚ) (H : Host) :
    (I.ApplyOpacity a H).1.TransformProps = I.TransformProps ∧
    (I.ApplyOpacity a H).1.CanvasPositionProp = I.CanvasPositionProp ∧
    H.Touched (I.ApplyOpacity a H).2 := by
  unfold FBUITweenInstance.ApplyOpacity
  split
  · refine ⟨rfl, rfl, ?_⟩
    apply Write_Touched
    · rfl
    · intro w; rfl
  · exact ⟨rfl, rfl, Touched_refl _⟩

theorem ApplyVisibility_Touched (I : FBUITweenInstance) (a : ℚ) (H : Host) :
    (I.ApplyVisibility a H).1.TransformProps = I.TransformProps ∧
    (I.ApplyVisibility a H).1.CanvasPositionProp = I.CanvasPositionProp ∧
    H.Touched (I.ApplyVisibility a H).2 := by
  unfold FBUITweenInstance.ApplyVisibility
  split
  · simp only []
    split
    · refine ⟨rfl, rfl, ?_⟩
      apply Write_Touched
      · rfl
      · intro w; rfl
    · exact ⟨rfl, rfl, Touched_refl _⟩
  · exact ⟨rfl, rfl, Touched_refl _⟩

theorem ApplyCanvasPosition_Touched (I : FBUITweenInstance) (a : ℚ) (H : Host) :
    (I.ApplyCanvasPosition a H).1.TransformProps = I.TransformProps ∧
    H.Touched (I.ApplyCanvasPosition a H).2 := by
  unfold FBUITweenInstance.ApplyCanvasPosition
  split
  · simp only []
    split
    · split
      · refine ⟨rfl, ?_⟩
        apply Write_Touched
        · rfl
        · intro w; rfl
      · exact ⟨rfl, Touched_refl _⟩
    · exact ⟨rfl, Touched_refl _⟩
  · exact ⟨rfl, Touched_refl _⟩

/-- The transform group of lines 217-239 computes the condition and the transform of the
write as the words say. -/
theorem TransformGroup_eq (J : FBUITweenInstance) (T : FWidgetTransform) (a : ℚ) :
    (((({ Inst := J, CurrentTransform := T, bChangedRenderTransform := false } :
      TransformGroup).Translation a).Scale a).Rotation a).bChangedRenderTransform =
      J.WritesTransform a ∧
    (((({ Inst := J, CurrentTransform := T, bChangedRenderTransform := false } :
      TransformGroup).Translation a).Scale a).Rotation a).CurrentTransform = J.Written a T ∧
    (((({ Inst := J, CurrentTransform := T, bChangedRenderTransform := false } :
      TransformGroup).Translation a).Scale a).Rotation a).Inst.TransformProps =
      (if J.TranslationProp.IsSet then (J.TranslationProp.Update FVector2D.lerp a).1
        else J.TranslationProp,
       if J.ScaleProp.IsSet then (J.ScaleProp.Update FVector2D.lerp a).1 else J.ScaleProp,
       if J.RotationProp.IsSet then (J.RotationProp.Update UITween.lerp a).1
        else J.RotationProp) ∧
    (((({ Inst := J, CurrentTransform := T, bChangedRenderTransform := false } :
      TransformGroup).Translation a).Scale a).Rotation a).Inst.CanvasPositionProp =
      J.CanvasPositionProp := by
  unfold TransformGroup.Rotation TransformGroup.Scale TransformGroup.Translation
    FBUITweenInstance.WritesTransform FBUITweenInstance.Written
    FBUITweenInstance.TransformProps
  cases h1 : J.TranslationProp.IsSet <;> cases h2 : J.ScaleProp.IsSet <;>
    cases h3 : J.RotationProp.IsSet <;>
    cases h4 : (J.RotationProp.Update UITween.lerp a).2 <;>
    simp [h1, h2, h3, h4]

theorem Apply_eq (I : FBUITweenInstance) (a : ℚ) (H : Host) :
    I.Apply a H =
      (I.ApplyHead a H).1.ApplyTail ((I.ApplyHead a H).2.Get I.pWidget).RenderTransform a
        (I.ApplyHead a H).2 I.pWidget := rfl

theorem ApplyHead_Touched (I : FBUITweenInstance) (a : ℚ) (H : Host) :
    (I.ApplyHead a H).1.TransformProps = I.TransformProps ∧
    (∃ W, (I.ApplyHead a H).2.Log = H.Log ++ Event.Applied I.Serial a :: W ∧
      ∀ e ∈ W, e.IsMinorWrite = true) ∧
    (I.ApplyHead a H).2.Widgets.length = H.Widgets.length ∧
    ∀ q, ((I.ApplyHead a H).2.Get q).RenderTransform = (H.Get q).RenderTransform := by
  have hC := ApplyColor_Touched I a (H.Emit (Event.Applied I.Serial a))
  have hO := ApplyOpacity_Touched (I.ApplyColor a (H.Emit (Event.Applied I.Serial a))).1 a
    (I.ApplyColor a (H.Emit (Event.Applied I.Serial a))).2
  have hV := ApplyVisibility_Touched
    ((I.ApplyColor a (H.Emit (Event.Applied I.Serial a))).1.ApplyOpacity a
      (I.ApplyColor a (H.Emit (Event.Applied I.Serial a))).2).1 a
    ((I.ApplyColor a (H.Emit (Event.Applied I.Serial a))).1.ApplyOpacity a
      (I.ApplyColor a (H.Emit (Event.Applied I.Serial a))).2).2
  obtain ⟨⟨W, hW, hWm⟩, hlen, hRT⟩ := Touched_trans (Touched_trans hC.2.2 hO.2.2) hV.2.2
  refine ⟨hV.1.trans (hO.1.trans hC.1), ⟨W, ?_, hWm⟩, hlen, hRT⟩
  unfold FBUITweenInstance.ApplyHead
  simp only []
  rw [hW]
  simp [Host.Emit]

theorem ApplyTail_spec (J : FBUITweenInstance) (T : FWidgetTransform) (a : ℚ) (H : Host)
    (p : WidgetPtr) :
    (∃ W, (∀ e ∈ W, e.IsMinorWrite = true) ∧
      (J.ApplyTail T a H p).2.Log =
        H.Log ++ W ++ (if J.WritesTransform a then
          [Event.SetRenderTransform p (J.Written a T)] else [])) ∧
    (∀ q, ((J.ApplyTail T a H p).2.Get q).RenderTransform =
        if q = p ∧ p < H.Widgets.length ∧ J.WritesTransform a = true then J.Written a T
        else (H.Get q).RenderTransform) ∧
    (J.ApplyTail T a H p).1.TransformProps =
      (if J.TranslationProp.IsSet then (J.TranslationProp.Update FVector2D.lerp a).1
        else J.TranslationProp,
       if J.ScaleProp.IsSet then (J.ScaleProp.Update FVector2D.lerp a).1 else J.ScaleProp,
       if J.RotationProp.IsSet then (J.RotationProp.Update UITween.lerp a).1
        else J.RotationProp) := by
  obtain ⟨hb, hT, hP, -⟩ := TransformGroup_eq J T a
  unfold FBUITweenInstance.ApplyTail
  simp only []
  generalize (((({ Inst := J, CurrentTransform := T, bChangedRenderTransform := false } :
      TransformGroup).Translation a).Scale a).Rotation a) = G at hb hT hP
  obtain ⟨hPc, ⟨W, hW, hWm⟩, hlen, hRT⟩ := ApplyCanvasPosition_Touched G.Inst a H
  rw [hb, hT]
  cases hw : J.WritesTransform a
  · simp only [Bool.false_eq_true, if_false, and_false]
    exact ⟨⟨W, hWm, by rw [hW]; simp⟩, fun q => hRT q, hPc.trans hP⟩
  · simp only [if_true, and_true]
    refine ⟨⟨W, hWm, ?_⟩, ?_, hPc.trans hP⟩
    · have : ∀ (H2 : Host) (f : UWidget → UWidget) (e : Event),
          (H2.Write p f e).Log = H2.Log ++ [e] := by
        intro H2 f e; unfold Host.Write; split <;> rfl
      rw [this, hW]
    · intro q
      rw [Write_Get, hlen]
      by_cases hq : q = p ∧ p < H.Widgets.length
      · rw [if_pos hq, if_pos hq]
      · rw [if_neg hq, if_neg hq]; exact hRT q

theorem IsMinorWrite_SerialOf {e : Event} (h : e.IsMinorWrite = true) : e.SerialOf = none := by
  cases e <;> first | rfl | cases h

theorem Apply_Raw (I : FBUITweenInstance) (a : ℚ) (H : Host) :
    ∃ W, (∀ e ∈ W, e.SerialOf = none) ∧
      (I.Apply a H).2.Log = H.Log ++ Event.Applied I.Serial a :: W := by
  obtain ⟨-, ⟨W1, hW1, hW1m⟩, -, -⟩ := ApplyHead_Touched I a H
  obtain ⟨⟨W2, hW2m, hW2⟩, -, -⟩ := ApplyTail_spec (I.ApplyHead a H).1
    ((I.ApplyHead a H).2.Get I.pWidget).RenderTransform a (I.ApplyHead a H).2 I.pWidget
  rw [Apply_eq]
  refine ⟨W1 ++ W2 ++ (if (I.ApplyHead a H).1.WritesTransform a then
    [Event.SetRenderTransform I.pWidget ((I.ApplyHead a H).1.Written a
      ((I.ApplyHead a H).2.Get I.pWidget).RenderTransform)] else []), ?_, ?_⟩
  · intro e he
    rcases List.mem_append.mp he with h | h
    · rcases List.mem_append.mp h with h | h
      · exact IsMinorWrite_SerialOf (hW1m e h)
      · exact IsMinorWrite_SerialOf (hW2m e h)
    · split at h
      · rw [List.mem_singleton.mp h]; rfl
      · cases h
  · rw [hW2, hW1]; simp [List.append_assoc]

/-- `Update` off the ramping path: one of the three early returns. -/
theorem Update_early (Ease : EaseFn) (I : FBUITweenInstance) (dt : ℚ) (H : Host)
    (hr : I.Ramps H = false) :
    I.Update Ease dt H =
      (if !I.bShouldUpdate && !I.bIsComplete then I
        else if !H.IsValid I.pWidget then { I with bIsComplete := true }
        else { I with Delay := I.Delay - dt },
       H.Emit (Event.InstUpdate I.Serial)) := by
  have hv : (H.Emit (Event.InstUpdate I.Serial)).IsValid I.pWidget = H.IsValid I.pWidget := rfl
  unfold FBUITweenInstance.Ramps at hr
  unfold FBUITweenInstance.Update
  simp only []
  rw [hv]
  split
  · rfl
  · split
    · rfl
    · split
      · rfl
      · rename_i h1 h2 h3
        exfalso
        have e1 : (I.bShouldUpdate || I.bIsComplete) = true := by
          cases h1' : I.bShouldUpdate <;> cases h2' : I.bIsComplete <;>
            simp [h1', h2'] at h1 ⊢
        have e2 : H.IsValid I.pWidget = true := by simpa using h2
        have e3 : I.Delay ≤ 0 := not_lt.mp h3
        simp [e1, e2, e3] at hr

/-- `Update` on the ramping path (lines 157-175). -/
theorem Update_ramp (Ease : EaseFn) (I : FBUITweenInstance) (dt : ℚ) (H : Host)
    (hr : I.Ramps H = true) :
    I.Update Ease dt H = (I.Ramped dt).Apply (I.Eased Ease dt) (I.Announce H) := by
  have hv : (H.Emit (Event.InstUpdate I.Serial)).IsValid I.pWidget = H.IsValid I.pWidget := rfl
  unfold FBUITweenInstance.Ramps at hr
  have e1 : ¬ ((!I.bShouldUpdate && !I.bIsComplete) = true) := by
    cases h1' : I.bShouldUpdate <;> cases h2' : I.bIsComplete <;> simp [h1', h2'] at hr ⊢
  have e2 : ¬ ((!H.IsValid I.pWidget) = true) := by
    cases h : H.IsValid I.pWidget <;> simp [h] at hr ⊢
  have e3 : ¬ (I.Delay > 0) := by
    intro h
    have : ¬ (I.Delay ≤ 0) := not_le.mpr h
    simp [this] at hr
  unfold FBUITweenInstance.Update
  simp only []
  rw [hv, if_neg e1, if_neg e2, if_neg e3]
  unfold FBUITweenInstance.Eased FBUITweenInstance.Announce FBUITweenInstance.Ramped
  cases I with
  | mk Serial pWidget Duration Delay Alpha bShouldUpdate bIsComplete bStart bComplete EasingType
      EasingParam OnStarted OnComplete ColorProp OpacityProp VisibilityProp TranslationProp
      ScaleProp RotationProp CanvasPositionProp =>
    cases bStart <;> cases OnStarted <;> cases EasingParam <;>
      by_cases ha : Alpha + dt ≥ Duration <;> simp [ha]

theorem Keeps_of_shield (W : Host) (w : WidgetPtr) (X : FBUITweenInstance)
    (h : W.IsValid X.pWidget = false ∨ X.pWidget ≠ w) : UBUITween.Keeps W w X = true := by
  rcases h with h | h
  · simp [UBUITween.Keeps, FBUITweenInstance.GetWidget, h]
  · exact Keeps_of_ne W w X h

theorem Perform_Active_filter (S : UBUITween) (a : Action) :
    ∃ p : FBUITweenInstance → Bool, (S.Perform a).ActiveInstances = S.ActiveInstances.filter p ∧
      ∀ X : FBUITweenInstance,
        (S.World.IsValid X.pWidget = false ∨ a.Clears ≠ some X.pWidget) → p X = true := by
  cases a with
  | Create w d dl add Setters =>
    simp only [UBUITween.Perform, Chain_Active]
    cases add
    · refine ⟨UBUITween.Keeps S.World w, ?_, ?_⟩
      · simp [UBUITween.Create, Clear_eq]
      · intro X hX
        apply Keeps_of_shield
        rcases hX with h | h
        · exact Or.inl h
        · right; intro hw; apply h; simp [Action.Clears, hw]
    · exact ⟨fun _ => true, by simp [UBUITween.Create], fun _ _ => rfl⟩
  | Clear w =>
    refine ⟨UBUITween.Keeps S.World w, by simp [UBUITween.Perform, Clear_eq], ?_⟩
    intro X hX
    apply Keeps_of_shield
    rcases hX with h | h
    · exact Or.inl h
    · right; intro hw; apply h; simp [Action.Clears, hw]

theorem Run_Active_filter (Actions : List Action) :
    ∀ S : UBUITween, ∃ p : FBUITweenInstance → Bool,
      (S.Run Actions).ActiveInstances = S.ActiveInstances.filter p ∧
      ∀ X : FBUITweenInstance,
        (S.World.IsValid X.pWidget = false ∨ ∀ a ∈ Actions, a.Clears ≠ some X.pWidget) →
          p X = true := by
  induction Actions with
  | nil => intro S; exact ⟨fun _ => true, by simp [UBUITween.Run], fun _ _ => rfl⟩
  | cons a Rest ih =>
    intro S
    obtain ⟨p1, hA1, hp1⟩ := Perform_Active_filter S a
    obtain ⟨p2, hA2, hp2⟩ := ih (S.Perform a)
    have hval := (Perform_Spawned S a).2.2.2.2.2
    refine ⟨fun I => p2 I && p1 I, ?_, ?_⟩
    · show ((S.Perform a).Run Rest).ActiveInstances = _
      rw [hA2, hA1, List.filter_filter]
    · intro X hX
      have h1 : p1 X = true := hp1 X (by
        rcases hX with h | h
        · exact Or.inl h
        · exact Or.inr (h a (List.mem_cons_self _ _)))
      have h2 : p2 X = true := hp2 X (by
        rcases hX with h | h
        · left; rw [hval]; exact h
        · exact Or.inr (fun b hb => h b (List.mem_cons_of_mem _ hb)))
      simp [h1, h2]

theorem Update_inert (Ease : EaseFn) (X : FBUITweenInstance) (dt : ℚ) (H : Host)
    (hs : X.bShouldUpdate = false) (hc : X.bIsComplete = false) :
    X.Update Ease dt H = (X, H.Emit (Event.InstUpdate X.Serial)) := by
  have hr : X.Ramps H = false := by simp [FBUITweenInstance.Ramps, hs, hc]
  rw [Update_early Ease X dt H hr]
  simp [hs, hc]

theorem mem_eraseIdx_of_ne {α : Type} {A : List α} {i j : Nat} {x : α} (hj : A[j]? = some x)
    (hne : j ≠ i) : x ∈ A.eraseIdx i := by
  apply List.mem_iff_getElem?.mpr
  by_cases hlt : j < i
  · exact ⟨j, by rw [List.getElem?_eraseIdx_of_lt _ _ _ hlt]; exact hj⟩
  · refine ⟨j - 1, ?_⟩
    rw [List.getElem?_eraseIdx_of_ge _ _ _ (by omega)]
    have : j - 1 + 1 = j := by omega
    rw [this]; exact hj

/-! ### Completion cleanup and the pending list -/

theorem Chain_pending (S : UBUITween) (Setters : List Setter) (P : List FBUITweenInstance)
    (I : FBUITweenInstance) (h : S.InstancesToAdd = P ++ [I]) :
    ∃ J, (S.Chain Setters).InstancesToAdd = P ++ [J] := by
  unfold UBUITween.Chain
  rw [h]
  simp

theorem Perform_pending (S : UBUITween) (a : Action) :
    ∃ C, (S.Perform a).InstancesToAdd = S.InstancesToAdd ++ C := by
  cases a with
  | Create w d dl add Setters =>
    have hc : ∃ I, (S.Create w d dl add).InstancesToAdd = S.InstancesToAdd ++ [I] := by
      refine ⟨FBUITweenInstance.Construct S.NextSerial w d dl, ?_⟩
      cases add
      · simp [UBUITween.Create, Clear_eq]
      · simp [UBUITween.Create]
    obtain ⟨I, hI⟩ := hc
    obtain ⟨J, hJ⟩ := Chain_pending (S.Create w d dl add) Setters _ I hI
    exact ⟨[J], hJ⟩
  | Clear w => exact ⟨[], by simp [UBUITween.Perform, Clear_eq]⟩

theorem Run_pending (Actions : List Action) :
    ∀ S : UBUITween, ∃ C, (S.Run Actions).InstancesToAdd = S.InstancesToAdd ++ C := by
  induction Actions with
  | nil => intro S; exact ⟨[], by simp [UBUITween.Run]⟩
  | cons a Rest ih =>
    intro S
    obtain ⟨C1, h1⟩ := Perform_pending S a
    obtain ⟨C2, h2⟩ := ih (S.Perform a)
    refine ⟨C1 ++ C2, ?_⟩
    show ((S.Perform a).Run Rest).InstancesToAdd = _
    rw [h2, h1, List.append_assoc]

theorem mem_drop_filter_eraseIdx (A : List FBUITweenInstance) (p : FBUITweenInstance → Bool)
    (k : Nat) (J : FBUITweenInstance) (h : J ∈ ((A.eraseIdx k).filter p).drop k) :
    J ∈ A.drop (k + 1) := by
  rw [List.eraseIdx_eq_take_drop_succ, List.filter_append, List.drop_append_eq_append_drop] at h
  rcases List.mem_append.mp h with h1 | h2
  · have hlen : ((A.take k).filter p).length ≤ k :=
      le_trans (List.length_filter_le _ _) (by simp)
    rw [List.drop_eq_nil_of_le hlen] at h1
    cases h1
  · exact (List.mem_filter.mp (List.mem_of_mem_drop h2)).1

/-- C14. `GetIsTweening(w)` is true exactly when an entry of `ActiveInstances` targets `w`; it
does not read `InstancesToAdd` (replacing the pending list leaves the answer as it is); an
additive `Create` on any widget, with or without the builder chain that follows it, leaves
the answer as it is; and `Create(w)` in either mode appends the new instance to
`InstancesToAdd` without making the answer true: it is true after the call and its chain only
if it was true before. -/
theorem GetIsTweening_active_only (S : UBUITween) (w : WidgetPtr) :
    (S.GetIsTweening w = true ↔ ∃ I ∈ S.ActiveInstances, I.GetWidget = w) ∧
    (∀ Pending : List FBUITweenInstance,
      ({ S with InstancesToAdd := Pending } : UBUITween).GetIsTweening w = S.GetIsTweening w) ∧
    (∀ (w2 : WidgetPtr) (InDuration InDelay : ℚ) (Setters : List Setter),
      (S.Create w2 InDuration InDelay true).GetIsTweening w = S.GetIsTweening w ∧
      ((S.Create w2 InDuration InDelay true).Chain Setters).GetIsTweening w =
        S.GetIsTweening w) ∧
    (∀ (InDuration InDelay : ℚ) (bIsAdditive : Bool) (Setters : List Setter),
      (S.Create w InDuration InDelay bIsAdditive).InstancesToAdd =
        S.InstancesToAdd ++ [FBUITweenInstance.Construct S.NextSerial w InDuration InDelay] ∧
      (((S.Create w InDuration InDelay bIsAdditive).Chain Setters).GetIsTweening w = true →
        S.GetIsTweening w = true)) := by
  refine ⟨?_, fun _ => rfl, ?_, ?_⟩
  · simp only [UBUITween.GetIsTweening, GetIsTweeningLoop_eq_any, List.any_eq_true]
    constructor
    · rintro ⟨I, hI, h⟩; exact ⟨I, hI, by simpa using h⟩
    · rintro ⟨I, hI, h⟩; exact ⟨I, hI, by simpa using h⟩
  · intro w2 d dl Setters
    have h1 : (S.Create w2 d dl true).GetIsTweening w = S.GetIsTweening w := rfl
    refine ⟨h1, ?_⟩
    simp only [UBUITween.GetIsTweening, Chain_Active] at h1 ⊢
    exact h1
  · intro d dl add Setters
    constructor
    · cases add <;> simp [UBUITween.Create, Clear_eq]
    · simp only [UBUITween.GetIsTweening, Chain_Active, GetIsTweeningLoop_eq_any,
        List.any_eq_true]
      rintro ⟨I, hI, h⟩
      refine ⟨I, ?_, h⟩
      cases add
      · simp only [UBUITween.Create, Clear_eq] at hI
        exact (List.mem_filter.mp hI).1
      · exact hI

theorem GetIsTweening_active_only_witness :
    Scenario.Opacity.GetIsTweening 0 = false ∧ Serials Scenario.Opacity.InstancesToAdd = [0] ∧
    Scenario.Live.GetIsTweening 0 = true :=
  ⟨by with_unfolding_all decide, by with_unfolding_all decide,
    ((GetIsTweening_active_only Scenario.Live 0).2.2.2 1 0 true [Setter.Begin]).2
      (by with_unfolding_all decide)⟩

/-- C20. `Clear` is idempotent: a second `Clear(w)` right after the first returns 0 and leaves
the scheduler, so both `ActiveInstances` and `InstancesToAdd`, as the first call left it. -/
theorem Clear_idempotent (S : UBUITween) (w : WidgetPtr) :
    ((S.Clear w).1.Clear w).2 = 0 ∧
    ((S.Clear w).1.Clear w).1 = (S.Clear w).1 ∧
    ((S.Clear w).1.Clear w).1.ActiveInstances = (S.Clear w).1.ActiveInstances ∧
    ((S.Clear w).1.Clear w).1.InstancesToAdd = (S.Clear w).1.InstancesToAdd := by
  have h1 : ((S.Clear w).1.Clear w).2 = 0 := by
    rw [Clear_eq, Clear_eq]
    simp only [List.filter_filter, List.length_eq_zero, List.filter_eq_nil_iff]
    intro I _
    simp
  have h2 : ((S.Clear w).1.Clear w).1 = (S.Clear w).1 := by
    rw [Clear_eq, Clear_eq]
    simp only [List.filter_filter, Bool.and_self]
  exact ⟨h1, h2, by rw [h2], by rw [h2]⟩

/-! ### The range of the loop index -/

/-- C18 on the code: in `Scenario.Crowded` the array holds the serials 0, 1, 2 and no range
check has failed; the entry at index 2 completes in `Update(1)` and its callback clears widget
0, which empties the array; the loop goes on to read index 1 of the empty array, so the range
check of `operator[]` fails, after the update of serial 2 only. -/
theorem Update_reads_out_of_range :
    Serials Scenario.Crowded.ActiveInstances = [0, 1, 2] ∧
    Scenario.Crowded.Fault = false ∧
    (UBUITween.UpdateLoop Scenario.Clearing 1 3 Scenario.Crowded).ActiveInstances = [] ∧
    (Scenario.Crowded.Update Scenario.Clearing 1).Fault = true ∧
    UpdatesOf (Scenario.Crowded.Update Scenario.Clearing 1).World.Log =
      UpdatesOf Scenario.Crowded.World.Log ++ [2] := by
  with_unfolding_all decide

/-! ### The trace of one instance -/

theorem UpdateRounded_exact (Ease : EaseFn) (I : FBUITweenInstance) (dt : ℚ) (H : Host) :
    I.UpdateRounded (fun q => q) Ease dt H = I.Update Ease dt H := rfl

/-- C7 on the code: in `Scenario.Shifting` the array holds the serials 0, 1, 2, and instance 1
(begun, on widget 1, one second long) binds a start callback that calls `Clear` on widget 0.
In `Update(1)`, the call on instance 1 at index 1 fires the start callback; `Clear` removes
index 0 and the array shifts under the reference, so `bHasPlayedStartEvent` is set on the
entry that is now at index 1, instance 2.  The loop goes on to index 0, which holds instance
1 again, its flag still clear: `FBUITweenInstance::Update` is called on it a second time and
its start callback fires a second time, before it completes and is retired. -/
theorem Start_callback_fires_twice :
    Serials Scenario.Shifting.ActiveInstances = [0, 1, 2] ∧
    Scenario.Shifting.ActiveInstances.map (fun I => I.OnStartedDelegate) =
      [none, some 5, none] ∧
    Event.Started 1 ∉ Scenario.Shifting.World.Log ∧
    (Scenario.Meddling.Update Scenario.Shifting 1).Fault = false ∧
    EventsOf 1 (Scenario.Meddling.Update Scenario.Shifting 1).World.Log =
      EventsOf 1 Scenario.Shifting.World.Log ++
        [Event.InstUpdate 1, Event.Started 1, Event.InstUpdate 1, Event.Started 1,
          Event.Applied 1 1, Event.Cleanup 1] ∧
    (Scenario.Meddling.Update Scenario.Shifting 1).ActiveInstances = [] := by
  decide!

/-- C19 on the code: the instance at index 2 of `Scenario.Shifting` (serial 2, on widget 2) was
never begun, and no callback clears widget 2.  In `Update(1)` the call on it returns at once;
then the start callback of instance 1 removes index 0, and the rest of the call on instance 1
(lines 160-175) runs on the entry that slid into index 1, which is instance 2: its `Alpha`
is advanced to its `Duration`, `Apply` writes its target opacity to widget 2, and line 68
finds it complete and retires it. -/
theorem Unbegun_retired_through_reference :
    Scenario.Shifting.ActiveInstances.map
      (fun I => (I.Serial, I.pWidget, I.bShouldUpdate, I.bIsComplete)) =
      [(0, 0, true, false), (1, 1, true, false), (2, 2, false, false)] ∧
    (∀ cb, ∀ a ∈ Scenario.Meddling.Starts cb, a.Clears ≠ some 2) ∧
    (∀ cb, ∀ a ∈ Scenario.Meddling.Callbacks cb, a.Clears ≠ some 2) ∧
    (Scenario.Shifting.World.Get 2).RenderOpacity = 1 ∧
    (Scenario.Meddling.Update Scenario.Shifting 1).Fault = false ∧
    EventsOf 2 (Scenario.Meddling.Update Scenario.Shifting 1).World.Log =
      EventsOf 2 Scenario.Shifting.World.Log ++
        [Event.InstUpdate 2, Event.Applied 2 1, Event.Cleanup 2] ∧
    ((Scenario.Meddling.Update Scenario.Shifting 1).World.Get 2).RenderOpacity = 0 ∧
    2 ∉ Serials (Scenario.Meddling.Update Scenario.Shifting 1).ActiveInstances := by
  refine ⟨by decide!, ?_, ?_, by decide!, by decide!, by decide!, by decide!, by decide!⟩
  · intro cb a ha
    unfold Scenario.Meddling at ha
    simp only at ha
    split at ha
    · rw [List.mem_singleton.mp ha]; decide
    · cases ha
  · intro cb a ha
    cases ha

/-! ### The trace only grows -/

theorem Begin_Log (I : FBUITweenInstance) (H : Host) : ∃ W, (I.Begin H).2.Log = H.Log ++ W := by
  unfold FBUITweenInstance.Begin
  simp only []
  split
  · exact ⟨_, rfl⟩
  · obtain ⟨W, -, hW⟩ := Apply_Raw
      (match (H.Get I.pWidget).Class with
        | EWidgetClass.UserWidget => _
        | EWidgetClass.Image => _
        | EWidgetClass.Border => _
        | EWidgetClass.Other => _) 0 H
    exact ⟨_, hW⟩

theorem Set_Log (I : FBUITweenInstance) (H : Host) (s : Setter) :
    ∃ W, (I.Set H s).2.Log = H.Log ++ W := by
  cases s <;> first | exact Begin_Log I H | exact ⟨[], by simp [FBUITweenInstance.Set]⟩

theorem Configure_Log (Setters : List Setter) :
    ∀ (I : FBUITweenInstance) (H : Host), ∃ W, (I.Configure H Setters).2.Log = H.Log ++ W := by
  induction Setters with
  | nil => intro I H; exact ⟨[], by simp [FBUITweenInstance.Configure]⟩
  | cons s Rest ih =>
    intro I H
    obtain ⟨W1, h1⟩ := Set_Log I H s
    obtain ⟨W2, h2⟩ := ih (I.Set H s).1 (I.Set H s).2
    exact ⟨W1 ++ W2, by
      show ((I.Set H s).1.Configure (I.Set H s).2 Rest).2.Log = _
      rw [h2, h1, List.append_assoc]⟩

theorem Perform_Log (S : UBUITween) (a : Action) :
    ∃ W, (S.Perform a).World.Log = S.World.Log ++ W := by
  cases a with
  | Clear w => exact ⟨[], by simp [UBUITween.Perform, Clear_eq]⟩
  | Create w d dl add Setters =>
    have hL : (S.Create w d dl add).World.Log = S.World.Log ++ [Event.Created S.NextSerial] := by
      cases add <;> simp [UBUITween.Create, Clear_eq, Host.Emit]
    show ∃ W, ((S.Create w d dl add).Chain Setters).World.Log = _
    unfold UBUITween.Chain
    split
    · exact ⟨_, hL⟩
    · rename_i I _
      obtain ⟨W, hW⟩ := Configure_Log Setters I (S.Create w d dl add).World
      exact ⟨[Event.Created S.NextSerial] ++ W, by
        show (I.Configure (S.Create w d dl add).World Setters).2.Log = _
        rw [hW, hL, List.append_assoc]⟩

theorem Run_Log (Actions : List Action) :
    ∀ S : UBUITween, ∃ W, (S.Run Actions).World.Log = S.World.Log ++ W := by
  induction Actions with
  | nil => intro S; exact ⟨[], by simp [UBUITween.Run]⟩
  | cons a Rest ih =>
    intro S
    obtain ⟨W1, h1⟩ := Perform_Log S a
    obtain ⟨W2, h2⟩ := ih (S.Perform a)
    exact ⟨W1 ++ W2, by
      show ((S.Perform a).Run Rest).World.Log = _
      rw [h2, h1, List.append_assoc]⟩

/-- What a callback body does to the scheduler, in one statement. -/
theorem Run_core (Actions : List Action) (S : UBUITween) :
    ∃ (Cr : List FBUITweenInstance) (W : List Event) (p : FBUITweenInstance → Bool),
      (S.Run Actions).InstancesToAdd = S.InstancesToAdd ++ Cr ∧
      Serials Cr = List.range' S.NextSerial Cr.length ∧
      (S.Run Actions).NextSerial = S.NextSerial + Cr.length ∧
      (S.Run Actions).World.Log = S.World.Log ++ W ∧
      CreatedOf W = Serials Cr ∧
      UpdatesOf W = [] ∧
      (∀ q, (S.Run Actions).World.IsValid q = S.World.IsValid q) ∧
      (S.Run Actions).ActiveInstances = S.ActiveInstances.filter p ∧
      (∀ X : FBUITweenInstance,
        (S.World.IsValid X.pWidget = false ∨ ∀ a ∈ Actions, a.Clears ≠ some X.pWidget) →
          p X = true) ∧
      (S.Run Actions).Fault = S.Fault := by
  obtain ⟨Cr, hCr⟩ := Run_pending Actions S
  obtain ⟨W, hW⟩ := Run_Log Actions S
  obtain ⟨p, hA, hp⟩ := Run_Active_filter Actions S
  obtain ⟨-, hP, hN, hL, hF, hV⟩ := Run_Spawned Actions S
  have hSer : Serials Cr = List.range' S.NextSerial (Action.Creations Actions) := by
    rw [hCr] at hP
    simp only [Serials, List.map_append] at hP
    exact List.append_cancel_left hP
  have hlen : Cr.length = Action.Creations Actions := by
    have := congrArg List.length hSer
    simpa [Serials] using this
  have hLW : Lifecycle W =
      (List.range' S.NextSerial (Action.Creations Actions)).map Event.Created := by
    rw [hW, Lifecycle_append] at hL
    simp only [List.append_nil] at hL
    exact List.append_cancel_left hL
  refine ⟨Cr, W, p, hCr, by rw [hlen]; exact hSer, by rw [hlen]; exact hN, hW, ?_, ?_, hV, hA,
    hp, hF⟩
  · rw [← CreatedOf_Lifecycle, hLW, CreatedOf_Created, hSer]
  · rw [← UpdatesOf_Lifecycle, hLW, UpdatesOf_Created]

/-! ### Stretches of the update through the reference -/

theorem Kin_refl (J : FBUITweenInstance) : J.Kin J := ⟨rfl, rfl, rfl, rfl⟩

theorem Kin_trans {J K L : FBUITweenInstance} (h1 : J.Kin K) (h2 : K.Kin L) : J.Kin L :=
  ⟨h1.1.trans h2.1, h1.2.1.trans h2.2.1, h1.2.2.1.trans h2.2.2.1, h1.2.2.2.trans h2.2.2.2⟩

theorem Kin_of_Core {J K : FBUITweenInstance} (h : J.Core = K.Core) : J.Kin K := by
  obtain ⟨h1, h2, -, -, -, -, -, -, -, -, -, h3, h4⟩ := Core_fields h
  exact ⟨h1, h2, h3, h4⟩

theorem ClearedBy_mono (C : Client) {Y Y0 : FBUITweenInstance} {W W2 : List Event}
    {w : WidgetPtr} (hk : Y.Kin Y0) (hsub : ∀ e ∈ W, e ∈ W2) (h : C.ClearedBy Y W w) :
    C.ClearedBy Y0 W2 w := by
  obtain ⟨hs, -, hst, hco⟩ := hk
  rcases h with ⟨hm, cb, hcb, ha⟩ | ⟨hm, cb, hcb, ha⟩
  · exact Or.inl ⟨hs ▸ hsub _ hm, cb, hst ▸ hcb, ha⟩
  · exact Or.inr ⟨hs ▸ hsub _ hm, cb, hco ▸ hcb, ha⟩

theorem Evolved_refl (C : Client) (S : UBUITween) : C.Evolved [] S S :=
  ⟨[], [], by simp, rfl, rfl, by simp, rfl, rfl, fun _ => rfl, List.Sublist.refl _,
    fun J hJ => ⟨J, hJ, Kin_refl J⟩, fun K hK => Or.inl ⟨K, hK, Kin_refl K⟩⟩

theorem Evolved_trans (C : Client) {us1 us2 : List Nat} {S T U : UBUITween}
    (h1 : C.Evolved us1 S T) (h2 : C.Evolved us2 T U) : C.Evolved (us1 ++ us2) S U := by
  obtain ⟨Cr1, W1, a1, b1, c1, d1, e1, f1, g1, s1, i1, j1⟩ := h1
  obtain ⟨Cr2, W2, a2, b2, c2, d2, e2, f2, g2, s2, i2, j2⟩ := h2
  refine ⟨Cr1 ++ Cr2, W1 ++ W2, by rw [a2, a1, List.append_assoc], ?_, ?_,
    by rw [d2, d1, List.append_assoc], ?_, by rw [UpdatesOf_append, f1, f2],
    fun q => (g2 q).trans (g1 q), s2.trans s1, ?_, ?_⟩
  · have : Serials (Cr1 ++ Cr2) = Serials Cr1 ++ Serials Cr2 := by simp [Serials]
    rw [this, b1, b2, c1, List.range'_append_1, List.length_append, Nat.add_comm Cr2.length]
  · rw [c2, c1, List.length_append]; omega
  · have : Serials (Cr1 ++ Cr2) = Serials Cr1 ++ Serials Cr2 := by simp [Serials]
    rw [CreatedOf_append, e1, e2, this]
  · intro J hJ
    obtain ⟨K, hK, hJK⟩ := i2 J hJ
    obtain ⟨L, hL, hKL⟩ := i1 K hK
    exact ⟨L, hL, Kin_trans hJK hKL⟩
  · intro K hK
    rcases j1 K hK with ⟨J, hJ, hJK⟩ | hcl | ⟨hv, Y, hY, hcb⟩
    · rcases j2 J hJ with ⟨J2, hJ2, hk⟩ | hcl | ⟨hv, Y, hY, hcb⟩
      · exact Or.inl ⟨J2, hJ2, Kin_trans hk hJK⟩
      · right; left
        rw [← hJK.1]; exact List.mem_append_right _ hcl
      · right; right
        obtain ⟨Y0, hY0, hYk⟩ := i1 Y hY
        refine ⟨by rw [← hJK.2.1, ← g1]; exact hv, Y0, hY0, ?_⟩
        rw [← hJK.2.1]
        exact ClearedBy_mono C hYk (fun e he => List.mem_append_right _ he) hcb
    · exact Or.inr (Or.inl (List.mem_append_left _ hcl))
    · exact Or.inr (Or.inr ⟨hv, Y, hY,
        ClearedBy_mono C (Kin_refl Y) (fun e he => List.mem_append_left _ he) hcb⟩)

/-- Only the fault flag may differ. -/
theorem Evolved_of_eq (C : Client) {S T : UBUITween}
    (hA : T.ActiveInstances = S.ActiveInstances) (hP : T.InstancesToAdd = S.InstancesToAdd)
    (hN : T.NextSerial = S.NextSerial) (hW : T.World = S.World) : C.Evolved [] S T :=
  ⟨[], [], by simp [hP], rfl, by simp [hN], by simp [hW], rfl, rfl, fun _ => by rw [hW],
    by rw [hA], fun J hJ => ⟨J, hA ▸ hJ, Kin_refl J⟩,
    fun K hK => Or.inl ⟨K, hA.symm ▸ hK, Kin_refl K⟩⟩

/-- A change of the host alone: trace entries and widget writes. -/
theorem Evolved_host (C : Client) (S : UBUITween) (H2 : Host) (W : List Event)
    (hL : H2.Log = S.World.Log ++ W) (hc : CreatedOf W = [])
    (hv : ∀ q, H2.IsValid q = S.World.IsValid q) :
    C.Evolved (UpdatesOf W) S { S with World := H2 } :=
  ⟨[], W, by simp, rfl, rfl, hL, hc, rfl, hv, List.Sublist.refl _,
    fun J hJ => ⟨J, hJ, Kin_refl J⟩, fun K hK => Or.inl ⟨K, hK, Kin_refl K⟩⟩

/-- A write to slot `i` that leaves the entry the instance it was. -/
theorem Evolved_set (C : Client) (S : UBUITween) (i : Nat) (J J2 : FBUITweenInstance)
    (hJ : S.ActiveInstances[i]? = some J) (hk : J2.Kin J) :
    C.Evolved [] S { S with ActiveInstances := S.ActiveInstances.set i J2 } := by
  refine ⟨[], [], by simp, rfl, rfl, by simp, rfl, rfl, fun _ => rfl, ?_, ?_, ?_⟩
  · show (Serials (S.ActiveInstances.set i J2)).Sublist _
    rw [Serials_set _ _ _ _ hJ hk.1]
  · intro X hX
    rcases List.mem_or_eq_of_mem_set hX with h | h
    · exact ⟨X, h, Kin_refl X⟩
    · exact ⟨J, List.getElem?_mem hJ, h ▸ hk⟩
  · intro K hK
    left
    obtain ⟨c, hc⟩ := List.mem_iff_getElem?.mp hK
    by_cases hci : c = i
    · subst hci
      rw [hJ] at hc
      cases hc
      refine ⟨J2, ?_, hk⟩
      apply List.mem_iff_getElem?.mpr
      exact ⟨c, by
        show (S.ActiveInstances.set c J2)[c]? = _
        rw [List.getElem?_set_self (List.getElem?_eq_some_iff.mp hJ).1]⟩
    · refine ⟨K, ?_, Kin_refl K⟩
      apply List.mem_iff_getElem?.mpr
      exact ⟨c, by
        show (S.ActiveInstances.set i J2)[c]? = _
        rw [List.getElem?_set_ne (fun h => hci h.symm)]; exact hc⟩

theorem mem_drop_filter (A : List FBUITweenInstance) (p : FBUITweenInstance → Bool) (n : Nat)
    (J : FBUITweenInstance) (h : J ∈ (A.filter p).drop n) : J ∈ A.drop n := by
  have hsplit : A.filter p = (A.take n).filter p ++ (A.drop n).filter p := by
    rw [← List.filter_append, List.take_append_drop]
  rw [hsplit, List.drop_append_eq_append_drop] at h
  rcases List.mem_append.mp h with h1 | h2
  · have hlen : ((A.take n).filter p).length ≤ n :=
      le_trans (List.length_filter_le _ _) (by simp)
    rw [List.drop_eq_nil_of_le hlen] at h1
    cases h1
  · exact (List.mem_filter.mp (List.mem_of_mem_drop h2)).1

theorem mem_drop_eraseIdx (A : List FBUITweenInstance) (k : Nat) (J : FBUITweenInstance)
    (h : J ∈ (A.eraseIdx k).drop k) : J ∈ A.drop (k + 1) := by
  have := mem_drop_filter_eraseIdx A (fun _ => true) k J (by simpa using h)
  exact this

theorem Above_refl (k : Nat) (S : UBUITween) : S.Above k S := fun _ h => h

theorem Above_trans {k : Nat} {S T U : UBUITween} (h1 : S.Above k T) (h2 : T.Above k U) :
    S.Above k U := fun J hJ => h1 J (h2 J hJ)

theorem Above_of_eq {k : Nat} {S T : UBUITween} (hA : T.ActiveInstances = S.ActiveInstances) :
    S.Above k T := by
  intro J hJ; rw [hA] at hJ; exact hJ

theorem Above_set (k : Nat) (S T : UBUITween) (J : FBUITweenInstance)
    (hA : T.ActiveInstances = S.ActiveInstances.set k J) : S.Above k T := by
  intro X hX
  rw [hA, List.drop_set_of_lt _ _ (Nat.lt_succ_self k)] at hX
  exact hX

theorem Above_filter (k : Nat) (S T : UBUITween) (p : FBUITweenInstance → Bool)
    (hA : T.ActiveInstances = S.ActiveInstances.filter p) : S.Above k T := by
  intro X hX
  rw [hA] at hX
  exact mem_drop_filter _ p _ X hX

/-- A callback of the instance `Y` fires: the call is traced and the body runs. -/
theorem Evolved_fire (C : Client) (S : UBUITween) (Y : FBUITweenInstance)
    (hY : Y ∈ S.ActiveInstances) (e : Event) (Actions : List Action)
    (he : (e = Event.Started Y.Serial ∧ ∃ cb, Y.OnStartedDelegate = some cb ∧
        Actions = C.Starts cb) ∨
      (e = Event.Completed Y.Serial ∧ ∃ cb, Y.OnCompleteDelegate = some cb ∧
        Actions = C.Callbacks cb)) :
    C.Evolved [] S ((S.Emit e).Run Actions) ∧
    (∀ k, S.Above k ((S.Emit e).Run Actions)) ∧
    ((S.Emit e).Run Actions).Fault = S.Fault := by
  obtain ⟨Cr, W, p, hP, hS, hN, hL, hC, hU, hV, hA, hp, hF⟩ := Run_core Actions (S.Emit e)
  have hce : CreatedOf [e] = [] := by
    rcases he with ⟨h, -⟩ | ⟨h, -⟩ <;> rw [h] <;> rfl
  have hue : UpdatesOf [e] = [] := by
    rcases he with ⟨h, -⟩ | ⟨h, -⟩ <;> rw [h] <;> rfl
  refine ⟨⟨Cr, [e] ++ W, hP, hS, hN, ?_, ?_, ?_, hV, ?_, ?_, ?_⟩, ?_, hF⟩
  · rw [hL]; show S.World.Log ++ [e] ++ W = _; rw [List.append_assoc]
  · rw [CreatedOf_append, hce, hC]; rfl
  · rw [UpdatesOf_append, hue, hU]; rfl
  · rw [hA]; exact List.Sublist.map _ (List.filter_sublist _)
  · intro J hJ
    rw [hA] at hJ
    exact ⟨J, (List.mem_filter.mp hJ).1, Kin_refl J⟩
  · intro K hK
    by_cases hpK : p K = true
    · left
      exact ⟨K, by rw [hA]; exact List.mem_filter.mpr ⟨hK, hpK⟩, Kin_refl K⟩
    · right; right
      have hn : ¬ (S.World.IsValid K.pWidget = false ∨
          ∀ a ∈ Actions, a.Clears ≠ some K.pWidget) := fun h => hpK (hp K h)
      have hval : S.World.IsValid K.pWidget = true := by
        cases hv : S.World.IsValid K.pWidget
        · exact absurd (Or.inl hv) hn
        · rfl
      have hcl : ∃ a ∈ Actions, a.Clears = some K.pWidget := by
        by_contra hno
        apply hn
        right
        intro a ha hc
        exact hno ⟨a, ha, hc⟩
      refine ⟨hval, Y, hY, ?_⟩
      rcases he with ⟨h, cb, hcb, hAct⟩ | ⟨h, cb, hcb, hAct⟩
      · exact Or.inl ⟨by rw [h]; simp, cb, hcb, hAct ▸ hcl⟩
      · exact Or.inr ⟨by rw [h]; simp, cb, hcb, hAct ▸ hcl⟩
  · intro k
    exact Above_filter k S _ p hA

theorem Evolved_congr (C : Client) {us : List Nat} {S T T2 : UBUITween}
    (hA : T2.ActiveInstances = T.ActiveInstances) (hP : T2.InstancesToAdd = T.InstancesToAdd)
    (hN : T2.NextSerial = T.NextSerial) (hW : T2.World = T.World) (h : C.Evolved us S T) :
    C.Evolved us S T2 := by
  have := Evolved_trans C h (Evolved_of_eq C hA hP hN hW)
  simpa using this

theorem Silent_traces (W : List Event) (h : ∀ e ∈ W, e.SerialOf = none) :
    CreatedOf W = [] ∧ UpdatesOf W = [] := by
  induction W with
  | nil => exact ⟨rfl, rfl⟩
  | cons e W ih =>
    have he := h e (List.mem_cons_self _ _)
    obtain ⟨h1, h2⟩ := ih (fun x hx => h x (List.mem_cons_of_mem _ hx))
    cases e <;> first | exact ⟨h1, h2⟩ | cases he

theorem Through_Evolved (C : Client) (S : UBUITween) (i : Nat)
    (f : FBUITweenInstance → FBUITweenInstance) (hk : ∀ J, (f J).Kin J) :
    C.Evolved [] S (S.Through i f) ∧ S.Above i (S.Through i f) := by
  unfold UBUITween.Through
  split
  · rename_i J hJ
    exact ⟨Evolved_set C S i J (f J) hJ (hk J), Above_set i S _ (f J) rfl⟩
  · exact ⟨Evolved_of_eq C rfl rfl rfl rfl, Above_of_eq rfl⟩

theorem Start_Evolved (C : Client) (S : UBUITween) (i : Nat) (I : FBUITweenInstance)
    (hI : S.ActiveInstances[i]? = some I) :
    C.Evolved [] S (C.Start S i I) ∧ S.Above i (C.Start S i I) := by
  unfold Client.Start
  cases hd : I.OnStartedDelegate with
  | none =>
    exact Through_Evolved C S i _ (fun J => ⟨rfl, rfl, rfl, rfl⟩)
  | some cb =>
    obtain ⟨h1, h2, -⟩ := Evolved_fire C S I (List.getElem?_mem hI) (Event.Started I.Serial)
      (C.Starts cb) (Or.inl ⟨rfl, cb, hd, rfl⟩)
    obtain ⟨h3, h4⟩ := Through_Evolved C ((S.Emit (Event.Started I.Serial)).Run (C.Starts cb)) i
      (fun J => { J with bHasPlayedStartEvent := true }) (fun J => ⟨rfl, rfl, rfl, rfl⟩)
    exact ⟨by simpa using Evolved_trans C h1 h3, Above_trans (h2 i) h4⟩

theorem Advanced_Kin (Round : ℚ → ℚ) (J : FBUITweenInstance) (dt : ℚ) :
    (J.Advanced Round dt).Kin J := by
  unfold FBUITweenInstance.Advanced
  simp only []
  split <;> exact ⟨rfl, rfl, rfl, rfl⟩

theorem Ramp_Evolved (C : Client) (dt : ℚ) (S : UBUITween) (i : Nat) :
    C.Evolved [] S (C.Ramp dt S i) ∧ S.Above i (C.Ramp dt S i) := by
  unfold Client.Ramp
  split
  · exact ⟨Evolved_refl C S, Above_refl i S⟩
  · split
    · exact ⟨Evolved_of_eq C rfl rfl rfl rfl, Above_of_eq rfl⟩
    · rename_i J hJ
      simp only []
      split
      · have h := Evolved_set C S i J _ hJ (Advanced_Kin C.Round J dt)
        exact ⟨Evolved_congr C rfl rfl rfl rfl h, Above_set i S _ _ rfl⟩
      · obtain ⟨W, hWs, hL⟩ := Apply_Raw (J.Advanced C.Round dt)
          ((J.Advanced C.Round dt).EasedAlpha C.Ease) S.World
        obtain ⟨hcore, hsame⟩ := Apply_spec (J.Advanced C.Round dt)
          ((J.Advanced C.Round dt).EasedAlpha C.Ease) S.World
        have hsil := Silent_traces W hWs
        have h1 := Evolved_host C S _ _ hL (by simp [CreatedOf, hsil.1]) hsame.2
        have hu : UpdatesOf (Event.Applied (J.Advanced C.Round dt).Serial
            ((J.Advanced C.Round dt).EasedAlpha C.Ease) :: W) = [] := by
          simp [UpdatesOf, hsil.2]
        rw [hu] at h1
        have h2 := Evolved_set C
          { S with World := ((J.Advanced C.Round dt).Apply
            ((J.Advanced C.Round dt).EasedAlpha C.Ease) S.World).2 } i J
          ((J.Advanced C.Round dt).Apply ((J.Advanced C.Round dt).EasedAlpha C.Ease) S.World).1
          hJ (Kin_trans (Kin_of_Core hcore) (Advanced_Kin C.Round J dt))
        exact ⟨by simpa using Evolved_trans C h1 h2, Above_set i S _ _ rfl⟩

theorem InstanceUpdate_Evolved (C : Client) (dt : ℚ) (S : UBUITween) (i : Nat)
    (I : FBUITweenInstance) (hI : S.ActiveInstances[i]? = some I) :
    C.Evolved [I.Serial] S (C.InstanceUpdate dt S i) ∧ S.Above i (C.InstanceUpdate dt S i) := by
  have h0 : C.Evolved [I.Serial] S (S.Emit (Event.InstUpdate I.Serial)) :=
    Evolved_host C S (S.World.Emit (Event.InstUpdate I.Serial)) [Event.InstUpdate I.Serial] rfl
      rfl (fun _ => rfl)
  have hI0 : (S.Emit (Event.InstUpdate I.Serial)).ActiveInstances[i]? = some I := hI
  have a0 : S.Above i (S.Emit (Event.InstUpdate I.Serial)) := Above_of_eq rfl
  unfold Client.InstanceUpdate
  rw [hI]
  simp only []
  split
  · exact ⟨h0, a0⟩
  · split
    · have h := Evolved_set C (S.Emit (Event.InstUpdate I.Serial)) i I
        { I with bIsComplete := true } hI0 ⟨rfl, rfl, rfl, rfl⟩
      exact ⟨by simpa using Evolved_trans C h0 h, Above_set i S _ _ rfl⟩
    · split
      · have h := Evolved_set C (S.Emit (Event.InstUpdate I.Serial)) i I
          { I with Delay := C.Round (I.Delay - dt) } hI0 ⟨rfl, rfl, rfl, rfl⟩
        exact ⟨by simpa using Evolved_trans C h0 h, Above_set i S _ _ rfl⟩
      · split
        · obtain ⟨h1, a1⟩ := Start_Evolved C (S.Emit (Event.InstUpdate I.Serial)) i I hI0
          obtain ⟨h2, a2⟩ := Ramp_Evolved C dt
            (C.Start (S.Emit (Event.InstUpdate I.Serial)) i I) i
          exact ⟨by simpa using Evolved_trans C h0 (Evolved_trans C h1 h2),
            Above_trans a0 (Above_trans a1 a2)⟩
        · obtain ⟨h2, a2⟩ := Ramp_Evolved C dt (S.Emit (Event.InstUpdate I.Serial)) i
          exact ⟨by simpa using Evolved_trans C h0 h2, Above_trans a0 a2⟩

/-- Lines 70-75 on the complete entry `Inst` of slot `i`: copy, `RemoveAt`, cleanup. -/
theorem Retire_Evolved (C : Client) (T : UBUITween) (i : Nat) (Inst : FBUITweenInstance)
    (hI : T.ActiveInstances[i]? = some Inst) :
    C.Evolved [] T (Inst.DoCompleteCleanup C.toEnv
      (UBUITween.Emit { T with ActiveInstances := T.ActiveInstances.eraseIdx i }
        (Event.Cleanup Inst.Serial))) ∧
    (∀ J ∈ (Inst.DoCompleteCleanup C.toEnv
      (UBUITween.Emit { T with ActiveInstances := T.ActiveInstances.eraseIdx i }
        (Event.Cleanup Inst.Serial))).ActiveInstances.drop i, J ∈ T.ActiveInstances.drop (i + 1)) := by
  have hsplit : ∀ K ∈ T.ActiveInstances, K ∈ T.ActiveInstances.eraseIdx i ∨ K = Inst := by
    intro K hK
    obtain ⟨c, hc⟩ := List.mem_iff_getElem?.mp hK
    by_cases hci : c = i
    · right; subst hci; rw [hI] at hc; exact (Option.some.inj hc).symm
    · left; exact mem_eraseIdx_of_ne hc hci
  unfold FBUITweenInstance.DoCompleteCleanup
  have hquiet : C.Evolved [] T
      (UBUITween.Emit { T with ActiveInstances := T.ActiveInstances.eraseIdx i }
        (Event.Cleanup Inst.Serial)) ∧
      (∀ J ∈ (UBUITween.Emit { T with ActiveInstances := T.ActiveInstances.eraseIdx i }
        (Event.Cleanup Inst.Serial)).ActiveInstances.drop i, J ∈ T.ActiveInstances.drop (i + 1)) := by
    refine ⟨⟨[], [Event.Cleanup Inst.Serial], by simp [UBUITween.Emit], rfl, rfl, rfl, rfl, rfl,
      fun _ => rfl, List.Sublist.map _ (List.eraseIdx_sublist _ _),
      fun J hJ => ⟨J, (List.eraseIdx_sublist _ _).subset hJ, Kin_refl J⟩, ?_⟩, ?_⟩
    · intro K hK
      rcases hsplit K hK with h | h
      · exact Or.inl ⟨K, h, Kin_refl K⟩
      · exact Or.inr (Or.inl (by rw [h]; simp))
    · intro J hJ
      exact mem_drop_eraseIdx _ i J hJ
  split
  · exact hquiet
  · split
    · rename_i cb hcb
      obtain ⟨Cr, W, p, hP, hS, hN, hL, hC, hU, hV, hA, hp, -⟩ := Run_core (C.Callbacks cb)
        (UBUITween.Emit (UBUITween.Emit
          { T with ActiveInstances := T.ActiveInstances.eraseIdx i }
          (Event.Cleanup Inst.Serial)) (Event.Completed Inst.Serial))
      refine ⟨⟨Cr, [Event.Cleanup Inst.Serial, Event.Completed Inst.Serial] ++ W, hP, hS, hN, ?_,
        ?_, ?_, hV, ?_, ?_, ?_⟩, ?_⟩
      · rw [hL]
        show T.World.Log ++ [Event.Cleanup Inst.Serial] ++ [Event.Completed Inst.Serial] ++ W = _
        simp
      · rw [CreatedOf_append, hC]; rfl
      · rw [UpdatesOf_append, hU]; rfl
      · rw [hA]
        exact List.Sublist.map _ ((List.filter_sublist _).trans (List.eraseIdx_sublist _ _))
      · intro J hJ
        rw [hA] at hJ
        exact ⟨J, (List.eraseIdx_sublist _ _).subset (List.mem_filter.mp hJ).1, Kin_refl J⟩
      · intro K hK
        rcases hsplit K hK with h | h
        · by_cases hpK : p K = true
          · left
            exact ⟨K, by rw [hA]; exact List.mem_filter.mpr ⟨h, hpK⟩, Kin_refl K⟩
          · right; right
            have hn : ¬ (T.World.IsValid K.pWidget = false ∨
                ∀ a ∈ C.Callbacks cb, a.Clears ≠ some K.pWidget) := fun h => hpK (hp K h)
            have hval : T.World.IsValid K.pWidget = true := by
              cases hv : T.World.IsValid K.pWidget
              · exact absurd (Or.inl hv) hn
              · rfl
            have hcl : ∃ a ∈ C.Callbacks cb, a.Clears = some K.pWidget := by
              by_contra hno
              apply hn
              right
              intro a ha hc
              exact hno ⟨a, ha, hc⟩
            exact ⟨hval, Inst, List.getElem?_mem hI, Or.inr ⟨by simp, cb, hcb, hcl⟩⟩
        · exact Or.inr (Or.inl (by rw [h]; simp))
      · intro J hJ
        rw [hA] at hJ
        exact mem_drop_filter_eraseIdx _ p i J hJ
    · exact hquiet

/-- One pass of the loop body through the reference. -/
theorem Visit_Evolved (C : Client) (dt : ℚ) (S : UBUITween) (i : Nat)
    (I : FBUITweenInstance) (hI : S.ActiveInstances[i]? = some I) :
    C.Evolved [I.Serial] S (C.Visit dt S i) ∧
    ((C.Visit dt S i).Fault = false →
      ∀ J ∈ (C.Visit dt S i).ActiveInstances.drop i,
        J.bIsComplete = false ∨ J ∈ S.ActiveInstances.drop (i + 1)) := by
  obtain ⟨h1, a1⟩ := InstanceUpdate_Evolved C dt S i I hI
  unfold Client.Visit
  simp only []
  split
  · rename_i hf
    refine ⟨h1, fun h => ?_⟩
    rw [hf] at h; cases h
  · split
    · exact ⟨Evolved_congr C rfl rfl rfl rfl h1, fun h => by cases h⟩
    · rename_i Inst hInst
      split
      · obtain ⟨h2, d2⟩ := Retire_Evolved C (C.InstanceUpdate dt S i) i Inst hInst
        refine ⟨by simpa using Evolved_trans C h1 h2, fun _ J hJ => Or.inr ?_⟩
        exact a1 J (d2 J hJ)
      · rename_i hc
        refine ⟨h1, fun _ J hJ => ?_⟩
        obtain ⟨c, hcJ⟩ := List.mem_iff_getElem?.mp hJ
        rw [List.getElem?_drop] at hcJ
        by_cases hc0 : c = 0
        · left
          subst hc0
          rw [Nat.add_zero, hInst] at hcJ
          cases hcJ
          simpa [FBUITweenInstance.IsComplete] using hc
        · right
          apply a1
          apply List.mem_iff_getElem?.mpr
          refine ⟨c - 1, ?_⟩
          rw [List.getElem?_drop]
          have hidx : i + 1 + (c - 1) = i + c := by omega
          rw [hidx]; exact hcJ

/-! ### The merge of `InstancesToAdd`, through the reference -/

theorem Client_UpdateLoop_Evolved (C : Client) (dt : ℚ) :
    ∀ (k : Nat) (S : UBUITween), ∃ us, C.Evolved us S (C.UpdateLoop dt k S) := by
  intro k
  induction k with
  | zero => intro S; exact ⟨[], Evolved_refl C S⟩
  | succ k ih =>
    intro S
    unfold Client.UpdateLoop
    cases hI : S.ActiveInstances[k]? with
    | none => exact ⟨[], Evolved_of_eq C rfl rfl rfl rfl⟩
    | some I =>
      simp only []
      obtain ⟨h1, -⟩ := Visit_Evolved C dt S k I hI
      split
      · exact ⟨_, h1⟩
      · obtain ⟨us, h2⟩ := ih (C.Visit dt S k)
        exact ⟨_, Evolved_trans C h1 h2⟩

/-- The entries the loop has passed are incomplete: with the entries from index `k` up
incomplete, the rest of the loop ends in a fault or leaves incomplete entries only. -/
theorem Client_UpdateLoop_incomplete (C : Client) (dt : ℚ) :
    ∀ (k : Nat) (S : UBUITween), (∀ J ∈ S.ActiveInstances.drop k, J.bIsComplete = false) →
      (C.UpdateLoop dt k S).Fault = true ∨
      ∀ J ∈ (C.UpdateLoop dt k S).ActiveInstances, J.bIsComplete = false := by
  intro k
  induction k with
  | zero => intro S h; right; simpa [Client.UpdateLoop] using h
  | succ k ih =>
    intro S h
    unfold Client.UpdateLoop
    cases hI : S.ActiveInstances[k]? with
    | none => left; rfl
    | some I =>
      simp only []
      obtain ⟨-, h2⟩ := Visit_Evolved C dt S k I hI
      cases hf : (C.Visit dt S k).Fault
      · simp only [Bool.false_eq_true, if_false]
        apply ih
        intro J hJ
        rcases h2 hf J hJ with hc | hab
        · exact hc
        · exact h J hab
      · left; simp [hf]

/-! ### Every instance in its turn -/

theorem set_self_of_getElem? {α : Type} (A : List α) (i : Nat) (x : α) (h : A[i]? = some x) :
    A.set i x = A := by
  apply List.ext_getElem?
  intro c
  rw [List.getElem?_set]
  split
  · rename_i hc
    subst hc
    rw [h]
    simp [(List.getElem?_eq_some_iff.mp h).1]
  · rfl

theorem Ramped_eq_Advanced (I : FBUITweenInstance) (dt : ℚ) :
    I.Ramped dt =
      FBUITweenInstance.Advanced (fun q => q) { I with bHasPlayedStartEvent := true } dt := by
  unfold FBUITweenInstance.Ramped FBUITweenInstance.Advanced
  simp only []

theorem Eased_eq_EasedAlpha (Ease : EaseFn) (I : FBUITweenInstance) (dt : ℚ) :
    I.Eased Ease dt = (I.Ramped dt).EasedAlpha Ease := by
  have h1 : (I.Ramped dt).EasingParam = I.EasingParam := by
    unfold FBUITweenInstance.Ramped; split <;> rfl
  have h2 : (I.Ramped dt).EasingType = I.EasingType := by
    unfold FBUITweenInstance.Ramped; split <;> rfl
  have h3 : (I.Ramped dt).Duration = I.Duration := by
    unfold FBUITweenInstance.Ramped; split <;> rfl
  unfold FBUITweenInstance.Eased FBUITweenInstance.EasedAlpha
  rw [h1, h2, h3]
  cases I.EasingParam <;> rfl

/-- The ramp through the reference when slot `i` is in place and its target valid. -/
theorem Ramp_in_place (C : Client) (dt : ℚ) (S : UBUITween) (i : Nat) (J : FBUITweenInstance)
    (hF : S.Fault = false) (hJ : S.ActiveInstances[i]? = some J)
    (hv : S.World.IsValid J.pWidget = true) :
    C.Ramp dt S i =
      { S with
        ActiveInstances := S.ActiveInstances.set i
          ((J.Advanced C.Round dt).Apply ((J.Advanced C.Round dt).EasedAlpha C.Ease) S.World).1
        World :=
          ((J.Advanced C.Round dt).Apply ((J.Advanced C.Round dt).EasedAlpha C.Ease) S.World).2 } := by
  have hp : (J.Advanced C.Round dt).pWidget = J.pWidget := (Advanced_Kin C.Round J dt).2.1
  unfold Client.Ramp
  rw [hF, hJ]
  simp only [Bool.false_eq_true, if_false, hp, hv, Bool.not_true]

/-- The start delegate of a client whose start callbacks make no scheduler call. -/
theorem Start_plain (E : Env) (S : UBUITween) (i : Nat) (I : FBUITweenInstance)
    (hI : S.ActiveInstances[i]? = some I) :
    E.Plain.Start S i I =
      { S with
        ActiveInstances := S.ActiveInstances.set i { I with bHasPlayedStartEvent := true }
        World := if I.OnStartedDelegate.isSome then S.World.Emit (Event.Started I.Serial)
          else S.World } := by
  unfold Client.Start UBUITween.Through
  cases hd : I.OnStartedDelegate with
  | none => simp only [hI, hd, Option.isSome_none, Bool.false_eq_true, if_false]
  | some cb =>
    have hrun : (S.Emit (Event.Started I.Serial)).Run (E.Plain.Starts cb) =
        S.Emit (Event.Started I.Serial) := rfl
    simp only [hrun, Option.isSome_some, if_true]
    have : (S.Emit (Event.Started I.Serial)).ActiveInstances[i]? = some I := hI
    rw [this]
    simp only [hd]
    rfl

theorem Plain_InstanceUpdate (E : Env) (dt : ℚ) (S : UBUITween) (i : Nat)
    (I : FBUITweenInstance) (hI : S.ActiveInstances[i]? = some I) (hF : S.Fault = false) :
    E.Plain.InstanceUpdate dt S i =
      { S with
        ActiveInstances := S.ActiveInstances.set i (I.Update E.Ease dt S.World).1
        World := (I.Update E.Ease dt S.World).2 } := by
  have hlt : i < S.ActiveInstances.length := (List.getElem?_eq_some_iff.mp hI).1
  cases hr : I.Ramps S.World
  · rw [Update_early E.Ease I dt S.World hr]
    have hv : (S.World.Emit (Event.InstUpdate I.Serial)).IsValid I.pWidget =
        S.World.IsValid I.pWidget := rfl
    unfold FBUITweenInstance.Ramps at hr
    unfold Client.InstanceUpdate
    rw [hI]
    simp only [UBUITween.Emit, hv]
    split
    · simp only [set_self_of_getElem? _ _ _ hI]
    · split
      · rfl
      · split
        · rfl
        · rename_i h1 h2 h3
          exfalso
          have e1 : (I.bShouldUpdate || I.bIsComplete) = true := by
            cases h1' : I.bShouldUpdate <;> cases h2' : I.bIsComplete <;>
              simp [h1', h2'] at h1 ⊢
          have e2 : S.World.IsValid I.pWidget = true := by simpa using h2
          have e3 : I.Delay ≤ 0 := not_lt.mp h3
          simp [e1, e2, e3] at hr
  · rw [Update_ramp E.Ease I dt S.World hr, Ramped_eq_Advanced, Eased_eq_EasedAlpha,
      Ramped_eq_Advanced]
    have hr2 := hr
    simp only [FBUITweenInstance.Ramps, Bool.and_eq_true, Bool.or_eq_true,
      decide_eq_true_eq] at hr2
    obtain ⟨⟨hb, hval⟩, hd⟩ := hr2
    have e1 : ¬ ((!I.bShouldUpdate && !I.bIsComplete) = true) := by
      cases h1' : I.bShouldUpdate <;> cases h2' : I.bIsComplete <;> simp [h1', h2'] at hb ⊢
    have e2 : ¬ ((!(S.Emit (Event.InstUpdate I.Serial)).World.IsValid I.pWidget) = true) := by
      have : (S.Emit (Event.InstUpdate I.Serial)).World.IsValid I.pWidget = true := hval
      simp [this]
    have e3 : ¬ (I.Delay > 0) := not_lt.mpr hd
    unfold Client.InstanceUpdate
    rw [hI]
    simp only [if_neg e1, if_neg e2, if_neg e3]
    cases hs : I.bHasPlayedStartEvent
    · simp only [Bool.not_false, if_true]
      have hT := Start_plain E (S.Emit (Event.InstUpdate I.Serial)) i I hI
      have hTF : (E.Plain.Start (S.Emit (Event.InstUpdate I.Serial)) i I).Fault = false := by
        rw [hT]; exact hF
      have hTJ : (E.Plain.Start (S.Emit (Event.InstUpdate I.Serial)) i I).ActiveInstances[i]? =
          some { I with bHasPlayedStartEvent := true } := by
        rw [hT]; exact List.getElem?_set_self hlt
      have hTv : (E.Plain.Start (S.Emit (Event.InstUpdate I.Serial)) i I).World.IsValid
          I.pWidget = true := by
        rw [hT]
        show Host.IsValid (if I.OnStartedDelegate.isSome then _ else _) I.pWidget = true
        split <;> exact hval
      rw [Ramp_in_place E.Plain dt _ i _ hTF hTJ hTv, hT]
      unfold FBUITweenInstance.Announce
      simp only [hs, Bool.not_false, Bool.true_and, List.set_set]
      by_cases hsome : I.OnStartedDelegate.isSome = true
      · simp only [hsome, if_true]; rfl
      · simp only [hsome, Bool.false_eq_true, if_false]; rfl
    · simp only [Bool.not_true, Bool.false_eq_true, if_false]
      have hIe : ({ I with bHasPlayedStartEvent := true } : FBUITweenInstance) = I := by
        cases I; simp only [] at hs; subst hs; rfl
      have hI0 : (S.Emit (Event.InstUpdate I.Serial)).ActiveInstances[i]? = some I := hI
      have hF0 : (S.Emit (Event.InstUpdate I.Serial)).Fault = false := hF
      have hv0 : (S.Emit (Event.InstUpdate I.Serial)).World.IsValid I.pWidget = true := hval
      rw [Ramp_in_place E.Plain dt _ i I hF0 hI0 hv0, hIe]
      unfold FBUITweenInstance.Announce
      simp only [hs, Bool.not_true, Bool.false_and, Bool.false_eq_true, if_false]
      rfl

theorem Plain_Visit (E : Env) (dt : ℚ) (S : UBUITween) (i : Nat)
    (I : FBUITweenInstance) (hI : S.ActiveInstances[i]? = some I) (hF : S.Fault = false) :
    E.Plain.Visit dt S i = S.Visit E dt i I := by
  have hlt : i < S.ActiveInstances.length := (List.getElem?_eq_some_iff.mp hI).1
  unfold Client.Visit UBUITween.Visit
  rw [Plain_InstanceUpdate E dt S i I hI hF]
  simp only [hF, Bool.false_eq_true, if_false, List.getElem?_set_self hlt]
  split <;> rfl

theorem Plain_UpdateLoop (E : Env) (dt : ℚ) :
    ∀ (k : Nat) (S : UBUITween), S.Fault = false →
      E.Plain.UpdateLoop dt k S = UBUITween.UpdateLoop E dt k S := by
  intro k
  induction k with
  | zero => intro S _; rfl
  | succ k ih =>
    intro S hF
    unfold Client.UpdateLoop UBUITween.UpdateLoop
    cases hI : S.ActiveInstances[k]? with
    | none => rfl
    | some I =>
      simp only []
      have hV := Plain_Visit E dt S k I hI hF
      have hVF : (S.Visit E dt k I).Fault = false := by
        obtain ⟨_, -, -, -, -, -, hf⟩ := Visit_summary E dt S k I hI
        rw [hf]; exact hF
      rw [hV, hVF]
      simp only [Bool.false_eq_true, if_false]
      exact ih _ hVF

/-- For a client whose start callbacks make no scheduler call, in exact arithmetic, the
update through the reference is the update that takes the instance out of the array and puts
the result back: what is proved of `UBUITween.Update` holds of the source for such
clients. -/
theorem Plain_Update (E : Env) (S : UBUITween) (dt : ℚ) (hF : S.Fault = false) :
    E.Plain.Update S dt = S.Update E dt := by
  unfold Client.Update UBUITween.Update
  rw [Plain_UpdateLoop E dt _ S hF]

/-! ### What the trace settles -/

theorem Nodup_unique (A : List FBUITweenInstance) (hnd : (Serials A).Nodup)
    (X Y : FBUITweenInstance) (hX : X ∈ A) (hY : Y ∈ A) (h : X.Serial = Y.Serial) : X = Y := by
  obtain ⟨a, ha⟩ := List.mem_iff_getElem?.mp hX
  obtain ⟨b, hb⟩ := List.mem_iff_getElem?.mp hY
  by_cases hab : a = b
  · subst hab; rw [ha] at hb; exact Option.some.inj hb
  · exact absurd h (Serial_ne_of_index A hnd b a Y X hb ha hab)

/-- A callback body that clears the valid widget `w` leaves no entry that targets `w`. -/
theorem Run_clears (Actions : List Action) :
    ∀ (S : UBUITween) (w : WidgetPtr), S.World.IsValid w = true →
      (∃ a ∈ Actions, a.Clears = some w) →
      ∀ J ∈ (S.Run Actions).ActiveInstances, J.pWidget ≠ w := by
  induction Actions with
  | nil => intro S w _ h; obtain ⟨a, ha, -⟩ := h; cases ha
  | cons a Rest ih =>
    intro S w hv h J hJ
    have hJ2 : J ∈ ((S.Perform a).Run Rest).ActiveInstances := hJ
    have hval : (S.Perform a).World.IsValid w = true := by
      rw [(Perform_Spawned S a).2.2.2.2.2 w]; exact hv
    by_cases hc : a.Clears = some w
    · obtain ⟨p, hA, -⟩ := Run_Active_filter Rest (S.Perform a)
      rw [hA] at hJ2
      have hJ3 : J ∈ (S.Perform a).ActiveInstances := (List.mem_filter.mp hJ2).1
      intro hw
      have hkeep : ∀ X ∈ (S.Clear w).1.ActiveInstances, X.pWidget ≠ w := by
        intro X hX hXw
        rw [Clear_eq] at hX
        have := (List.mem_filter.mp hX).2
        simp [UBUITween.Keeps, FBUITweenInstance.GetWidget, hXw, hv] at this
      cases a with
      | Clear w2 =>
        simp only [Action.Clears, Option.some.injEq] at hc
        subst hc
        exact hkeep J hJ3 hw
      | Create w2 d dl add Setters =>
        cases add
        · simp only [Action.Clears, Bool.false_eq_true, if_false, Option.some.injEq] at hc
          subst hc
          have hJ4 : J ∈ (S.Clear w2).1.ActiveInstances := by
            simpa [UBUITween.Perform, Chain_Active, UBUITween.Create] using hJ3
          exact hkeep J hJ4 hw
        · simp [Action.Clears] at hc
    · obtain ⟨a2, ha2, hc2⟩ := h
      rcases List.mem_cons.mp ha2 with h1 | h1
      · rw [h1] at hc2; exact absurd hc2 hc
      · exact ih (S.Perform a) w hval ⟨a2, h1, hc2⟩ J hJ2

theorem Settled_quiet (C : Client) (S T : UBUITween)
    (hq : ∀ W, T.World.Log = S.World.Log ++ W → ∀ e ∈ W, e.IsSignal = false) :
    C.Settled S T := by
  intro W hW
  have h := hq W hW
  refine ⟨fun n hn => ?_, fun n hn => ?_, fun K _ _ hY => ?_⟩
  · have := h _ hn; cases this
  · rcases hn with hn | hn <;> · have := h _ hn; cases this
  · obtain ⟨Y, -, hc⟩ := hY
    rcases hc with ⟨hm, -⟩ | ⟨hm, -⟩ <;> · have := h _ hm; cases this

theorem quiet_of_log {S T : UBUITween} {W0 : List Event}
    (h : T.World.Log = S.World.Log ++ W0) (hq : ∀ e ∈ W0, e.IsSignal = false) :
    ∀ W, T.World.Log = S.World.Log ++ W → ∀ e ∈ W, e.IsSignal = false := by
  intro W hW
  rw [h] at hW
  rw [← List.append_cancel_left hW]
  exact hq

theorem Settled_trans (C : Client) {us1 us2 : List Nat} {S T U : UBUITween}
    (hnd : (Serials S.ActiveInstances).Nodup)
    (h1 : C.Evolved us1 S T) (h2 : C.Evolved us2 T U)
    (s1 : C.Settled S T) (s2 : C.Settled T U) : C.Settled S U := by
  obtain ⟨Cr1, W1, -, -, -, d1, -, -, g1, sub1, i1, -⟩ := h1
  obtain ⟨Cr2, W2, -, -, -, d2, -, -, -, sub2, -, -⟩ := h2
  obtain ⟨p1, q1, r1⟩ := s1 W1 d1
  obtain ⟨p2, q2, r2⟩ := s2 W2 d2
  intro W hW
  have hWeq : W = W1 ++ W2 := by
    rw [d2, d1, List.append_assoc] at hW
    exact (List.append_cancel_left hW).symm
  subst hWeq
  refine ⟨?_, ?_, ?_⟩
  · intro n hn hmem
    rcases List.mem_append.mp hn with h | h
    · exact p1 n h (sub2.subset hmem)
    · exact p2 n h hmem
  · intro n hn
    have hcase : (Event.Started n ∈ W1 ∨ Event.Completed n ∈ W1) ∨
        (Event.Started n ∈ W2 ∨ Event.Completed n ∈ W2) := by
      rcases hn with h | h <;> rcases List.mem_append.mp h with h | h
      · exact Or.inl (Or.inl h)
      · exact Or.inr (Or.inl h)
      · exact Or.inl (Or.inr h)
      · exact Or.inr (Or.inr h)
    rcases hcase with h | h
    · exact q1 n h
    · exact sub1.subset (q2 n h)
  · intro K hK hv hY hmem
    have hmemT : K.Serial ∈ Serials T.ActiveInstances := sub2.subset hmem
    obtain ⟨K2, hK2, hK2s⟩ := List.mem_map.mp hmemT
    obtain ⟨K0, hK0, hkin⟩ := i1 K2 hK2
    have hK0K : K0 = K := Nodup_unique _ hnd K0 K hK0 hK (hkin.1.symm.trans hK2s)
    subst hK0K
    obtain ⟨Y, hYm, hcl⟩ := hY
    have hsplit : C.ClearedBy Y W1 K0.pWidget ∨
        ((Event.Started Y.Serial ∈ W2 ∨ Event.Completed Y.Serial ∈ W2) ∧
          C.ClearedBy Y W2 K0.pWidget) := by
      rcases hcl with ⟨hm, rest⟩ | ⟨hm, rest⟩
      · rcases List.mem_append.mp hm with h | h
        · exact Or.inl (Or.inl ⟨h, rest⟩)
        · exact Or.inr ⟨Or.inl h, Or.inl ⟨h, rest⟩⟩
      · rcases List.mem_append.mp hm with h | h
        · exact Or.inl (Or.inr ⟨h, rest⟩)
        · exact Or.inr ⟨Or.inr h, Or.inr ⟨h, rest⟩⟩
    rcases hsplit with h | ⟨hev, h⟩
    · exact r1 K0 hK hv ⟨Y, hYm, h⟩ hmemT
    · have hYT : Y.Serial ∈ Serials T.ActiveInstances := q2 _ hev
      obtain ⟨Y2, hY2, hY2s⟩ := List.mem_map.mp hYT
      obtain ⟨Y0, hY0, hkinY⟩ := i1 Y2 hY2
      have hY0Y : Y0 = Y := Nodup_unique _ hnd Y0 Y hY0 hYm (hkinY.1.symm.trans hY2s)
      subst hY0Y
      have hcl2 : C.ClearedBy Y2 W2 K2.pWidget := by
        rw [hkin.2.1]
        exact ClearedBy_mono C ⟨hkinY.1.symm, hkinY.2.1.symm, hkinY.2.2.1.symm,
          hkinY.2.2.2.symm⟩ (fun _ he => he) h
      have hv2 : T.World.IsValid K2.pWidget = true := by rw [g1, hkin.2.1]; exact hv
      refine r2 K2 hK2 hv2 ⟨Y2, hY2, hcl2⟩ ?_
      have hs : K2.Serial = K0.Serial := hkin.1
      rw [hs]; exact hmem

theorem Run_quiet (Actions : List Action) (S : UBUITween) (W : List Event)
    (hW : (S.Run Actions).World.Log = S.World.Log ++ W) : ∀ e ∈ W, e.IsSignal = false := by
  obtain ⟨-, -, -, hL, -, -⟩ := Run_Spawned Actions S
  rw [hW, Lifecycle_append] at hL
  simp only [List.append_nil] at hL
  have hLW := List.append_cancel_left hL
  intro e he
  cases hs : e.IsSignal
  · rfl
  · exfalso
    have hlife : e.IsLifecycle = true := by cases e <;> first | rfl | cases hs
    have hmem : e ∈ Lifecycle W := List.mem_filter.mpr ⟨he, hlife⟩
    rw [hLW] at hmem
    obtain ⟨n, -, hn⟩ := List.mem_map.mp hmem
    rw [← hn] at hs
    cases hs

/-- A callback of the instance `Y` fires, in a state with distinct serials. -/
theorem Fire_Settled (C : Client) (S : UBUITween) (hnd : (Serials S.ActiveInstances).Nodup)
    (Y : FBUITweenInstance) (hY : Y ∈ S.ActiveInstances) (e : Event) (Actions : List Action)
    (he : (e = Event.Started Y.Serial ∧ ∀ cb, Y.OnStartedDelegate = some cb →
        Actions = C.Starts cb) ∨
      (e = Event.Completed Y.Serial ∧ ∀ cb, Y.OnCompleteDelegate = some cb →
        Actions = C.Callbacks cb)) :
    C.Settled S ((S.Emit e).Run Actions) := by
  obtain ⟨W0, hW0⟩ := Run_Log Actions (S.Emit e)
  have hq0 := Run_quiet Actions (S.Emit e) W0 hW0
  obtain ⟨p, hA, -⟩ := Run_Active_filter Actions (S.Emit e)
  intro W hW
  have hWeq : W = e :: W0 := by
    rw [hW0] at hW
    have : S.World.Log ++ ([e] ++ W0) = S.World.Log ++ W := by
      rw [← hW]; show _ = S.World.Log ++ [e] ++ W0; rw [List.append_assoc]
    exact (List.append_cancel_left this).symm
  subst hWeq
  have hsig : ∀ x ∈ e :: W0, x.IsSignal = true → x = e := by
    intro x hx hs
    rcases List.mem_cons.mp hx with h | h
    · exact h
    · rw [hq0 x h] at hs; cases hs
  refine ⟨?_, ?_, ?_⟩
  · intro n hn
    have := hsig _ hn rfl
    rcases he with ⟨h, -⟩ | ⟨h, -⟩ <;> · rw [h] at this; cases this
  · intro n hn
    rcases hn with hn | hn
    · have := hsig _ hn rfl
      rcases he with ⟨h, -⟩ | ⟨h, -⟩
      · rw [h] at this; cases this; exact mem_Serials hY
      · rw [h] at this; cases this
    · have := hsig _ hn rfl
      rcases he with ⟨h, -⟩ | ⟨h, -⟩
      · rw [h] at this; cases this
      · rw [h] at this; cases this; exact mem_Serials hY
  · intro K hK hv hcl hmem
    obtain ⟨Y2, hY2, hc⟩ := hcl
    have hclear : ∃ a ∈ Actions, a.Clears = some K.pWidget := by
      rcases hc with ⟨hm, cb, hcb, ha⟩ | ⟨hm, cb, hcb, ha⟩
      · have := hsig _ hm rfl
        rcases he with ⟨h, hact⟩ | ⟨h, -⟩
        · rw [h] at this
          have hser : Y2.Serial = Y.Serial := Event.Started.inj this
          have hYY := Nodup_unique _ hnd Y2 Y hY2 hY hser
          subst hYY
          rw [hact cb hcb]; exact ha
        · rw [h] at this; cases this
      · have := hsig _ hm rfl
        rcases he with ⟨h, -⟩ | ⟨h, hact⟩
        · rw [h] at this; cases this
        · rw [h] at this
          have hser : Y2.Serial = Y.Serial := Event.Completed.inj this
          have hYY := Nodup_unique _ hnd Y2 Y hY2 hY hser
          subst hYY
          rw [hact cb hcb]; exact ha
    obtain ⟨J, hJ, hJs⟩ := List.mem_map.mp hmem
    have hJw := Run_clears Actions (S.Emit e) K.pWidget hv hclear J hJ
    rw [hA] at hJ
    have hJS : J ∈ S.ActiveInstances := (List.mem_filter.mp hJ).1
    have := Nodup_unique _ hnd J K hJS hK hJs
    exact hJw (by rw [this])

theorem Serial_not_mem_eraseIdx (A : List FBUITweenInstance) (hnd : (Serials A).Nodup) (i : Nat)
    (Inst : FBUITweenInstance) (hI : A[i]? = some Inst) :
    Inst.Serial ∉ Serials (A.eraseIdx i) := by
  intro hmem
  obtain ⟨J, hJ, hJs⟩ := List.mem_map.mp hmem
  obtain ⟨c, hcJ⟩ := List.mem_iff_getElem?.mp hJ
  rw [eraseIdx_index] at hcJ
  refine Serial_ne_of_index _ hnd i _ Inst J hI hcJ ?_ hJs
  split <;> omega

theorem Retire_Settled (C : Client) (T : UBUITween) (hnd : (Serials T.ActiveInstances).Nodup)
    (i : Nat) (Inst : FBUITweenInstance) (hI : T.ActiveInstances[i]? = some Inst) :
    C.Settled T (Inst.DoCompleteCleanup C.toEnv
      (UBUITween.Emit { T with ActiveInstances := T.ActiveInstances.eraseIdx i }
        (Event.Cleanup Inst.Serial))) := by
  have hgone := Serial_not_mem_eraseIdx _ hnd i Inst hI
  have hquiet : C.Settled T
      (UBUITween.Emit { T with ActiveInstances := T.ActiveInstances.eraseIdx i }
        (Event.Cleanup Inst.Serial)) := by
    intro W hW
    have hWeq : W = [Event.Cleanup Inst.Serial] :=
      (List.append_cancel_left (hW.symm.trans rfl)).symm ▸ rfl
    subst hWeq
    refine ⟨?_, ?_, ?_⟩
    · intro n hn
      rw [List.mem_singleton] at hn
      cases hn
      exact hgone
    · intro n hn
      rcases hn with h | h <;> · rw [List.mem_singleton] at h; cases h
    · intro K _ _ hY
      obtain ⟨Y, -, hc⟩ := hY
      rcases hc with ⟨hm, -⟩ | ⟨hm, -⟩ <;> · rw [List.mem_singleton] at hm; cases hm
  unfold FBUITweenInstance.DoCompleteCleanup
  split
  · exact hquiet
  · split
    · rename_i cb hcb
      obtain ⟨W0, hW0⟩ := Run_Log (C.Callbacks cb)
        (UBUITween.Emit (UBUITween.Emit
          { T with ActiveInstances := T.ActiveInstances.eraseIdx i }
          (Event.Cleanup Inst.Serial)) (Event.Completed Inst.Serial))
      have hq0 := Run_quiet _ _ W0 hW0
      obtain ⟨p, hA, -⟩ := Run_Active_filter (C.Callbacks cb)
        (UBUITween.Emit (UBUITween.Emit
          { T with ActiveInstances := T.ActiveInstances.eraseIdx i }
          (Event.Cleanup Inst.Serial)) (Event.Completed Inst.Serial))
      intro W hW
      have hWeq : W = Event.Cleanup Inst.Serial :: Event.Completed Inst.Serial :: W0 := by
        have h2 : T.World.Log ++ W =
            T.World.Log ++ (Event.Cleanup Inst.Serial :: Event.Completed Inst.Serial :: W0) := by
          rw [← hW]
          show ((UBUITween.Emit (UBUITween.Emit
            { T with ActiveInstances := T.ActiveInstances.eraseIdx i }
            (Event.Cleanup Inst.Serial)) (Event.Completed Inst.Serial)).Run
              (C.Callbacks cb)).World.Log = _
          rw [hW0]
          show T.World.Log ++ [Event.Cleanup Inst.Serial] ++ [Event.Completed Inst.Serial] ++
            W0 = _
          simp
        exact List.append_cancel_left h2
      subst hWeq
      have hsub : ∀ J ∈ ((UBUITween.Emit (UBUITween.Emit
          { T with ActiveInstances := T.ActiveInstances.eraseIdx i }
          (Event.Cleanup Inst.Serial)) (Event.Completed Inst.Serial)).Run
            (C.Callbacks cb)).ActiveInstances, J ∈ T.ActiveInstances.eraseIdx i := by
        intro J hJ
        rw [hA] at hJ
        exact (List.mem_filter.mp hJ).1
      have hsig : ∀ x ∈ Event.Cleanup Inst.Serial :: Event.Completed Inst.Serial :: W0,
          x.IsSignal = true →
          x = Event.Cleanup Inst.Serial ∨ x = Event.Completed Inst.Serial := by
        intro x hx hs
        rcases List.mem_cons.mp hx with h | h
        · exact Or.inl h
        · rcases List.mem_cons.mp h with h | h
          · exact Or.inr h
          · rw [hq0 x h] at hs; cases hs
      refine ⟨?_, ?_, ?_⟩
      · intro n hn hmem
        rcases hsig _ hn rfl with h | h
        · cases h
          obtain ⟨J, hJ, hJs⟩ := List.mem_map.mp hmem
          exact hgone (List.mem_map.mpr ⟨J, hsub J hJ, hJs⟩)
        · cases h
      · intro n hn
        rcases hn with hn | hn
        · rcases hsig _ hn rfl with h | h <;> cases h
        · rcases hsig _ hn rfl with h | h
          · cases h
          · cases h; exact mem_Serials (List.getElem?_mem hI)
      · intro K hK hv hcl hmem
        obtain ⟨Y, hYm, hc⟩ := hcl
        have hclear : ∃ a ∈ C.Callbacks cb, a.Clears = some K.pWidget := by
          rcases hc with ⟨hm, -⟩ | ⟨hm, cb2, hcb2, ha⟩
          · rcases hsig _ hm rfl with h | h <;> cases h
          · rcases hsig _ hm rfl with h | h
            · cases h
            · have hser : Y.Serial = Inst.Serial := Event.Completed.inj h
              have hYI := Nodup_unique _ hnd Y Inst hYm (List.getElem?_mem hI) hser
              subst hYI
              rw [hcb] at hcb2
              cases hcb2
              exact ha
        obtain ⟨J, hJ, hJs⟩ := List.mem_map.mp hmem
        have hJw := Run_clears (C.Callbacks cb)
          (UBUITween.Emit (UBUITween.Emit
            { T with ActiveInstances := T.ActiveInstances.eraseIdx i }
            (Event.Cleanup Inst.Serial)) (Event.Completed Inst.Serial)) K.pWidget hv hclear J hJ
        have hJT : J ∈ T.ActiveInstances := (List.eraseIdx_sublist _ _).subset (hsub J hJ)
        have := Nodup_unique _ hnd J K hJT hK hJs
        exact hJw (by rw [this])
    · exact hquiet

theorem Settled_of_world_eq (C : Client) (S T : UBUITween) (h : T.World = S.World) :
    C.Settled S T :=
  Settled_quiet C S T (quiet_of_log (show T.World.Log = S.World.Log ++ [] by rw [h]; simp)
    (fun _ he => by cases he))

theorem Through_Settled (C : Client) (S : UBUITween) (i : Nat)
    (f : FBUITweenInstance → FBUITweenInstance) : C.Settled S (S.Through i f) := by
  apply Settled_of_world_eq
  unfold UBUITween.Through
  split <;> rfl

theorem Evolved_Nodup (C : Client) {us : List Nat} {S T : UBUITween} (h : C.Evolved us S T)
    (hnd : (Serials S.ActiveInstances).Nodup) : (Serials T.ActiveInstances).Nodup := by
  obtain ⟨_, _, -, -, -, -, -, -, -, sub, -, -⟩ := h
  exact sub.nodup hnd

theorem Start_Settled (C : Client) (S : UBUITween) (hnd : (Serials S.ActiveInstances).Nodup)
    (i : Nat) (I : FBUITweenInstance) (hI : S.ActiveInstances[i]? = some I) :
    C.Settled S (C.Start S i I) := by
  unfold Client.Start
  cases hd : I.OnStartedDelegate with
  | none => exact Through_Settled C S i _
  | some cb =>
    obtain ⟨h1, -, -⟩ := Evolved_fire C S I (List.getElem?_mem hI) (Event.Started I.Serial)
      (C.Starts cb) (Or.inl ⟨rfl, cb, hd, rfl⟩)
    obtain ⟨h3, -⟩ := Through_Evolved C ((S.Emit (Event.Started I.Serial)).Run (C.Starts cb)) i
      (fun J => { J with bHasPlayedStartEvent := true }) (fun J => ⟨rfl, rfl, rfl, rfl⟩)
    have s1 := Fire_Settled C S hnd I (List.getElem?_mem hI) (Event.Started I.Serial)
      (C.Starts cb) (Or.inl ⟨rfl, fun cb2 h2 => by rw [hd] at h2; cases h2; rfl⟩)
    exact Settled_trans C hnd h1 h3 s1 (Through_Settled C _ i _)

theorem IsSignal_of_SerialOf {e : Event} (h : e.SerialOf = none) : e.IsSignal = false := by
  cases e <;> first | rfl | cases h

theorem Ramp_Settled (C : Client) (dt : ℚ) (S : UBUITween) (i : Nat) :
    C.Settled S (C.Ramp dt S i) := by
  unfold Client.Ramp
  split
  · exact Settled_of_world_eq C S S rfl
  · split
    · exact Settled_of_world_eq C S _ rfl
    · rename_i J hJ
      simp only []
      split
      · exact Settled_of_world_eq C S _ rfl
      · obtain ⟨W, hWs, hL⟩ := Apply_Raw (J.Advanced C.Round dt)
          ((J.Advanced C.Round dt).EasedAlpha C.Ease) S.World
        apply Settled_quiet
        apply quiet_of_log hL
        intro e he
        rcases List.mem_cons.mp he with h | h
        · rw [h]; rfl
        · exact IsSignal_of_SerialOf (hWs e h)

theorem InstanceUpdate_Settled (C : Client) (dt : ℚ) (S : UBUITween)
    (hnd : (Serials S.ActiveInstances).Nodup) (i : Nat) (I : FBUITweenInstance)
    (hI : S.ActiveInstances[i]? = some I) : C.Settled S (C.InstanceUpdate dt S i) := by
  have h0 : C.Evolved [I.Serial] S (S.Emit (Event.InstUpdate I.Serial)) :=
    Evolved_host C S (S.World.Emit (Event.InstUpdate I.Serial)) [Event.InstUpdate I.Serial] rfl
      rfl (fun _ => rfl)
  have q0 : ∀ (T : UBUITween), T.World = S.World.Emit (Event.InstUpdate I.Serial) →
      C.Settled S T := by
    intro T hT
    apply Settled_quiet
    apply quiet_of_log
      (show T.World.Log = S.World.Log ++ [Event.InstUpdate I.Serial] by rw [hT]; rfl)
    intro e he
    rw [List.mem_singleton.mp he]; rfl
  have hI0 : (S.Emit (Event.InstUpdate I.Serial)).ActiveInstances[i]? = some I := hI
  have hnd0 : (Serials (S.Emit (Event.InstUpdate I.Serial)).ActiveInstances).Nodup := hnd
  unfold Client.InstanceUpdate
  rw [hI]
  simp only []
  split
  · exact q0 _ rfl
  · split
    · exact q0 _ rfl
    · split
      · exact q0 _ rfl
      · split
        · obtain ⟨h1, -⟩ := Start_Evolved C (S.Emit (Event.InstUpdate I.Serial)) i I hI0
          obtain ⟨h2, -⟩ := Ramp_Evolved C dt
            (C.Start (S.Emit (Event.InstUpdate I.Serial)) i I) i
          have s1 := Start_Settled C (S.Emit (Event.InstUpdate I.Serial)) hnd0 i I hI0
          have s12 := Settled_trans C hnd0 h1 h2 s1 (Ramp_Settled C dt _ i)
          exact Settled_trans C hnd h0 (Evolved_trans C h1 h2) (q0 _ rfl) s12
        · obtain ⟨h2, -⟩ := Ramp_Evolved C dt (S.Emit (Event.InstUpdate I.Serial)) i
          exact Settled_trans C hnd h0 h2 (q0 _ rfl) (Ramp_Settled C dt _ i)

theorem Visit_Settled (C : Client) (dt : ℚ) (S : UBUITween)
    (hnd : (Serials S.ActiveInstances).Nodup) (i : Nat) (I : FBUITweenInstance)
    (hI : S.ActiveInstances[i]? = some I) : C.Settled S (C.Visit dt S i) := by
  obtain ⟨h1, -⟩ := InstanceUpdate_Evolved C dt S i I hI
  have s1 := InstanceUpdate_Settled C dt S hnd i I hI
  have hnd1 := Evolved_Nodup C h1 hnd
  unfold Client.Visit
  simp only []
  split
  · exact s1
  · split
    · exact Settled_trans C hnd h1 (Evolved_of_eq C rfl rfl rfl rfl) s1
        (Settled_of_world_eq C _ _ rfl)
    · rename_i Inst hInst
      split
      · obtain ⟨h2, -⟩ := Retire_Evolved C (C.InstanceUpdate dt S i) i Inst hInst
        exact Settled_trans C hnd h1 h2 s1
          (Retire_Settled C (C.InstanceUpdate dt S i) hnd1 i Inst hInst)
      · exact s1

theorem Client_UpdateLoop_Settled (C : Client) (dt : ℚ) :
    ∀ (k : Nat) (S : UBUITween), (Serials S.ActiveInstances).Nodup →
      C.Settled S (C.UpdateLoop dt k S) := by
  intro k
  induction k with
  | zero => intro S _; exact Settled_of_world_eq C S S rfl
  | succ k ih =>
    intro S hnd
    unfold Client.UpdateLoop
    cases hI : S.ActiveInstances[k]? with
    | none => exact Settled_of_world_eq C S _ rfl
    | some I =>
      simp only []
      obtain ⟨h1, -⟩ := Visit_Evolved C dt S k I hI
      have s1 := Visit_Settled C dt S hnd k I hI
      split
      · exact s1
      · obtain ⟨us, h2⟩ := Client_UpdateLoop_Evolved C dt k (C.Visit dt S k)
        exact Settled_trans C hnd h1 h2 s1 (ih _ (Evolved_Nodup C h1 hnd))

/-! ### The survivors of a call, from both sides -/

/-- C12. The merge at the end of `Update`, for every client (start and completion callbacks
that call the scheduler, any rounding): when `Update` returns (no fault), `InstancesToAdd` is
empty and `ActiveInstances` is `L ++ P ++ Cr`.  `P` is the pending list of before the call,
unchanged, and `Cr` holds the instances the callbacks of this call created, numbered
consecutively from `NextSerial`, the order of their construction in the trace.  `L` holds
the survivors: its serials are a sublist of the serials active before the call (original
relative order), every entry of `L` is incomplete and is an instance that was active, and
every instance that was active is in `L` unless its cleanup ran during the call or a callback
that fired during the call cleared its widget.  Conversely, when the serials active before
the call are pairwise distinct, an instance whose cleanup ran during the call, or whose valid
widget a callback that fired during the call cleared, is not in `L`. -/
theorem Update_merges_pending (C : Client) (S : UBUITween) (DeltaTime : ℚ)
    (hret : (C.Update S DeltaTime).Fault = false) :
    (C.Update S DeltaTime).InstancesToAdd = [] ∧
    ∃ L Cr W, (C.Update S DeltaTime).ActiveInstances = L ++ S.InstancesToAdd ++ Cr ∧
      (C.Update S DeltaTime).World.Log = S.World.Log ++ W ∧
      (Serials L).Sublist (Serials S.ActiveInstances) ∧
      (∀ J ∈ L, J.bIsComplete = false ∧ ∃ X ∈ S.ActiveInstances, J.Kin X) ∧
      (∀ X ∈ S.ActiveInstances,
        (∃ J ∈ L, J.Kin X) ∨ Event.Cleanup X.Serial ∈ W ∨
        (S.World.IsValid X.pWidget = true ∧
          ∃ Y ∈ S.ActiveInstances, C.ClearedBy Y W X.pWidget)) ∧
      ((Serials S.ActiveInstances).Nodup → ∀ X ∈ S.ActiveInstances,
        Event.Cleanup X.Serial ∈ W ∨
        (S.World.IsValid X.pWidget = true ∧
          ∃ Y ∈ S.ActiveInstances, C.ClearedBy Y W X.pWidget) →
        X.Serial ∉ Serials L) ∧
      Serials Cr = List.range' S.NextSerial Cr.length ∧
      CreatedOf W = Serials Cr := by
  obtain ⟨us, Cr, W, hP, hS, -, hL, hC, -, -, hsub, hkin, hsurv⟩ :=
    Client_UpdateLoop_Evolved C DeltaTime S.ActiveInstances.length S
  have hinc := Client_UpdateLoop_incomplete C DeltaTime S.ActiveInstances.length S
    (by intro J hJ; simp at hJ)
  have hset : (Serials S.ActiveInstances).Nodup → ∀ X ∈ S.ActiveInstances,
      Event.Cleanup X.Serial ∈ W ∨
      (S.World.IsValid X.pWidget = true ∧
        ∃ Y ∈ S.ActiveInstances, C.ClearedBy Y W X.pWidget) →
      X.Serial ∉ Serials (C.UpdateLoop DeltaTime S.ActiveInstances.length S).ActiveInstances := by
    intro hnd X hX h
    obtain ⟨h1, -, h3⟩ := Client_UpdateLoop_Settled C DeltaTime S.ActiveInstances.length S hnd W hL
    rcases h with h | ⟨hv, hc⟩
    · exact h1 _ h
    · exact h3 X hX hv hc
  unfold Client.Update at hret ⊢
  cases hf : (C.UpdateLoop DeltaTime S.ActiveInstances.length S).Fault
  · simp only [hf, Bool.false_eq_true, if_false, AddLoop_eq]
    rw [hf] at hinc
    have hinc2 := hinc.resolve_left (by simp)
    refine ⟨trivial, _, Cr, W, ?_, hL, hsub, fun J hJ => ⟨hinc2 J hJ, hkin J hJ⟩, hsurv, hset,
      hS, hC⟩
    rw [hP, List.append_assoc]
  · simp [hf] at hret

/-- Witness of C12: `Scenario.Backlog` has the serials 0, 1, 2 active (pairwise distinct) and
3 pending; in `Update(1)` instance 1 completes and its callback creates instance 4; the call
returns with 0, 2, 3, 4 active and nothing pending. -/
theorem Update_merges_pending_witness :
    Serials Scenario.Backlog.ActiveInstances = [0, 1, 2] ∧
    (Serials Scenario.Backlog.ActiveInstances).Nodup ∧
    Serials Scenario.Backlog.InstancesToAdd = [3] ∧
    Serials (Scenario.Chaining.Plain.Update Scenario.Backlog 1).ActiveInstances =
      [0, 2, 3, 4] ∧
    (Scenario.Chaining.Plain.Update Scenario.Backlog 1).InstancesToAdd = [] :=
  ⟨by decide!, by decide!, by decide!, by decide!,
    (Update_merges_pending Scenario.Chaining.Plain Scenario.Backlog 1 (by decide!)).1⟩

end UITween
